import Mathlib

/-!
# WeKnow resilience core: circuit breaker, retrying embedding client, streams

A shallow embedding of `internal/utils/circuitbreaker.go` (breaker and
registry), of the retry loop of `internal/models/embedding/openai.go`, of
`internal/stream/memory_manager.go`, and of the built-in agent lookup and the
credential masking of `internal/types`.

Conventions of the embedding:

* Go `int`, `time.Duration` are 64-bit: values are `Int`, increments go through
  `wrapInt64`, `time.Time.Sub` saturates (`satInt64`).
* `time.Time` is an `Int` count of nanoseconds; the zero `time.Time` is `0`.
  Every clock reading (`time.Now()`, `time.Since`) is an explicit argument.
* The mutex only serialises the critical sections; each critical section is a
  pure function from the breaker before to the breaker after.
* Logging and the detached `OnStateChange` goroutine do not touch breaker state
  and are left out.
* Go maps are lists of entries read with `mapLookup` and written with
  `mapInsert`; pointers handed out by the registry are addresses in a heap list.
* A run-time panic is the result `none`.
-/

namespace WeKnow

/-! ## Machine integers -/

/-- Membership in the range of a Go `int64`. -/
def isInt64 (x : Int) : Prop :=
  -9223372036854775808 ≤ x ∧ x ≤ 9223372036854775807

instance (x : Int) : Decidable (isInt64 x) :=
  inferInstanceAs (Decidable (-9223372036854775808 ≤ x ∧ x ≤ 9223372036854775807))

/-- Two-complement wrap-around of a 64-bit signed result. -/
def wrapInt64 (x : Int) : Int :=
  (x + 9223372036854775808) % 18446744073709551616 - 9223372036854775808

/-- Saturation used by `time.Time.Sub` when the difference leaves `int64`. -/
def satInt64 (x : Int) : Int :=
  if x < -9223372036854775808 then -9223372036854775808
  else if x > 9223372036854775807 then 9223372036854775807
  else x

/-- The constant `time.Second`, in nanoseconds. -/
def Second : Int := 1000000000

/-- The call `time.Since(t)` evaluated when the clock reads `now`. -/
def timeSince (now t : Int) : Int := satInt64 (now - t)

/-! ## Errors -/

/-- The error values that flow through the breaker and the retry loop. -/
inductive Error where
  /-- The sentinel `ErrCircuitBreakerOpen`. -/
  | ErrCircuitBreakerOpen
  /-- The value of `ctx.Err()` after `ctx.Done()` fired. -/
  | ctxErr
  /-- The value `fmt.Errorf("server error: %d", status)`. -/
  | serverError (status : Int)
  /-- An error returned by `httpClient.Do`, identified by a tag. -/
  | transportErr (tag : Nat)
  /-- The value `fmt.Errorf("embedding service temporarily unavailable (circuit breaker open)")`. -/
  | unavailable
  /-- Any other error a wrapped function may return. -/
  | other (tag : Nat)
  deriving DecidableEq, Repr

/-! ## circuitbreaker.go -/

/-- The type `CircuitBreakerState` with its three declared constants. -/
inductive CircuitBreakerState where
  | StateClosed
  | StateOpen
  | StateHalfOpen
  deriving DecidableEq, Repr

open CircuitBreakerState

/-- The struct `CircuitBreakerConfig`. The callback `OnStateChange` is kept as
an opaque function value (`none` is nil); the breaker only ever starts it on a
detached goroutine. -/
structure CircuitBreakerConfig where
  Name : String
  MaxFailures : Int
  Timeout : Int
  MaxHalfOpenRequests : Int
  OnStateChange : Option Nat := none
  deriving DecidableEq, Repr

/-- The struct `CircuitBreaker` without its mutex. -/
structure CircuitBreaker where
  config : CircuitBreakerConfig
  state : CircuitBreakerState
  failures : Int
  successes : Int
  lastFailureTime : Int
  halfOpenRequests : Int
  deriving DecidableEq, Repr

/-- The function `DefaultCircuitBreakerConfig`. -/
def DefaultCircuitBreakerConfig (name : String) : CircuitBreakerConfig :=
  { Name := name, MaxFailures := 5, Timeout := 30 * Second, MaxHalfOpenRequests := 3 }

/-- The constructor `NewCircuitBreaker`. -/
def NewCircuitBreaker (config : CircuitBreakerConfig) : CircuitBreaker :=
  let config := if config.MaxFailures ≤ 0 then { config with MaxFailures := 5 } else config
  let config := if config.Timeout ≤ 0 then { config with Timeout := 30 * Second } else config
  let config :=
    if config.MaxHalfOpenRequests ≤ 0 then { config with MaxHalfOpenRequests := 3 } else config
  { config := config, state := StateClosed, failures := 0, successes := 0,
    lastFailureTime := 0, halfOpenRequests := 0 }

/-- The method `toOpen`. -/
def toOpen (cb : CircuitBreaker) : CircuitBreaker :=
  if cb.state = StateOpen then cb
  else { cb with state := StateOpen, halfOpenRequests := 0, successes := 0 }

/-- The method `toHalfOpen`. -/
def toHalfOpen (cb : CircuitBreaker) : CircuitBreaker :=
  if cb.state = StateHalfOpen then cb
  else { cb with state := StateHalfOpen, halfOpenRequests := 0, successes := 0, failures := 0 }

/-- The method `toClosed`. -/
def toClosed (cb : CircuitBreaker) : CircuitBreaker :=
  if cb.state = StateClosed then cb
  else { cb with state := StateClosed, failures := 0, successes := 0, halfOpenRequests := 0 }

/-- The method `allowRequest`, evaluated when the clock reads `now`:
the verdict and the breaker afterwards. -/
def allowRequest (cb : CircuitBreaker) (now : Int) : Bool × CircuitBreaker :=
  match cb.state with
  | StateClosed => (true, cb)
  | StateOpen =>
    if timeSince now cb.lastFailureTime > cb.config.Timeout then (true, toHalfOpen cb)
    else (false, cb)
  | StateHalfOpen =>
    if cb.halfOpenRequests < cb.config.MaxHalfOpenRequests then
      (true, { cb with halfOpenRequests := wrapInt64 (cb.halfOpenRequests + 1) })
    else (false, cb)

/-- The method `onSuccess`. -/
def onSuccess (cb : CircuitBreaker) : CircuitBreaker :=
  match cb.state with
  | StateClosed => { cb with failures := 0 }
  | StateHalfOpen =>
    let cb := { cb with successes := wrapInt64 (cb.successes + 1) }
    if cb.successes ≥ cb.config.MaxHalfOpenRequests then toClosed cb else cb
  | StateOpen => cb

/-- The method `onFailure`; `now` is the reading of `time.Now()`. -/
def onFailure (cb : CircuitBreaker) (now : Int) : CircuitBreaker :=
  let cb := { cb with failures := wrapInt64 (cb.failures + 1) }
  let cb := { cb with lastFailureTime := now }
  match cb.state with
  | StateClosed => if cb.failures ≥ cb.config.MaxFailures then toOpen cb else cb
  | StateHalfOpen => toOpen cb
  | StateOpen => cb

/-- The method `recordResult`; `err = none` is Go's `nil`. -/
def recordResult (cb : CircuitBreaker) (now : Int) (err : Option Error) : CircuitBreaker :=
  if err ≠ none then onFailure cb now else onSuccess cb

/-- What an `Execute` call did, in order. -/
inductive ExecEvent where
  /-- The call returned `ErrCircuitBreakerOpen` before reaching `fn`. -/
  | rejected
  /-- The wrapped function `fn` was called. -/
  | invoked
  /-- The method `recordResult` took the `onSuccess` branch. -/
  | recordedSuccess
  /-- The method `recordResult` took the `onFailure` branch. -/
  | recordedFailure
  deriving DecidableEq, Repr

/-- Everything observable after one `Execute` call. -/
structure ExecResult (W : Type) where
  err : Option Error
  cb : CircuitBreaker
  world : W
  trace : List ExecEvent

/-- The method `Execute`. The wrapped closure `fn` acts on the variables it
captured (`W`) and returns its error; `tAdmit` is the clock at the admission
check and `tRecord` the clock when the result is recorded. -/
def Execute {W : Type} (cb : CircuitBreaker) (tAdmit tRecord : Int)
    (fn : W → Option Error × W) (w : W) : ExecResult W :=
  match allowRequest cb tAdmit with
  | (false, cb1) =>
    { err := some Error.ErrCircuitBreakerOpen, cb := cb1, world := w,
      trace := [ExecEvent.rejected] }
  | (true, cb1) =>
    let r := fn w
    { err := r.1, cb := recordResult cb1 tRecord r.1, world := r.2,
      trace := [ExecEvent.invoked,
        if r.1 ≠ none then ExecEvent.recordedFailure else ExecEvent.recordedSuccess] }

/-- The method `State`. -/
def State (cb : CircuitBreaker) : CircuitBreakerState := cb.state

/-! ## Drivers: sequences of calls on one breaker -/

/-- One `Execute` call of a sequential caller. -/
structure Call (W : Type) where
  tAdmit : Int
  tRecord : Int
  fn : W → Option Error × W

/-- Consecutive `Execute` calls, each finishing before the next starts. -/
def executeAll {W : Type} : CircuitBreaker → W → List (Call W) → CircuitBreaker × W
  | cb, w, [] => (cb, w)
  | cb, w, c :: cs =>
    let r := Execute cb c.tAdmit c.tRecord c.fn w
    executeAll r.cb r.world cs

/-- Consecutive admission checks at the given clock readings, with no result
recorded in between: the verdicts in order and the breaker afterwards. -/
def admitAll : CircuitBreaker → List Int → List Bool × CircuitBreaker
  | cb, [] => ([], cb)
  | cb, t :: ts =>
    let r := allowRequest cb t
    let rest := admitAll r.2 ts
    (r.1 :: rest.1, rest.2)

/-- Consecutive recorded successes (`recordResult` with a nil error). -/
def recordSuccesses : CircuitBreaker → List Int → CircuitBreaker
  | cb, [] => cb
  | cb, t :: ts => recordSuccesses (recordResult cb t none) ts

/-! ## openai.go: the retry loop of `doRequestWithRetry` -/

/-- The part of an `*http.Response` the loop inspects. -/
structure Response where
  StatusCode : Int
  deriving DecidableEq, Repr

/-- How one pass through the loop body ends once the request is being built. -/
inductive AttemptOutcome where
  /-- The call `http.NewRequestWithContext` returned `reqErr != nil`. -/
  | requestError
  /-- The call `httpClient.Do` returned `err != nil` (with whatever response). -/
  | doError (resp : Option Response) (err : Error)
  /-- The call `httpClient.Do` returned a response and `err == nil`. -/
  | doResponse (resp : Response)
  deriving DecidableEq, Repr

/-- What the loop did, in order. -/
inductive LoopEvent where
  /-- Iteration `i > 0` entered the `select` with `time.After(d)`. -/
  | backoff (i : Nat) (d : Int)
  /-- The `select` of iteration `i` took the `ctx.Done()` branch. -/
  | ctxDone (i : Nat)
  /-- Iteration `i` went on to build and send its request. -/
  | attempt (i : Nat)
  deriving DecidableEq, Repr

/-- The surroundings of one `doRequestWithRetry` call: how the attempt of
iteration `i` ends, and whether the `select` of iteration `i` takes `ctx.Done()`. -/
structure Env where
  outcome : Nat → AttemptOutcome
  ctxDone : Nat → Bool

/-- The struct `OpenAIEmbedder`, reduced to the field the loop reads; the
breaker it points to is passed alongside. -/
structure OpenAIEmbedder where
  maxRetries : Int
  deriving DecidableEq, Repr

/-- The breaker configuration and `maxRetries` chosen by `NewOpenAIEmbedder`. -/
def NewOpenAIEmbedder (modelName : String) : OpenAIEmbedder × CircuitBreakerConfig :=
  ({ maxRetries := 3 },
   { Name := "openai-embedding-" ++ modelName, MaxFailures := 5, Timeout := 30 * Second,
     MaxHalfOpenRequests := 3 })

/-- The variables `resp` and `err` captured by the closure, with the event log. -/
structure Captured where
  resp : Option Response
  err : Option Error
  log : List LoopEvent
  deriving DecidableEq, Repr

/-- The expression `1<<uint(s)` at type `time.Duration`: the shift count is
converted to `uint`, counts of 64 and more give `0`. -/
def shiftLeftOne (s : Int) : Int :=
  let u := s % 18446744073709551616
  if u ≥ 64 then 0 else wrapInt64 (2 ^ u.toNat)

/-- The value of `backoffTime` computed in iteration `i`. -/
def backoffTime (i : Int) : Int :=
  let backoffTime := wrapInt64 (shiftLeftOne (i - 1) * Second)
  if backoffTime > 10 * Second then 10 * Second else backoffTime

/-- Whether the loop goes round again after this outcome. -/
def retried : AttemptOutcome → Bool
  | AttemptOutcome.requestError => true
  | AttemptOutcome.doError _ _ => true
  | AttemptOutcome.doResponse resp => decide (resp.StatusCode ≥ 500 ∨ resp.StatusCode = 429)

/-- The loop `for i := 0; i <= e.maxRetries; i++` inside the closure, from
index `i` on. The first argument only bounds the recursion; the loop leaves
through `i <= e.maxRetries` or a `return`. The index is unbounded: `i++`
cannot overflow for the `maxRetries` the constructor sets. -/
def retryLoop (e : OpenAIEmbedder) (env : Env) :
    Nat → Nat → Captured → Option Error × Captured
  | 0, _, c => (c.err, c)
  | fuel + 1, i, c =>
    if (i : Int) ≤ e.maxRetries then
      let c :=
        if i > 0 then { c with log := c.log ++ [LoopEvent.backoff i (backoffTime i)] } else c
      if i > 0 ∧ env.ctxDone i = true then
        (some Error.ctxErr, { c with log := c.log ++ [LoopEvent.ctxDone i] })
      else
        let c := { c with log := c.log ++ [LoopEvent.attempt i] }
        match env.outcome i with
        | AttemptOutcome.requestError => retryLoop e env fuel (i + 1) c
        | AttemptOutcome.doError resp err =>
          retryLoop e env fuel (i + 1) { c with resp := resp, err := some err }
        | AttemptOutcome.doResponse resp =>
          let c := { c with resp := some resp, err := none }
          if resp.StatusCode ≥ 500 ∨ resp.StatusCode = 429 then
            retryLoop e env fuel (i + 1)
              { c with err := some (Error.serverError resp.StatusCode) }
          else (none, c)
    else (c.err, c)

/-- The closure passed to `Execute`. -/
def retryClosure (e : OpenAIEmbedder) (env : Env) (c : Captured) : Option Error × Captured :=
  retryLoop e env ((e.maxRetries + 1).toNat + 1) 0 c

/-- Everything observable after one `doRequestWithRetry` call. -/
structure RetryResult where
  resp : Option Response
  err : Option Error
  cb : CircuitBreaker
  trace : List ExecEvent
  log : List LoopEvent
  deriving DecidableEq, Repr

/-- The method `doRequestWithRetry` run against the breaker `cb`. -/
def doRequestWithRetry (e : OpenAIEmbedder) (cb : CircuitBreaker) (tAdmit tRecord : Int)
    (env : Env) : RetryResult :=
  let r := Execute cb tAdmit tRecord (retryClosure e env) { resp := none, err := none, log := [] }
  match r.err with
  | some cbErr =>
    if cbErr = Error.ErrCircuitBreakerOpen then
      { resp := none, err := some Error.unavailable, cb := r.cb, trace := r.trace,
        log := r.world.log }
    else { resp := none, err := some cbErr, cb := r.cb, trace := r.trace, log := r.world.log }
  | none => { resp := r.world.resp, err := none, cb := r.cb, trace := r.trace,
              log := r.world.log }

/-- Whether iteration `i` sent a request in a finished run. -/
def attemptMade (r : RetryResult) (i : Nat) : Prop := LoopEvent.attempt i ∈ r.log

instance (r : RetryResult) (i : Nat) : Decidable (attemptMade r i) :=
  inferInstanceAs (Decidable (LoopEvent.attempt i ∈ r.log))

/-- The number of requests a finished run sent. -/
def attemptCount (log : List LoopEvent) : Nat :=
  (log.filter (fun ev => match ev with
    | LoopEvent.attempt _ => true
    | _ => false)).length

/-- Surroundings given by a finite list of outcomes (request errors beyond it)
and a context that is never cancelled. -/
def envOfList (os : List AttemptOutcome) : Env :=
  { outcome := fun i => os.getD i AttemptOutcome.requestError, ctxDone := fun _ => false }

/-- Whether the attempt ended in an error of `http.NewRequestWithContext`. -/
def isRequestError : AttemptOutcome → Bool
  | AttemptOutcome.requestError => true
  | _ => false

/-- Whether the attempt ended in an error of `httpClient.Do`. -/
def isTransportError : AttemptOutcome → Bool
  | AttemptOutcome.doError _ _ => true
  | _ => false

/-- Whether the attempt ended in a response with status `>= 500` or `429`. -/
def isRetryStatus : AttemptOutcome → Bool
  | AttemptOutcome.doResponse resp => decide (resp.StatusCode ≥ 500 ∨ resp.StatusCode = 429)
  | _ => false

/-- The log after iteration `i` has waited (for `i > 0`) and sent its request. -/
def iterLog (i : Nat) (log : List LoopEvent) : List LoopEvent :=
  (if i > 0 then log ++ [LoopEvent.backoff i (backoffTime i)] else log) ++ [LoopEvent.attempt i]

/-- Iteration `j` sends its request in a loop started at index `i`: it is within
the bound, every earlier attempt was retried, and no wait up to `j` was cancelled. -/
def reaches (e : OpenAIEmbedder) (env : Env) (i j : Nat) : Prop :=
  i ≤ j ∧ (j : Int) ≤ e.maxRetries ∧
  (∀ k, i ≤ k → k < j → retried (env.outcome k) = true) ∧
  (∀ k, i ≤ k → k ≤ j → 0 < k → env.ctxDone k = false)

/-- The events of a loop from index `i` in which every attempt is retried and
no wait is cancelled; the first argument bounds the recursion as in `retryLoop`. -/
def fullLog (e : OpenAIEmbedder) : Nat → Nat → List LoopEvent
  | 0, _ => []
  | fuel + 1, i =>
    if (i : Int) ≤ e.maxRetries then iterLog i [] ++ fullLog e fuel (i + 1) else []

/-- Every event except the cancellation marker. -/
def notCtxDone : LoopEvent → Bool
  | LoopEvent.ctxDone _ => false
  | _ => true

/-- A call whose wrapped function fails and touches nothing. -/
def failingCall : Call Unit :=
  { tAdmit := 0, tRecord := 0, fn := fun w => (some (Error.other 0), w) }

/-- A call, made at 31 s, whose wrapped function succeeds and touches nothing. -/
def succeedingCall : Call Unit :=
  { tAdmit := 31 * Second, tRecord := 31 * Second, fn := fun w => (none, w) }

/-- A wrapped function that counts its invocations and fails. -/
def countingFn (n : Nat) : Option Error × Nat := (some (Error.other 0), n + 1)

/-- A breaker with the default configuration in the given state, tripped at time `0`. -/
def sampleBreaker (st : CircuitBreakerState) (failures : Int) : CircuitBreaker :=
  { NewCircuitBreaker (DefaultCircuitBreakerConfig "dep") with
    state := st, failures := failures, lastFailureTime := 0 }

/-- A half-open breaker with the default configuration, one probe success
recorded and two probes admitted. -/
def probingBreaker : CircuitBreaker :=
  { NewCircuitBreaker (DefaultCircuitBreakerConfig "dep") with
    state := StateHalfOpen, successes := 1, halfOpenRequests := 2 }

/-! ## Steps of one breaker -/

/-- One critical section on a breaker: an admission check or a recorded result. -/
inductive BreakerStep where
  /-- The method `allowRequest` run when the clock reads `now`. -/
  | admission (now : Int)
  /-- The method `recordResult` run when the clock reads `now`. -/
  | record (now : Int) (err : Option Error)
  deriving DecidableEq, Repr

/-- The breaker after one step. -/
def applyStep (cb : CircuitBreaker) : BreakerStep → CircuitBreaker
  | BreakerStep.admission now => (allowRequest cb now).2
  | BreakerStep.record now err => recordResult cb now err

/-- The four transitions listed for the state machine. -/
def listedTransition : CircuitBreakerState → CircuitBreakerState → Bool
  | StateClosed, StateOpen => true
  | StateOpen, StateHalfOpen => true
  | StateHalfOpen, StateClosed => true
  | StateHalfOpen, StateOpen => true
  | _, _ => false

/-! ## circuitbreaker.go: the registry -/

/-- The struct `CircuitBreakerRegistry`. The map holds pointers: a breaker
instance is its address in `heap`, the list of breakers allocated so far. -/
structure CircuitBreakerRegistry where
  heap : List CircuitBreaker
  breakers : List (String × Nat)
  deriving DecidableEq, Repr

/-- Reading a Go map with string keys kept as a list of entries. -/
def mapLookup {β : Type} : List (String × β) → String → Option β
  | [], _ => none
  | (k', v') :: m, k => if k' = k then some v' else mapLookup m k

/-- Writing `m[k] = v`: the entry of `k` is replaced, or added when absent. -/
def mapInsert {β : Type} : List (String × β) → String → β → List (String × β)
  | [], k, v => [(k, v)]
  | (k', v') :: m, k, v => if k' = k then (k, v) :: m else (k', v') :: mapInsert m k v

/-- The constructor `NewCircuitBreakerRegistry`. -/
def NewCircuitBreakerRegistry : CircuitBreakerRegistry := { heap := [], breakers := [] }

/-- The method `GetWithConfig`: the read-locked lookup, then under the write
lock the second lookup and the creation. Returns the pointer and the registry. -/
def CircuitBreakerRegistry.GetWithConfig (r : CircuitBreakerRegistry)
    (config : CircuitBreakerConfig) : Nat × CircuitBreakerRegistry :=
  match mapLookup r.breakers config.Name with
  | some cb => (cb, r)
  | none =>
    match mapLookup r.breakers config.Name with
    | some cb => (cb, r)
    | none =>
      (r.heap.length,
       { heap := r.heap ++ [NewCircuitBreaker config],
         breakers := mapInsert r.breakers config.Name r.heap.length })

/-- The method `Get`. -/
def CircuitBreakerRegistry.Get (r : CircuitBreakerRegistry) (name : String) :
    Nat × CircuitBreakerRegistry :=
  match mapLookup r.breakers name with
  | some cb => (cb, r)
  | none =>
    match mapLookup r.breakers name with
    | some cb => (cb, r)
    | none =>
      (r.heap.length,
       { heap := r.heap ++ [NewCircuitBreaker (DefaultCircuitBreakerConfig name)],
         breakers := mapInsert r.breakers name r.heap.length })

/-- One call on the registry. -/
inductive RegistryCall where
  | Get (name : String)
  | GetWithConfig (config : CircuitBreakerConfig)
  deriving DecidableEq, Repr

/-- The name a registry call asks for. -/
def RegistryCall.key : RegistryCall → String
  | RegistryCall.Get name => name
  | RegistryCall.GetWithConfig config => config.Name

/-- The configuration a registry call would create its breaker with. -/
def RegistryCall.config : RegistryCall → CircuitBreakerConfig
  | RegistryCall.Get name => DefaultCircuitBreakerConfig name
  | RegistryCall.GetWithConfig config => config

/-- One registry call: the returned pointer and the registry afterwards. -/
def callRegistry (r : CircuitBreakerRegistry) : RegistryCall → Nat × CircuitBreakerRegistry
  | RegistryCall.Get name => r.Get name
  | RegistryCall.GetWithConfig config => r.GetWithConfig config

/-- A sequence of registry calls: each call with the pointer it returned, and
the registry afterwards. -/
def runRegistry : CircuitBreakerRegistry → List RegistryCall →
    List (RegistryCall × Nat) × CircuitBreakerRegistry
  | r, [] => ([], r)
  | r, c :: cs =>
    let step := callRegistry r c
    let rest := runRegistry step.2 cs
    ((c, step.1) :: rest.1, rest.2)

/-! ## memory_manager.go -/

/-- Modelled from the spec: the declaration of `interfaces.StreamEvent` is not
among the sources; an event is an opaque payload with an optional timestamp
(the zero time, `0`, when absent). -/
structure StreamEvent where
  Timestamp : Int
  payload : Nat
  deriving DecidableEq, Repr

/-- The constant `DefaultCleanupInterval`. -/
def DefaultCleanupInterval : Int := 5 * (60 * Second)

/-- The constant `DefaultMaxAge`. -/
def DefaultMaxAge : Int := 30 * (60 * Second)

/-- The constant `DefaultMaxEventsPerStream`. -/
def DefaultMaxEventsPerStream : Int := 10000

/-- The struct `memoryStreamData` without its mutex. -/
structure memoryStreamData where
  events : List StreamEvent
  lastUpdated : Int
  createdAt : Int
  deriving DecidableEq, Repr

/-- The struct `MemoryStreamManager` without its mutex and channels. -/
structure MemoryStreamManager where
  streams : List (String × List (String × memoryStreamData))
  cleanupInterval : Int
  maxAge : Int
  deriving DecidableEq, Repr

/-- The options `WithCleanupInterval` and `WithMaxAge`. -/
inductive MemoryStreamManagerOption where
  | WithCleanupInterval (interval : Int)
  | WithMaxAge (maxAge : Int)
  deriving DecidableEq, Repr

/-- Applying one option to the manager under construction. -/
def applyOption (m : MemoryStreamManager) : MemoryStreamManagerOption → MemoryStreamManager
  | MemoryStreamManagerOption.WithCleanupInterval interval => { m with cleanupInterval := interval }
  | MemoryStreamManagerOption.WithMaxAge maxAge => { m with maxAge := maxAge }

/-- The constructor `NewMemoryStreamManager`; the ticks of the cleanup routine
it starts are explicit `cleanup` calls. -/
def NewMemoryStreamManager (opts : List MemoryStreamManagerOption) : MemoryStreamManager :=
  opts.foldl applyOption
    { streams := [], cleanupInterval := DefaultCleanupInterval, maxAge := DefaultMaxAge }

/-- The test `now.Sub(data.lastUpdated) > m.maxAge` of `cleanup`. -/
def isExpired (maxAge now : Int) (data : memoryStreamData) : Bool :=
  decide (timeSince now data.lastUpdated > maxAge)

/-- The method `cleanup` run when `time.Now()` reads `now`. -/
def cleanup (m : MemoryStreamManager) (now : Int) : MemoryStreamManager :=
  { m with streams := m.streams.filterMap (fun entry =>
      let messages := entry.2.filter (fun msg => !isExpired m.maxAge now msg.2)
      if messages.length = 0 then none else some (entry.1, messages)) }

/-- The method `Stats`: sessions, total messages, total events. -/
def Stats (m : MemoryStreamManager) : Nat × Nat × Nat :=
  (m.streams.length,
   (m.streams.map (fun entry => entry.2.length)).sum,
   (m.streams.map (fun entry => (entry.2.map (fun msg => msg.2.events.length)).sum)).sum)

/-- The method `getOrCreateStream`; `now` is read only when a buffer is created.
The returned pointer is the buffer stored under the two keys afterwards. -/
def getOrCreateStream (m : MemoryStreamManager) (sessionID messageID : String) (now : Int) :
    MemoryStreamManager :=
  let streams :=
    match mapLookup m.streams sessionID with
    | some _ => m.streams
    | none => mapInsert m.streams sessionID []
  let messages := (mapLookup streams sessionID).getD []
  let messages :=
    match mapLookup messages messageID with
    | some _ => messages
    | none => mapInsert messages messageID { events := [], lastUpdated := now, createdAt := now }
  { m with streams := mapInsert streams sessionID messages }

/-- The method `getStream`; `none` is the nil pointer. -/
def getStream (m : MemoryStreamManager) (sessionID messageID : String) :
    Option memoryStreamData :=
  match mapLookup m.streams sessionID with
  | some sessionMap => mapLookup sessionMap messageID
  | none => none

/-- The three readings of `time.Now()` one `AppendEvent` call may take. -/
structure AppendClock where
  created : Int
  stamped : Int
  updated : Int
  deriving DecidableEq, Repr

/-- The event as stored: the timestamp is filled in when it is zero. -/
def stampEvent (event : StreamEvent) (clock : AppendClock) : StreamEvent :=
  if event.Timestamp = 0 then { event with Timestamp := clock.stamped } else event

/-- The slice of events after the size check and the `append` of `AppendEvent`. -/
def appendBounded (events : List StreamEvent) (event : StreamEvent) : List StreamEvent :=
  let events :=
    if (events.length : Int) ≥ DefaultMaxEventsPerStream then
      events.drop (DefaultMaxEventsPerStream / 2).toNat
    else events
  events ++ [event]

/-- The method `AppendEvent`: the returned error and the manager afterwards. -/
def AppendEvent (m : MemoryStreamManager) (sessionID messageID : String) (event : StreamEvent)
    (clock : AppendClock) : Option Error × MemoryStreamManager :=
  let m := getOrCreateStream m sessionID messageID clock.created
  match getStream m sessionID messageID with
  | none => (none, m)
  | some stream =>
    let event := stampEvent event clock
    let stream : memoryStreamData :=
      { events := appendBounded stream.events event, lastUpdated := clock.updated,
        createdAt := stream.createdAt }
    let messages := mapInsert ((mapLookup m.streams sessionID).getD []) messageID stream
    (none, { m with streams := mapInsert m.streams sessionID messages })

/-- What `GetEvents` returns. -/
structure GetEventsResult where
  events : List StreamEvent
  nextOffset : Int
  err : Option Error
  deriving DecidableEq, Repr

/-- The method `GetEvents`: the values returned and the manager afterwards;
`none` is the run-time panic of a slice expression out of range. -/
def GetEvents (m : MemoryStreamManager) (sessionID messageID : String) (fromOffset : Int) :
    Option (GetEventsResult × MemoryStreamManager) :=
  match getStream m sessionID messageID with
  | none => some ({ events := [], nextOffset := fromOffset, err := none }, m)
  | some stream =>
    if fromOffset ≥ (stream.events.length : Int) then
      some ({ events := [], nextOffset := fromOffset, err := none }, m)
    else if fromOffset < 0 then none
    else
      some ({ events := stream.events.drop fromOffset.toNat,
              nextOffset := (stream.events.length : Int), err := none }, m)

/-- One call on the manager. -/
inductive ManagerCall where
  | AppendEvent (sessionID messageID : String) (event : StreamEvent) (clock : AppendClock)
  | GetEvents (sessionID messageID : String) (fromOffset : Int)
  | cleanup (now : Int)
  | Stats
  deriving DecidableEq, Repr

/-- The manager after one call (a panicking read leaves it as it was). -/
def applyCall (m : MemoryStreamManager) : ManagerCall → MemoryStreamManager
  | ManagerCall.AppendEvent sessionID messageID event clock =>
    (AppendEvent m sessionID messageID event clock).2
  | ManagerCall.GetEvents sessionID messageID fromOffset =>
    match GetEvents m sessionID messageID fromOffset with
    | some r => r.2
    | none => m
  | ManagerCall.cleanup now => cleanup m now
  | ManagerCall.Stats => m

/-- Appending a list of events, each with its clock readings, to one stream. -/
def appendAll (m : MemoryStreamManager) (sessionID messageID : String) :
    List (StreamEvent × AppendClock) → MemoryStreamManager
  | [] => m
  | x :: xs => appendAll (AppendEvent m sessionID messageID x.1 x.2).2 sessionID messageID xs

/-- The events held for a stream, none when the stream does not exist. -/
def eventsOf (m : MemoryStreamManager) (sessionID messageID : String) : List StreamEvent :=
  match getStream m sessionID messageID with
  | some stream => stream.events
  | none => []

/-- The keys of the manager's maps are distinct, as they are in Go maps. -/
def ValidManager (m : MemoryStreamManager) : Prop :=
  (m.streams.map Prod.fst).Nodup ∧ ∀ entry ∈ m.streams, (entry.2.map Prod.fst).Nodup

/-- Three events with timestamps, each with its clock readings. -/
def sampleAppends : List (StreamEvent × AppendClock) :=
  [({ Timestamp := 5, payload := 0 }, { created := 10, stamped := 10, updated := 10 }),
   ({ Timestamp := 6, payload := 1 }, { created := 11, stamped := 11, updated := 11 }),
   ({ Timestamp := 7, payload := 2 }, { created := 12, stamped := 12, updated := 12 })]

/-- The events `e0 .. e10000`, numbered by their payload, each with its clock readings. -/
def manyAppends : List (StreamEvent × AppendClock) :=
  (List.range 10001).map (fun i =>
    ({ Timestamp := 1, payload := i }, { created := 1, stamped := 1, updated := 1 }))

/-- Every buffer of a message map holds at most `DefaultMaxEventsPerStream` events. -/
def bufsBounded (messages : List (String × memoryStreamData)) : Prop :=
  ∀ buf ∈ messages, (buf.2.events.length : Int) ≤ DefaultMaxEventsPerStream

/-- Every buffer of the manager holds at most `DefaultMaxEventsPerStream` events. -/
def BoundedBuffers (m : MemoryStreamManager) : Prop :=
  ∀ entry ∈ m.streams, bufsBounded entry.2

/-- A manager with two sessions: one buffer updated at 0 and one at 1500 s in
the first, one buffer updated at 0 in the second. -/
def sampleManager : MemoryStreamManager :=
  { streams :=
      [("s1", [("m1", { events := [{ Timestamp := 1, payload := 0 }], lastUpdated := 0,
                        createdAt := 0 }),
               ("m2", { events := [{ Timestamp := 2, payload := 1 }],
                        lastUpdated := 1500 * Second, createdAt := 0 })]),
       ("s2", [("m1", { events := [], lastUpdated := 0, createdAt := 0 })])],
    cleanupInterval := DefaultCleanupInterval, maxAge := DefaultMaxAge }

/-- A short run of calls on a manager. -/
def sampleCalls : List ManagerCall :=
  [ManagerCall.AppendEvent "s1" "m1" { Timestamp := 0, payload := 7 }
     { created := 1, stamped := 2, updated := 3 },
   ManagerCall.GetEvents "s1" "m1" 0, ManagerCall.Stats,
   ManagerCall.cleanup (3600 * Second),
   ManagerCall.AppendEvent "s1" "m2" { Timestamp := 9, payload := 8 }
     { created := 4, stamped := 5, updated := 6 }]

/-- The registry is well formed: every stored pointer is an allocated breaker,
distinct names hold distinct pointers, and the map has one entry per name. -/
def RegistryInv (r : CircuitBreakerRegistry) : Prop :=
  (∀ n p, mapLookup r.breakers n = some p → p < r.heap.length) ∧
  (∀ n1 n2 p, mapLookup r.breakers n1 = some p → mapLookup r.breakers n2 = some p → n1 = n2) ∧
  (r.breakers.map Prod.fst).Nodup

/-- A run of registry calls: `Get` of a name, `GetWithConfig` of the same
name with another configuration, `GetWithConfig` of a second name. -/
def sampleRegistryCalls : List RegistryCall :=
  [RegistryCall.Get "a",
   RegistryCall.GetWithConfig
     { Name := "a", MaxFailures := 9, Timeout := Second, MaxHalfOpenRequests := 1 },
   RegistryCall.GetWithConfig
     { Name := "b", MaxFailures := 2, Timeout := Second, MaxHalfOpenRequests := 1 }]

/-! ## Stays in the half-open state -/

/-- The number of admission checks evaluated in `HalfOpen` that return true,
from the given breaker until it first leaves `HalfOpen` or the steps run out. -/
def admittedInHalfOpen : CircuitBreaker → List BreakerStep → Nat
  | _, [] => 0
  | cb, st :: rest =>
    if cb.state = StateHalfOpen then
      (match st with
        | BreakerStep.admission now => if (allowRequest cb now).1 = true then 1 else 0
        | BreakerStep.record _ _ => 0) + admittedInHalfOpen (applyStep cb st) rest
    else 0

/-- A run of steps in which the breaker trips, recovers half-way and is probed. -/
def sampleSteps : List BreakerStep :=
  [BreakerStep.record 0 (some (Error.other 0)), BreakerStep.record 0 (some (Error.other 0)),
   BreakerStep.record 0 (some (Error.other 0)), BreakerStep.record 0 (some (Error.other 0)),
   BreakerStep.record 0 (some (Error.other 0)), BreakerStep.admission (31 * Second)]

/-- Five admission checks in a row. -/
def sampleProbes : List BreakerStep :=
  List.replicate 5 (BreakerStep.admission (32 * Second))

/-! ## Interleaved appends -/

/-- One `AppendEvent` call with its target stream. -/
structure AppendCall where
  sessionID : String
  messageID : String
  event : StreamEvent
  clock : AppendClock
  deriving DecidableEq, Repr

/-- A sequence of `AppendEvent` calls, each finishing before the next starts. -/
def appendCalls (m : MemoryStreamManager) : List AppendCall → MemoryStreamManager
  | [] => m
  | c :: cs => appendCalls (AppendEvent m c.sessionID c.messageID c.event c.clock).2 cs

/-- The events of a call sequence that target one stream, as stored, in call order. -/
def eventsFor (sessionID messageID : String) (calls : List AppendCall) : List StreamEvent :=
  (calls.filter (fun c => decide (c.sessionID = sessionID ∧ c.messageID = messageID))).map
    (fun c => stampEvent c.event c.clock)

/-- Appends to `(s1, m1)` and `(s1, m2)` in mixed order. -/
def sampleInterleaving : List AppendCall :=
  [{ sessionID := "s1", messageID := "m1", event := { Timestamp := 1, payload := 10 },
     clock := { created := 1, stamped := 1, updated := 1 } },
   { sessionID := "s1", messageID := "m2", event := { Timestamp := 2, payload := 20 },
     clock := { created := 2, stamped := 2, updated := 2 } },
   { sessionID := "s1", messageID := "m2", event := { Timestamp := 3, payload := 21 },
     clock := { created := 3, stamped := 3, updated := 3 } },
   { sessionID := "s1", messageID := "m1", event := { Timestamp := 4, payload := 11 },
     clock := { created := 4, stamped := 4, updated := 4 } }]

/-! ## custom_agent.go: the built-in agents -/

/-- The constant `BuiltinQuickAnswerID`. -/
def BuiltinQuickAnswerID : String := "builtin-quick-answer"

/-- The constant `BuiltinSmartReasoningID`. -/
def BuiltinSmartReasoningID : String := "builtin-smart-reasoning"

/-- The constant `BuiltinDeepResearcherID`. -/
def BuiltinDeepResearcherID : String := "builtin-deep-researcher"

/-- The constant `BuiltinDataAnalystID`. -/
def BuiltinDataAnalystID : String := "builtin-data-analyst"

/-- The constant `BuiltinKnowledgeGraphExpertID`. -/
def BuiltinKnowledgeGraphExpertID : String := "builtin-knowledge-graph-expert"

/-- The constant `BuiltinDocumentAssistantID`. -/
def BuiltinDocumentAssistantID : String := "builtin-document-assistant"

/-- The constant `BuiltinKnowledgeRefinerID`. -/
def BuiltinKnowledgeRefinerID : String := "builtin-knowledge-refiner"

/-- The seven declared built-in agent ID constants, in declaration order. -/
def declaredBuiltinAgentIDs : List String :=
  [BuiltinQuickAnswerID, BuiltinSmartReasoningID, BuiltinDeepResearcherID, BuiltinDataAnalystID,
   BuiltinKnowledgeGraphExpertID, BuiltinDocumentAssistantID, BuiltinKnowledgeRefinerID]

/-- The struct `CustomAgent`, reduced to the identifying fields the factories
set; description, avatar, configuration and timestamps are left out. -/
structure CustomAgent where
  ID : String
  Name : String
  IsBuiltin : Bool
  TenantID : Nat
  deriving DecidableEq, Repr

/-- The factory `GetBuiltinQuickAnswerAgent`. -/
def GetBuiltinQuickAnswerAgent (tenantID : Nat) : CustomAgent :=
  { ID := BuiltinQuickAnswerID, Name := "快速问答", IsBuiltin := true, TenantID := tenantID }

/-- The factory `GetBuiltinSmartReasoningAgent`. -/
def GetBuiltinSmartReasoningAgent (tenantID : Nat) : CustomAgent :=
  { ID := BuiltinSmartReasoningID, Name := "智能推理", IsBuiltin := true, TenantID := tenantID }

/-- The factory `GetBuiltinDataAnalystAgent`. -/
def GetBuiltinDataAnalystAgent (tenantID : Nat) : CustomAgent :=
  { ID := BuiltinDataAnalystID, Name := "数据分析师", IsBuiltin := true, TenantID := tenantID }

/-- The factory `GetBuiltinKnowledgeRefinerAgent`. -/
def GetBuiltinKnowledgeRefinerAgent (tenantID : Nat) : CustomAgent :=
  { ID := BuiltinKnowledgeRefinerID, Name := "知识提炼师", IsBuiltin := true,
    TenantID := tenantID }

/-- The factory `GetBuiltinKnowledgeGraphExpertAgent`. -/
def GetBuiltinKnowledgeGraphExpertAgent (tenantID : Nat) : CustomAgent :=
  { ID := BuiltinKnowledgeGraphExpertID, Name := "知识图谱专家", IsBuiltin := true,
    TenantID := tenantID }

/-- The map `BuiltinAgentRegistry`. -/
def BuiltinAgentRegistry : List (String × (Nat → CustomAgent)) :=
  [(BuiltinQuickAnswerID, GetBuiltinQuickAnswerAgent),
   (BuiltinSmartReasoningID, GetBuiltinSmartReasoningAgent),
   (BuiltinDataAnalystID, GetBuiltinDataAnalystAgent),
   (BuiltinKnowledgeRefinerID, GetBuiltinKnowledgeRefinerAgent),
   (BuiltinKnowledgeGraphExpertID, GetBuiltinKnowledgeGraphExpertAgent)]

/-- The slice `builtinAgentIDsOrdered`. -/
def builtinAgentIDsOrdered : List String :=
  [BuiltinQuickAnswerID, BuiltinSmartReasoningID, BuiltinDataAnalystID,
   BuiltinKnowledgeGraphExpertID, BuiltinKnowledgeRefinerID]

/-- The function `GetBuiltinAgentIDs`. -/
def GetBuiltinAgentIDs : List String := builtinAgentIDsOrdered

/-- The function `IsBuiltinAgentID`. -/
def IsBuiltinAgentID (id : String) : Bool :=
  match mapLookup BuiltinAgentRegistry id with
  | some _ => true
  | none => false

/-- The function `GetBuiltinAgent`; `none` is the nil pointer. -/
def GetBuiltinAgent (id : String) (tenantID : Nat) : Option CustomAgent :=
  match mapLookup BuiltinAgentRegistry id with
  | some factory => some (factory tenantID)
  | none => none

/-! ## credential.go -/

/-- The struct `ProviderCredential`. Credential values are Go strings read as
byte sequences; `QuotaConfig` is the pointer, which a struct copy shares. -/
structure ProviderCredential where
  ID : String
  TenantID : Nat
  Provider : String
  Name : String
  Credentials : List (String × List Nat)
  BaseURL : String
  IsDefault : Bool
  Status : String
  QuotaConfig : Option Nat
  CreatedAt : Int
  UpdatedAt : Int
  DeletedAt : Option Int
  deriving DecidableEq, Repr

/-- The bytes of the string literal of four asterisks. -/
def fourStars : List Nat := [42, 42, 42, 42]

/-- The method `HideSensitiveInfo`: the receiver after the call and the
returned copy, whose map is built entry by entry from the receiver's. -/
def HideSensitiveInfo (c : ProviderCredential) : ProviderCredential × ProviderCredential :=
  let credentials := c.Credentials.foldl (fun acc kv =>
    if kv.1 = "api_key" ∨ kv.1 = "secret_key" then
      if kv.2.length > 8 then
        mapInsert acc kv.1 (kv.2.take 4 ++ fourStars ++ kv.2.drop (kv.2.length - 4))
      else mapInsert acc kv.1 fourStars
    else mapInsert acc kv.1 kv.2) []
  (c, { c with Credentials := credentials })

/-- What the masking is stated to produce for a value stored under a key. -/
def maskedValue (k : String) (v : List Nat) : List Nat :=
  if k = "api_key" ∨ k = "secret_key" then
    if v.length > 8 then v.take 4 ++ fourStars ++ v.drop (v.length - 4) else fourStars
  else v

/-- A credential with a long key, a short secret and a plain entry. -/
def sampleCredential : ProviderCredential :=
  { ID := "c1", TenantID := 7, Provider := "openai", Name := "main",
    Credentials :=
      [("api_key", [115, 107, 45, 49, 50, 51, 52, 53, 54, 55, 56, 57]),
       ("secret_key", [97, 98, 99]), ("region", [101, 117])],
    BaseURL := "https://api.openai.com/v1", IsDefault := true, Status := "active",
    QuotaConfig := none, CreatedAt := 1, UpdatedAt := 2, DeletedAt := none }

/-- Surroundings in which every attempt is answered 503 and the context is
cancelled during the wait before attempt 1. -/
def cancelledEnv : Env :=
  { outcome := fun _ => AttemptOutcome.doResponse ⟨503⟩, ctxDone := fun i => decide (i = 1) }

/-- The counter of admitted probes is within its bound. -/
def ProbesBounded (cb : CircuitBreaker) : Prop :=
  0 ≤ cb.halfOpenRequests ∧ cb.halfOpenRequests ≤ cb.config.MaxHalfOpenRequests

/-- The events one run of the loop adds to the log, read off the surroundings:
per iteration the wait (for `i > 0`), then either the cancellation marker or
the attempt, and the next iteration when the attempt is retried. The first
argument bounds the recursion as in `retryLoop`. -/
def runLog (e : OpenAIEmbedder) (env : Env) : Nat → Nat → List LoopEvent
  | 0, _ => []
  | fuel + 1, i =>
    if (i : Int) ≤ e.maxRetries then
      (if 0 < i then [LoopEvent.backoff i (backoffTime i)] else []) ++
        (if 0 < i ∧ env.ctxDone i = true then [LoopEvent.ctxDone i]
         else LoopEvent.attempt i ::
           (if retried (env.outcome i) = true then runLog e env fuel (i + 1) else []))
    else []

/-- Surroundings in which every attempt is answered 500 and the context is
never cancelled. -/
def failingEnv : Env :=
  { outcome := fun _ => AttemptOutcome.doResponse ⟨500⟩, ctxDone := fun _ => false }

end WeKnow

/-! # Theorems -/

namespace WeKnow

open CircuitBreakerState

/-! ## Helper lemmas on single breaker steps -/

lemma wrapInt64_of_isInt64 (x : Int) (h : isInt64 x) : wrapInt64 x = x := by
  unfold isInt64 at h
  unfold wrapInt64
  omega

lemma satInt64_le_of_le (x T : Int) (hT : -9223372036854775808 ≤ T) (h : x ≤ T) :
    satInt64 x ≤ T := by
  unfold satInt64
  split_ifs <;> omega

lemma NewCircuitBreaker_config_pos (config : CircuitBreakerConfig) :
    1 ≤ (NewCircuitBreaker config).config.MaxFailures ∧
    1 ≤ (NewCircuitBreaker config).config.Timeout ∧
    1 ≤ (NewCircuitBreaker config).config.MaxHalfOpenRequests := by
  by_cases h1 : config.MaxFailures ≤ 0 <;> by_cases h2 : config.Timeout ≤ 0 <;>
    by_cases h3 : config.MaxHalfOpenRequests ≤ 0 <;>
    simp [NewCircuitBreaker, Second, h1, h2, h3] <;> omega

lemma NewCircuitBreaker_MaxFailures_le (config : CircuitBreakerConfig)
    (h : isInt64 config.MaxFailures) :
    (NewCircuitBreaker config).config.MaxFailures ≤ 9223372036854775807 := by
  unfold isInt64 at h
  by_cases h1 : config.MaxFailures ≤ 0 <;> by_cases h2 : config.Timeout ≤ 0 <;>
    by_cases h3 : config.MaxHalfOpenRequests ≤ 0 <;>
    simp [NewCircuitBreaker, Second, h1, h2, h3] <;> omega

lemma allowRequest_closed (cb : CircuitBreaker) (now : Int) (h : cb.state = StateClosed) :
    allowRequest cb now = (true, cb) := by
  simp [allowRequest, h]

lemma Execute_closed {W : Type} (cb : CircuitBreaker) (tAdmit tRecord : Int)
    (fn : W → Option Error × W) (w : W) (h : cb.state = StateClosed) :
    (Execute cb tAdmit tRecord fn w).cb = recordResult cb tRecord (fn w).1 ∧
    (Execute cb tAdmit tRecord fn w).world = (fn w).2 := by
  simp [Execute, allowRequest_closed cb tAdmit h]

lemma onFailure_closed_below (cb : CircuitBreaker) (now : Int) (h : cb.state = StateClosed)
    (h0 : 0 ≤ cb.failures) (hlt : cb.failures + 1 < cb.config.MaxFailures)
    (hmax : cb.config.MaxFailures ≤ 9223372036854775807) :
    onFailure cb now = { cb with failures := cb.failures + 1, lastFailureTime := now } := by
  have hw : wrapInt64 (cb.failures + 1) = cb.failures + 1 :=
    wrapInt64_of_isInt64 _ ⟨by omega, by omega⟩
  simp only [onFailure, h, hw]
  rw [if_neg (by omega)]

lemma onFailure_closed_reached (cb : CircuitBreaker) (now : Int) (h : cb.state = StateClosed)
    (h0 : 0 ≤ cb.failures) (hge : cb.failures + 1 = cb.config.MaxFailures)
    (hmax : cb.config.MaxFailures ≤ 9223372036854775807) :
    (onFailure cb now).state = StateOpen := by
  have hw : wrapInt64 (cb.failures + 1) = cb.failures + 1 :=
    wrapInt64_of_isInt64 _ ⟨by omega, by omega⟩
  simp only [onFailure, h, hw]
  rw [if_pos (by omega)]
  simp [toOpen, h]

/-- Consecutive failing calls on a closed breaker: the breaker stays closed
while the failure count is below the threshold and opens when it reaches it. -/
lemma executeAll_failures_closed {W : Type} (calls : List (Call W)) :
    ∀ (cb : CircuitBreaker) (w : W), cb.state = StateClosed → 0 ≤ cb.failures →
      cb.config.MaxFailures ≤ 9223372036854775807 →
      (∀ c ∈ calls, ∀ w, (c.fn w).1 ≠ none) →
      (cb.failures + (calls.length : Int) < cb.config.MaxFailures →
        (executeAll cb w calls).1.state = StateClosed) ∧
      (1 ≤ calls.length → cb.failures + (calls.length : Int) = cb.config.MaxFailures →
        (executeAll cb w calls).1.state = StateOpen) := by
  induction calls with
  | nil =>
    intro cb w hc _ _ _
    exact ⟨fun _ => hc, fun h => absurd h (by simp)⟩
  | cons c cs ih =>
    intro cb w hc h0 hmax hfail
    have hcfail : (c.fn w).1 ≠ none := hfail c (List.mem_cons_self _ _) w
    have hrest : ∀ c' ∈ cs, ∀ w, (c'.fn w).1 ≠ none :=
      fun c' hc' => hfail c' (List.mem_cons_of_mem _ hc')
    obtain ⟨hcb, _⟩ := Execute_closed cb c.tAdmit c.tRecord c.fn w hc
    have hrec : recordResult cb c.tRecord (c.fn w).1 = onFailure cb c.tRecord := by
      simp [recordResult, hcfail]
    simp only [executeAll, List.length_cons, Nat.cast_add, Nat.cast_one]
    rw [hcb, hrec]
    constructor
    · intro hlt
      have hstep := onFailure_closed_below cb c.tRecord hc h0 (by omega) hmax
      rw [hstep]
      have h0' : 0 ≤ cb.failures + 1 := by omega
      have hlt' : cb.failures + 1 + (cs.length : Int) < cb.config.MaxFailures := by omega
      exact (ih { cb with failures := cb.failures + 1, lastFailureTime := c.tRecord } _ hc h0'
        hmax hrest).1 hlt'
    · intro _ heq
      cases cs with
      | nil =>
        simp only [executeAll]
        exact onFailure_closed_reached cb c.tRecord hc h0 (by simpa using heq) hmax
      | cons c2 cs2 =>
        have hstep := onFailure_closed_below cb c.tRecord hc h0
          (by simp only [List.length_cons, Nat.cast_add, Nat.cast_one] at heq; omega) hmax
        rw [hstep]
        have h0' : 0 ≤ cb.failures + 1 := by omega
        have heq' : cb.failures + 1 + ((c2 :: cs2).length : Int) = cb.config.MaxFailures := by
          omega
        exact (ih { cb with failures := cb.failures + 1, lastFailureTime := c.tRecord } _ hc h0'
          hmax hrest).2 (by simp) heq'

/-! ## C1 – C3: trip, rejection, admitted calls -/

/-- C1: a fresh breaker built by `NewCircuitBreaker` with effective
`MaxFailures = N` has `N ≥ 1`, is still `Closed` after fewer than `N`
consecutive failing `Execute` calls (in particular after `N - 1`), and is
`Open` after exactly `N`: the `N`-th failure trips it. -/
theorem breaker_trips_on_Nth_failure {W : Type} (config : CircuitBreakerConfig)
    (hN : isInt64 config.MaxFailures) (calls : List (Call W))
    (hfail : ∀ c ∈ calls, ∀ w, (c.fn w).1 ≠ none) (w : W) :
    1 ≤ (NewCircuitBreaker config).config.MaxFailures ∧
    ((calls.length : Int) < (NewCircuitBreaker config).config.MaxFailures →
      State (executeAll (NewCircuitBreaker config) w calls).1 = StateClosed) ∧
    ((calls.length : Int) = (NewCircuitBreaker config).config.MaxFailures →
      State (executeAll (NewCircuitBreaker config) w calls).1 = StateOpen) := by
  have hpos := (NewCircuitBreaker_config_pos config).1
  have hmax := NewCircuitBreaker_MaxFailures_le config hN
  have hst : (NewCircuitBreaker config).state = StateClosed := rfl
  have hf : (NewCircuitBreaker config).failures = 0 := rfl
  have key := executeAll_failures_closed calls (NewCircuitBreaker config) w hst
    (by rw [hf]) hmax hfail
  rw [hf] at key
  refine ⟨hpos, fun h => key.1 (by omega), fun h => key.2 (by omega) (by omega)⟩

/-- C1 witness: the default threshold 5; four failing calls leave the breaker
`Closed`, the fifth opens it. -/
theorem breaker_trips_on_Nth_failure_witness :
    isInt64 (DefaultCircuitBreakerConfig "dep").MaxFailures ∧
    State (executeAll (NewCircuitBreaker (DefaultCircuitBreakerConfig "dep")) ()
      (List.replicate 4 failingCall)).1 = StateClosed ∧
    State (executeAll (NewCircuitBreaker (DefaultCircuitBreakerConfig "dep")) ()
      (List.replicate 5 failingCall)).1 = StateOpen :=
  ⟨by decide,
   (breaker_trips_on_Nth_failure (DefaultCircuitBreakerConfig "dep") (by decide)
      (List.replicate 4 failingCall)
      (fun c hc w => by rw [List.eq_of_mem_replicate hc]; simp [failingCall]) ()).2.1
      (by decide),
   (breaker_trips_on_Nth_failure (DefaultCircuitBreakerConfig "dep") (by decide)
      (List.replicate 5 failingCall)
      (fun c hc w => by rw [List.eq_of_mem_replicate hc]; simp [failingCall]) ()).2.2
      (by decide)⟩

/-- C2: in state `Open`, a call made while `now - lastFailureTime ≤ Timeout`
returns `ErrCircuitBreakerOpen`, never reaches `fn`, and leaves the whole
breaker (state, counters, `lastFailureTime`) as it was. -/
theorem Execute_rejects_while_open {W : Type} (cb : CircuitBreaker)
    (hopen : cb.state = StateOpen) (hT : isInt64 cb.config.Timeout) (now tRecord : Int)
    (hnow : now - cb.lastFailureTime ≤ cb.config.Timeout)
    (fn : W → Option Error × W) (w : W) :
    (Execute cb now tRecord fn w).err = some Error.ErrCircuitBreakerOpen ∧
    (Execute cb now tRecord fn w).world = w ∧
    (Execute cb now tRecord fn w).trace = [ExecEvent.rejected] ∧
    (Execute cb now tRecord fn w).cb = cb := by
  have hle : ¬ timeSince now cb.lastFailureTime > cb.config.Timeout := by
    have := satInt64_le_of_le _ _ hT.1 hnow
    unfold timeSince
    omega
  simp [Execute, allowRequest, hopen, hle]

/-- C2 witness: a default breaker tripped at time 0, called at exactly 30 s with
a counting function: the count stays 0. -/
theorem Execute_rejects_while_open_witness :
    30 * Second - (sampleBreaker StateOpen 5).lastFailureTime ≤
      (sampleBreaker StateOpen 5).config.Timeout ∧
    (Execute (sampleBreaker StateOpen 5) (30 * Second) (30 * Second) countingFn 0).err =
      some Error.ErrCircuitBreakerOpen ∧
    (Execute (sampleBreaker StateOpen 5) (30 * Second) (30 * Second) countingFn 0).world = 0 :=
  have h := Execute_rejects_while_open (sampleBreaker StateOpen 5) rfl (by decide)
    (30 * Second) (30 * Second) (by decide) countingFn 0
  ⟨by decide, h.1, h.2.1⟩

/-- C3: an admitted `Execute` call runs `fn` exactly once (the captured
variables are those left by one run of `fn`), returns the very error of `fn`,
and records exactly one outcome: `onSuccess` for nil, `onFailure` otherwise. -/
theorem Execute_admitted_records_once {W : Type} (cb cb1 : CircuitBreaker)
    (tAdmit tRecord : Int) (fn : W → Option Error × W) (w : W)
    (hadm : allowRequest cb tAdmit = (true, cb1)) :
    (Execute cb tAdmit tRecord fn w).world = (fn w).2 ∧
    (Execute cb tAdmit tRecord fn w).err = (fn w).1 ∧
    (Execute cb tAdmit tRecord fn w).trace.count ExecEvent.invoked = 1 ∧
    ((fn w).1 = none →
      (Execute cb tAdmit tRecord fn w).cb = onSuccess cb1 ∧
      (Execute cb tAdmit tRecord fn w).trace =
        [ExecEvent.invoked, ExecEvent.recordedSuccess]) ∧
    ((fn w).1 ≠ none →
      (Execute cb tAdmit tRecord fn w).cb = onFailure cb1 tRecord ∧
      (Execute cb tAdmit tRecord fn w).trace =
        [ExecEvent.invoked, ExecEvent.recordedFailure]) := by
  simp only [Execute, hadm, true_and]
  refine ⟨?_, ?_, ?_⟩
  · by_cases h : (fn w).1 = none <;> simp [h]
  · intro h
    simp [h, recordResult]
  · intro h
    simp [h, recordResult]

/-- C3 witness: a closed default breaker and a counting function that fails:
the count is 1 and one failure is recorded. -/
theorem Execute_admitted_records_once_witness :
    allowRequest (sampleBreaker StateClosed 0) 0 = (true, sampleBreaker StateClosed 0) ∧
    (Execute (sampleBreaker StateClosed 0) 0 1 countingFn 0).world = 1 ∧
    (Execute (sampleBreaker StateClosed 0) 0 1 countingFn 0).trace =
      [ExecEvent.invoked, ExecEvent.recordedFailure] :=
  have h := Execute_admitted_records_once (sampleBreaker StateClosed 0)
    (sampleBreaker StateClosed 0) 0 1 countingFn 0 (by decide)
  ⟨by decide, h.1, (h.2.2.2.2 (by decide)).2⟩

/-! ## C4 – C6: the half-open state -/

lemma admitAll_halfOpen_room (ts : List Int) :
    ∀ cb : CircuitBreaker, cb.state = StateHalfOpen → 0 ≤ cb.halfOpenRequests →
      cb.halfOpenRequests + (ts.length : Int) ≤ cb.config.MaxHalfOpenRequests →
      cb.config.MaxHalfOpenRequests ≤ 9223372036854775807 →
      admitAll cb ts = (List.replicate ts.length true,
        { cb with halfOpenRequests := cb.halfOpenRequests + (ts.length : Int) }) := by
  induction ts with
  | nil =>
    intro cb _ _ _ _
    simp [admitAll]
  | cons t ts ih =>
    intro cb hs h0 hroom hmax
    simp only [List.length_cons, Nat.cast_add, Nat.cast_one] at hroom
    have hw : wrapInt64 (cb.halfOpenRequests + 1) = cb.halfOpenRequests + 1 :=
      wrapInt64_of_isInt64 _ ⟨by omega, by omega⟩
    have hstep : allowRequest cb t =
        (true, { cb with halfOpenRequests := cb.halfOpenRequests + 1 }) := by
      simp only [allowRequest, hs, hw]
      rw [if_pos (by omega)]
    have h0' : 0 ≤ cb.halfOpenRequests + 1 := by omega
    have hroom' : cb.halfOpenRequests + 1 + (ts.length : Int) ≤
        cb.config.MaxHalfOpenRequests := by omega
    have := ih { cb with halfOpenRequests := cb.halfOpenRequests + 1 } hs h0' hroom' hmax
    simp only [admitAll, hstep, this, List.length_cons, Nat.cast_add, Nat.cast_one,
      List.replicate_succ]
    congr 2
    omega

lemma admitAll_append (ts us : List Int) :
    ∀ cb : CircuitBreaker, (admitAll cb (ts ++ us)).1 =
      (admitAll cb ts).1 ++ (admitAll (admitAll cb ts).2 us).1 := by
  induction ts with
  | nil => intro cb; simp [admitAll]
  | cons t ts ih => intro cb; simp [admitAll, ih]

/-- C4 (what the code does): from `Open` with the timeout elapsed, a run of
admission checks with no result recorded in between admits `M + 1` calls, not
`M`: the call that moves the breaker to `HalfOpen` is admitted without being
counted in `halfOpenRequests`, the next `M` are admitted and counted, and only
the `(M + 2)`-th is rejected. -/
theorem admission_run_admits_one_more_than_max (cb : CircuitBreaker)
    (hopen : cb.state = StateOpen) (now : Int)
    (helapsed : timeSince now cb.lastFailureTime > cb.config.Timeout)
    (hmax : cb.config.MaxHalfOpenRequests ≤ 9223372036854775807)
    (ts : List Int) (hlen : (ts.length : Int) = cb.config.MaxHalfOpenRequests) (t : Int) :
    (admitAll cb (now :: (ts ++ [t]))).1 = List.replicate (ts.length + 1) true ++ [false] := by
  have hfirst : allowRequest cb now = (true, toHalfOpen cb) := by
    simp [allowRequest, hopen, helapsed]
  have hho : toHalfOpen cb =
      { cb with state := StateHalfOpen, halfOpenRequests := 0, successes := 0, failures := 0 } := by
    simp [toHalfOpen, hopen]
  have hrun := admitAll_halfOpen_room ts (toHalfOpen cb) (by rw [hho]) (by rw [hho])
    (by rw [hho]; dsimp only; omega) (by rw [hho]; exact hmax)
  have hlast : allowRequest (admitAll (toHalfOpen cb) ts).2 t =
      (false, (admitAll (toHalfOpen cb) ts).2) := by
    rw [hrun, hho]
    simp only [allowRequest]
    rw [if_neg (by omega)]
  simp only [admitAll, hfirst, admitAll_append, hlast]
  rw [hrun]
  simp [List.replicate_succ]

/-- C4 witness: the default `MaxHalfOpenRequests = 3`, tripped at time 0, five
admission checks at 31 s. -/
theorem admission_run_admits_one_more_than_max_witness :
    (sampleBreaker StateOpen 5).config.MaxHalfOpenRequests = 3 ∧
    (admitAll (sampleBreaker StateOpen 5)
      (31 * Second :: ([31 * Second, 31 * Second, 31 * Second] ++ [31 * Second]))).1 =
      List.replicate 4 true ++ [false] :=
  ⟨by decide,
   admission_run_admits_one_more_than_max (sampleBreaker StateOpen 5) rfl (31 * Second)
     (by decide) (by decide) [31 * Second, 31 * Second, 31 * Second] (by decide) (31 * Second)⟩


lemma onSuccess_halfOpen_below (cb : CircuitBreaker) (h : cb.state = StateHalfOpen)
    (h0 : 0 ≤ cb.successes) (hlt : cb.successes + 1 < cb.config.MaxHalfOpenRequests)
    (hmax : cb.config.MaxHalfOpenRequests ≤ 9223372036854775807) :
    onSuccess cb = { cb with successes := cb.successes + 1 } := by
  have hw : wrapInt64 (cb.successes + 1) = cb.successes + 1 :=
    wrapInt64_of_isInt64 _ ⟨by omega, by omega⟩
  simp only [onSuccess, h, hw]
  rw [if_neg (by omega)]

lemma onSuccess_halfOpen_reached (cb : CircuitBreaker) (h : cb.state = StateHalfOpen)
    (h0 : 0 ≤ cb.successes) (heq : cb.successes + 1 = cb.config.MaxHalfOpenRequests)
    (hmax : cb.config.MaxHalfOpenRequests ≤ 9223372036854775807) :
    onSuccess cb =
      { cb with state := StateClosed, failures := 0, successes := 0, halfOpenRequests := 0 } := by
  have hw : wrapInt64 (cb.successes + 1) = cb.successes + 1 :=
    wrapInt64_of_isInt64 _ ⟨by omega, by omega⟩
  simp only [onSuccess, h, hw]
  rw [if_pos (by omega)]
  simp [toClosed, h]

/-- Recorded successes in `HalfOpen`: still half-open below the threshold,
closed with all counters reset when the threshold is reached. -/
lemma recordSuccesses_halfOpen (ts : List Int) :
    ∀ cb : CircuitBreaker, cb.state = StateHalfOpen → 0 ≤ cb.successes →
      cb.config.MaxHalfOpenRequests ≤ 9223372036854775807 →
      (cb.successes + (ts.length : Int) < cb.config.MaxHalfOpenRequests →
        (recordSuccesses cb ts).state = StateHalfOpen) ∧
      (1 ≤ ts.length → cb.successes + (ts.length : Int) = cb.config.MaxHalfOpenRequests →
        (recordSuccesses cb ts).state = StateClosed ∧ (recordSuccesses cb ts).failures = 0 ∧
        (recordSuccesses cb ts).successes = 0 ∧ (recordSuccesses cb ts).halfOpenRequests = 0) := by
  induction ts with
  | nil =>
    intro cb hs _ _
    exact ⟨fun _ => hs, fun h => absurd h (by simp)⟩
  | cons t ts ih =>
    intro cb hs h0 hmax
    have hrec : recordResult cb t none = onSuccess cb := by simp [recordResult]
    simp only [recordSuccesses, List.length_cons, Nat.cast_add, Nat.cast_one, hrec]
    constructor
    · intro hlt
      rw [onSuccess_halfOpen_below cb hs h0 (by omega) hmax]
      have h0' : 0 ≤ cb.successes + 1 := by omega
      have hlt' : cb.successes + 1 + (ts.length : Int) < cb.config.MaxHalfOpenRequests := by
        omega
      exact (ih { cb with successes := cb.successes + 1 } hs h0' hmax).1 hlt'
    · intro _ heq
      cases ts with
      | nil =>
        rw [onSuccess_halfOpen_reached cb hs h0 (by simpa using heq) hmax]
        simp [recordSuccesses]
      | cons t2 ts2 =>
        rw [onSuccess_halfOpen_below cb hs h0
          (by simp only [List.length_cons, Nat.cast_add, Nat.cast_one] at heq; omega) hmax]
        have h0' : 0 ≤ cb.successes + 1 := by omega
        have heq' : cb.successes + 1 + ((t2 :: ts2).length : Int) =
            cb.config.MaxHalfOpenRequests := by omega
        exact (ih { cb with successes := cb.successes + 1 } hs h0' hmax).2 (by simp) heq'

/-- Successful `Execute` calls in `HalfOpen` while probe slots remain: the
call that brings `successes` to the threshold closes the breaker. -/
lemma executeAll_successes_halfOpen {W : Type} (calls : List (Call W)) :
    ∀ (cb : CircuitBreaker) (w : W), cb.state = StateHalfOpen → 0 ≤ cb.successes →
      0 ≤ cb.halfOpenRequests →
      cb.halfOpenRequests + (calls.length : Int) ≤ cb.config.MaxHalfOpenRequests →
      cb.config.MaxHalfOpenRequests ≤ 9223372036854775807 →
      (∀ c ∈ calls, ∀ w, (c.fn w).1 = none) →
      1 ≤ calls.length →
      cb.successes + (calls.length : Int) = cb.config.MaxHalfOpenRequests →
      (executeAll cb w calls).1.state = StateClosed ∧ (executeAll cb w calls).1.failures = 0 ∧
      (executeAll cb w calls).1.successes = 0 ∧
      (executeAll cb w calls).1.halfOpenRequests = 0 := by
  induction calls with
  | nil =>
    intro cb w _ _ _ _ _ _ h
    exact absurd h (by simp)
  | cons c cs ih =>
    intro cb w hs h0 hh0 hroom hmax hok _ heq
    simp only [List.length_cons, Nat.cast_add, Nat.cast_one] at hroom heq
    have hcok : (c.fn w).1 = none := hok c (List.mem_cons_self _ _) w
    have hrest : ∀ c' ∈ cs, ∀ w, (c'.fn w).1 = none :=
      fun c' hc' => hok c' (List.mem_cons_of_mem _ hc')
    have hw : wrapInt64 (cb.halfOpenRequests + 1) = cb.halfOpenRequests + 1 :=
      wrapInt64_of_isInt64 _ ⟨by omega, by omega⟩
    have hadm : allowRequest cb c.tAdmit =
        (true, { cb with halfOpenRequests := cb.halfOpenRequests + 1 }) := by
      simp only [allowRequest, hs, hw]
      rw [if_pos (by omega)]
    have hexec : (Execute cb c.tAdmit c.tRecord c.fn w).cb =
        onSuccess { cb with halfOpenRequests := cb.halfOpenRequests + 1 } := by
      simp [Execute, hadm, hcok, recordResult]
    simp only [executeAll]
    rw [hexec]
    cases cs with
    | nil =>
      rw [onSuccess_halfOpen_reached { cb with halfOpenRequests := cb.halfOpenRequests + 1 } hs h0
        (by simpa using heq) hmax]
      simp [executeAll]
    | cons c2 cs2 =>
      simp only [List.length_cons, Nat.cast_add, Nat.cast_one] at hroom heq
      rw [onSuccess_halfOpen_below { cb with halfOpenRequests := cb.halfOpenRequests + 1 } hs h0
        (by dsimp only; omega) hmax]
      have h0' : 0 ≤ cb.successes + 1 := by omega
      have hh0' : 0 ≤ cb.halfOpenRequests + 1 := by omega
      have hroom' : cb.halfOpenRequests + 1 + ((c2 :: cs2).length : Int) ≤
          cb.config.MaxHalfOpenRequests := by
        simp only [List.length_cons, Nat.cast_add, Nat.cast_one]; omega
      have heq' : cb.successes + 1 + ((c2 :: cs2).length : Int) =
          cb.config.MaxHalfOpenRequests := by
        simp only [List.length_cons, Nat.cast_add, Nat.cast_one]; omega
      exact ih { cb with halfOpenRequests := cb.halfOpenRequests + 1,
                         successes := cb.successes + 1 } _ hs h0' hh0' hroom' hmax hrest
        (by simp) heq'

/-- C5: with `MaxHalfOpenRequests = M`, a breaker in `HalfOpen` with
`successes = 0` stays `HalfOpen` after fewer than `M` recorded successes and is
`Closed` with `failures`, `successes` and `halfOpenRequests` all `0` after the
`M`-th; and `M` consecutive successful `Execute` calls on an `Open` breaker, the
first made after the timeout elapsed, leave it `Closed` with all counters `0`. -/
theorem halfOpen_closes_on_Mth_success (M : Int) (hM1 : 1 ≤ M)
    (hM64 : M ≤ 9223372036854775807) :
    (∀ (cb : CircuitBreaker) (ts : List Int), cb.config.MaxHalfOpenRequests = M →
      cb.state = StateHalfOpen → cb.successes = 0 →
      ((ts.length : Int) < M → State (recordSuccesses cb ts) = StateHalfOpen) ∧
      ((ts.length : Int) = M →
        State (recordSuccesses cb ts) = StateClosed ∧ (recordSuccesses cb ts).failures = 0 ∧
        (recordSuccesses cb ts).successes = 0 ∧ (recordSuccesses cb ts).halfOpenRequests = 0)) ∧
    (∀ (W : Type) (cb : CircuitBreaker) (c : Call W) (cs : List (Call W)) (w : W),
      cb.config.MaxHalfOpenRequests = M → cb.state = StateOpen →
      timeSince c.tAdmit cb.lastFailureTime > cb.config.Timeout →
      (cs.length : Int) + 1 = M → (∀ c' ∈ c :: cs, ∀ w, (c'.fn w).1 = none) →
      State (executeAll cb w (c :: cs)).1 = StateClosed ∧
      (executeAll cb w (c :: cs)).1.failures = 0 ∧
      (executeAll cb w (c :: cs)).1.successes = 0 ∧
      (executeAll cb w (c :: cs)).1.halfOpenRequests = 0) := by
  constructor
  · intro cb ts hM hs hz
    have key := recordSuccesses_halfOpen ts cb hs (by omega) (by omega)
    rw [hz, hM] at key
    exact ⟨fun h => key.1 (by omega), fun h => key.2 (by omega) (by omega)⟩
  · intro W cb c cs w hM hopen helapsed hlen hok
    have hcok : (c.fn w).1 = none := hok c (List.mem_cons_self _ _) w
    have hrest : ∀ c' ∈ cs, ∀ w, (c'.fn w).1 = none :=
      fun c' hc' => hok c' (List.mem_cons_of_mem _ hc')
    have hho : toHalfOpen cb =
        { cb with state := StateHalfOpen, halfOpenRequests := 0, successes := 0,
                  failures := 0 } := by
      simp [toHalfOpen, hopen]
    have hadm : allowRequest cb c.tAdmit = (true, toHalfOpen cb) := by
      simp [allowRequest, hopen, helapsed]
    have hexec : (Execute cb c.tAdmit c.tRecord c.fn w).cb = onSuccess (toHalfOpen cb) := by
      simp [Execute, hadm, hcok, recordResult]
    have hs : (toHalfOpen cb).state = StateHalfOpen := by rw [hho]
    have hz : (toHalfOpen cb).successes = 0 := by rw [hho]
    have hcfg : (toHalfOpen cb).config = cb.config := by rw [hho]
    simp only [executeAll, State]
    rw [hexec]
    cases cs with
    | nil =>
      rw [onSuccess_halfOpen_reached (toHalfOpen cb) hs (by omega)
        (by rw [hz, hcfg, hM]; simpa using hlen) (by rw [hcfg]; omega)]
      simp [executeAll]
    | cons c2 cs2 =>
      simp only [List.length_cons, Nat.cast_add, Nat.cast_one] at hlen
      rw [onSuccess_halfOpen_below (toHalfOpen cb) hs (by omega)
        (by rw [hz, hcfg, hM]; omega) (by rw [hcfg]; omega)]
      rw [hho]
      exact executeAll_successes_halfOpen (c2 :: cs2) _ _ rfl (by dsimp only; omega)
        (by dsimp only; omega)
        (by simp only [List.length_cons, Nat.cast_add, Nat.cast_one]; omega)
        (by dsimp only; omega) hrest (by simp)
        (by simp only [List.length_cons, Nat.cast_add, Nat.cast_one]; omega)

/-- C5 witness: the default `MaxHalfOpenRequests = 3`; a breaker tripped at time
0 is `Closed` after three successful calls made at 31 s. -/
theorem halfOpen_closes_on_Mth_success_witness :
    (sampleBreaker StateOpen 5).config.MaxHalfOpenRequests = 3 ∧
    State (executeAll (sampleBreaker StateOpen 5) ()
      (succeedingCall :: [succeedingCall, succeedingCall])).1 = StateClosed :=
  ⟨by decide,
   ((halfOpen_closes_on_Mth_success 3 (by decide) (by decide)).2 Unit
      (sampleBreaker StateOpen 5) succeedingCall [succeedingCall, succeedingCall] ()
      (by decide) rfl (by decide) (by decide)
      (fun c hc w => by
        have : c = succeedingCall := by
          simp only [List.mem_cons, List.mem_singleton, List.not_mem_nil, or_false, or_self]
            at hc
          exact hc
        rw [this]
        rfl)).1⟩

/-- C6: in `HalfOpen`, whatever the counters hold, one recorded failure at
time `t` gives state `Open`, `successes = 0`, `halfOpenRequests = 0` and
`lastFailureTime = t`; an admitted `Execute` whose `fn` fails records exactly
that; and every `Execute` made while `now - t ≤ Timeout` is then rejected
without running `fn`. -/
theorem halfOpen_failure_reopens (cb : CircuitBreaker) (hs : cb.state = StateHalfOpen)
    (hT : isInt64 cb.config.Timeout) (t : Int) (err : Error) :
    State (recordResult cb t (some err)) = StateOpen ∧
    (recordResult cb t (some err)).successes = 0 ∧
    (recordResult cb t (some err)).halfOpenRequests = 0 ∧
    (recordResult cb t (some err)).lastFailureTime = t ∧
    (∀ (W : Type) (fn : W → Option Error × W) (w : W) (tAdmit : Int),
      (allowRequest cb tAdmit).1 = true → (fn w).1 ≠ none →
      State (Execute cb tAdmit t fn w).cb = StateOpen ∧
      (Execute cb tAdmit t fn w).cb.successes = 0 ∧
      (Execute cb tAdmit t fn w).cb.halfOpenRequests = 0 ∧
      (Execute cb tAdmit t fn w).cb.lastFailureTime = t) ∧
    (∀ (W : Type) (fn : W → Option Error × W) (w : W) (now tRecord : Int),
      now - t ≤ cb.config.Timeout →
      (Execute (recordResult cb t (some err)) now tRecord fn w).err =
        some Error.ErrCircuitBreakerOpen ∧
      (Execute (recordResult cb t (some err)) now tRecord fn w).world = w ∧
      (Execute (recordResult cb t (some err)) now tRecord fn w).cb =
        recordResult cb t (some err)) := by
  have hrec : recordResult cb t (some err) =
      { cb with failures := wrapInt64 (cb.failures + 1), lastFailureTime := t,
                state := StateOpen, halfOpenRequests := 0, successes := 0 } := by
    simp [recordResult, onFailure, hs, toOpen]
  refine ⟨by rw [hrec]; rfl, by rw [hrec], by rw [hrec], by rw [hrec], ?_, ?_⟩
  · intro W fn w tAdmit hadm hfail
    by_cases hroom : cb.halfOpenRequests < cb.config.MaxHalfOpenRequests
    · simp [Execute, allowRequest, hs, hroom, hfail, recordResult, onFailure, toOpen, State]
    · simp [allowRequest, hs, hroom] at hadm
  · intro W fn w now tRecord hnow
    have hle : ¬ timeSince now t > cb.config.Timeout := by
      have := satInt64_le_of_le _ _ hT.1 hnow
      unfold timeSince
      omega
    rw [hrec]
    simp [Execute, allowRequest, hle]

/-- C6 witness: a half-open default breaker with two probes admitted fails at 40 s. -/
theorem halfOpen_failure_reopens_witness :
    State (recordResult probingBreaker (40 * Second) (some (Error.other 0))) = StateOpen ∧
    (recordResult probingBreaker (40 * Second) (some (Error.other 0))).lastFailureTime =
      40 * Second :=
  have h := halfOpen_failure_reopens probingBreaker rfl (by decide) (40 * Second) (Error.other 0)
  ⟨h.1, h.2.2.2.1⟩

/-! ## The retry loop, one iteration at a time -/

lemma retried_eq (o : AttemptOutcome) :
    retried o = (isRequestError o || isTransportError o || isRetryStatus o) := by
  cases o <;> simp [retried, isRequestError, isTransportError, isRetryStatus]

lemma not_retried (o : AttemptOutcome) (h : retried o = false) :
    ∃ resp, o = AttemptOutcome.doResponse resp ∧
      ¬ (resp.StatusCode ≥ 500 ∨ resp.StatusCode = 429) := by
  cases o with
  | requestError => simp [retried] at h
  | doError r err => simp [retried] at h
  | doResponse resp =>
    refine ⟨resp, rfl, ?_⟩
    simpa [retried] using h

lemma mem_iterLog (i j : Nat) (log : List LoopEvent) :
    LoopEvent.attempt j ∈ iterLog i log ↔ LoopEvent.attempt j ∈ log ∨ j = i := by
  unfold iterLog
  split_ifs <;> simp

lemma retryLoop_exit (e : OpenAIEmbedder) (env : Env) (fuel i : Nat) (c : Captured)
    (h : ¬ (i : Int) ≤ e.maxRetries) : retryLoop e env (fuel + 1) i c = (c.err, c) := by
  simp [retryLoop, h]

lemma retryLoop_cancel (e : OpenAIEmbedder) (env : Env) (fuel i : Nat) (c : Captured)
    (h : (i : Int) ≤ e.maxRetries) (hi : 0 < i) (hc : env.ctxDone i = true) :
    retryLoop e env (fuel + 1) i c =
      (some Error.ctxErr,
       { c with log := c.log ++ [LoopEvent.backoff i (backoffTime i)] ++ [LoopEvent.ctxDone i] }) := by
  simp [retryLoop, h, hi, hc]

lemma retryLoop_retry (e : OpenAIEmbedder) (env : Env) (fuel i : Nat) (c : Captured)
    (h : (i : Int) ≤ e.maxRetries) (hc : 0 < i → env.ctxDone i = false)
    (hr : retried (env.outcome i) = true) :
    ∃ c' : Captured, retryLoop e env (fuel + 1) i c = retryLoop e env fuel (i + 1) c' ∧
      c'.log = iterLog i c.log := by
  by_cases hi : 0 < i
  · have hc' := hc hi
    cases ho : env.outcome i with
    | requestError =>
      exact ⟨_, by simp [retryLoop, h, hi, hc', ho]; rfl, by simp [iterLog, hi]⟩
    | doError r err =>
      exact ⟨_, by simp [retryLoop, h, hi, hc', ho]; rfl, by simp [iterLog, hi]⟩
    | doResponse resp =>
      have hs : resp.StatusCode ≥ 500 ∨ resp.StatusCode = 429 := by
        simpa [retried, ho] using hr
      exact ⟨_, by simp [retryLoop, h, hi, hc', ho, hs]; rfl, by simp [iterLog, hi]⟩
  · cases ho : env.outcome i with
    | requestError =>
      exact ⟨_, by simp [retryLoop, h, hi, ho]; rfl, by simp [iterLog, hi]⟩
    | doError r err =>
      exact ⟨_, by simp [retryLoop, h, hi, ho]; rfl, by simp [iterLog, hi]⟩
    | doResponse resp =>
      have hs : resp.StatusCode ≥ 500 ∨ resp.StatusCode = 429 := by
        simpa [retried, ho] using hr
      exact ⟨_, by simp [retryLoop, h, hi, ho, hs]; rfl, by simp [iterLog, hi]⟩

lemma retryLoop_stop (e : OpenAIEmbedder) (env : Env) (fuel i : Nat) (c : Captured)
    (h : (i : Int) ≤ e.maxRetries) (hc : 0 < i → env.ctxDone i = false)
    (resp : Response) (ho : env.outcome i = AttemptOutcome.doResponse resp)
    (hs : ¬ (resp.StatusCode ≥ 500 ∨ resp.StatusCode = 429)) :
    retryLoop e env (fuel + 1) i c =
      (none, { resp := some resp, err := none, log := iterLog i c.log }) := by
  by_cases hi : 0 < i
  · have hc' := hc hi
    simp [retryLoop, h, hi, hc', ho, hs, iterLog]
  · simp [retryLoop, h, hi, ho, hs, iterLog]

/-- Which iterations send a request: exactly those the loop `reaches`. -/
lemma attempt_mem_retryLoop (e : OpenAIEmbedder) (env : Env) (j : Nat) :
    ∀ (fuel i : Nat) (c : Captured), e.maxRetries + 1 - (i : Int) < (fuel : Int) →
      (LoopEvent.attempt j ∈ (retryLoop e env fuel i c).2.log ↔
        LoopEvent.attempt j ∈ c.log ∨ reaches e env i j) := by
  intro fuel
  induction fuel with
  | zero =>
    intro i c hfuel
    have : ¬ reaches e env i j := by
      rintro ⟨h1, h2, _, _⟩
      simp only [Nat.cast_zero] at hfuel
      omega
    simp [retryLoop, this]
  | succ fuel ih =>
    intro i c hfuel
    by_cases h : (i : Int) ≤ e.maxRetries
    · by_cases hcan : 0 < i ∧ env.ctxDone i = true
      · rw [retryLoop_cancel e env fuel i c h hcan.1 hcan.2]
        have : ¬ reaches e env i j := by
          rintro ⟨h1, _, _, h4⟩
          have := h4 i (le_refl i) h1 hcan.1
          rw [hcan.2] at this
          exact absurd this (by simp)
        simp [this]
      · have hc : 0 < i → env.ctxDone i = false := by
          intro hi
          cases hd : env.ctxDone i with
          | false => rfl
          | true => exact absurd ⟨hi, hd⟩ hcan
        cases hr : retried (env.outcome i) with
        | true =>
          obtain ⟨c', hstep, hlog⟩ := retryLoop_retry e env fuel i c h hc hr
          rw [hstep, ih (i + 1) c' (by push_cast at hfuel ⊢; omega), hlog, mem_iterLog]
          constructor
          · rintro ((hm | hji) | ⟨h1, h2, h3, h4⟩)
            · exact Or.inl hm
            · subst hji
              exact Or.inr ⟨le_refl _, h, fun k hk1 hk2 => absurd hk2 (by omega),
                fun k hk1 hk2 hk3 => by
                  have : k = j := by omega
                  subst this
                  exact hc hk3⟩
            · refine Or.inr ⟨by omega, h2, fun k hk1 hk2 => ?_, fun k hk1 hk2 hk3 => ?_⟩
              · by_cases hki : k = i
                · subst hki; exact hr
                · exact h3 k (by omega) hk2
              · by_cases hki : k = i
                · subst hki; exact hc hk3
                · exact h4 k (by omega) hk2 hk3
          · rintro (hm | ⟨h1, h2, h3, h4⟩)
            · exact Or.inl (Or.inl hm)
            · by_cases hji : j = i
              · exact Or.inl (Or.inr hji)
              · exact Or.inr ⟨by omega, h2, fun k hk1 hk2 => h3 k (by omega) hk2,
                  fun k hk1 hk2 hk3 => h4 k (by omega) hk2 hk3⟩
        | false =>
          obtain ⟨resp, ho, hs⟩ := not_retried _ hr
          rw [retryLoop_stop e env fuel i c h hc resp ho hs]
          simp only [mem_iterLog]
          constructor
          · rintro (hm | hji)
            · exact Or.inl hm
            · subst hji
              exact Or.inr ⟨le_refl _, h, fun k hk1 hk2 => absurd hk2 (by omega),
                fun k hk1 hk2 hk3 => by
                  have : k = j := by omega
                  subst this
                  exact hc hk3⟩
          · rintro (hm | ⟨h1, h2, h3, h4⟩)
            · exact Or.inl hm
            · by_cases hji : j = i
              · exact Or.inr hji
              · have := h3 i (le_refl i) (by omega)
                rw [hr] at this
                exact absurd this (by simp)
    · rw [retryLoop_exit e env fuel i c h]
      have : ¬ reaches e env i j := by
        rintro ⟨h1, h2, _, _⟩
        omega
      simp [this]

/-- The loop ends at the first attempt it reaches whose response is not
retried, with that response in `resp` and a nil error. -/
lemma retryLoop_result_of_response (e : OpenAIEmbedder) (env : Env) (j : Nat)
    (resp : Response) (ho : env.outcome j = AttemptOutcome.doResponse resp)
    (hs : ¬ (resp.StatusCode ≥ 500 ∨ resp.StatusCode = 429)) :
    ∀ (fuel i : Nat) (c : Captured), e.maxRetries + 1 - (i : Int) < (fuel : Int) →
      reaches e env i j →
      (retryLoop e env fuel i c).1 = none ∧ (retryLoop e env fuel i c).2.resp = some resp ∧
      (retryLoop e env fuel i c).2.err = none := by
  intro fuel
  induction fuel with
  | zero =>
    rintro i c hfuel ⟨h1, h2, _, _⟩
    simp only [Nat.cast_zero] at hfuel
    omega
  | succ fuel ih =>
    rintro i c hfuel ⟨h1, h2, h3, h4⟩
    have h : (i : Int) ≤ e.maxRetries := by omega
    have hc : 0 < i → env.ctxDone i = false := fun hi => h4 i (le_refl i) h1 hi
    by_cases hji : j = i
    · subst hji
      rw [retryLoop_stop e env fuel j c h hc resp ho hs]
      exact ⟨rfl, rfl, rfl⟩
    · have hr := h3 i (le_refl i) (by omega)
      obtain ⟨c', hstep, _⟩ := retryLoop_retry e env fuel i c h hc hr
      rw [hstep]
      exact ih (i + 1) c' (by push_cast at hfuel ⊢; omega)
        ⟨by omega, h2, fun k hk1 hk2 => h3 k (by omega) hk2,
          fun k hk1 hk2 hk3 => h4 k (by omega) hk2 hk3⟩

lemma attemptCount_append (l1 l2 : List LoopEvent) :
    attemptCount (l1 ++ l2) = attemptCount l1 + attemptCount l2 := by
  simp [attemptCount]

lemma attemptCount_iterLog (i : Nat) (log : List LoopEvent) :
    attemptCount (iterLog i log) = attemptCount log + 1 := by
  unfold iterLog
  split_ifs <;> simp [attemptCount]

/-- The loop sends at most one request per remaining index. -/
lemma attemptCount_retryLoop (e : OpenAIEmbedder) (env : Env) :
    ∀ (fuel i : Nat) (c : Captured),
      attemptCount (retryLoop e env fuel i c).2.log ≤
        attemptCount c.log + (e.maxRetries + 1 - (i : Int)).toNat := by
  intro fuel
  induction fuel with
  | zero => intro i c; simp [retryLoop]
  | succ fuel ih =>
    intro i c
    by_cases h : (i : Int) ≤ e.maxRetries
    · by_cases hcan : 0 < i ∧ env.ctxDone i = true
      · rw [retryLoop_cancel e env fuel i c h hcan.1 hcan.2]
        simp [attemptCount]
      · have hc : 0 < i → env.ctxDone i = false := by
          intro hi
          cases hd : env.ctxDone i with
          | false => rfl
          | true => exact absurd ⟨hi, hd⟩ hcan
        cases hr : retried (env.outcome i) with
        | true =>
          obtain ⟨c', hstep, hlog⟩ := retryLoop_retry e env fuel i c h hc hr
          have := ih (i + 1) c'
          rw [hstep]
          rw [hlog, attemptCount_iterLog] at this
          push_cast at this
          omega
        | false =>
          obtain ⟨resp, ho, hs⟩ := not_retried _ hr
          rw [retryLoop_stop e env fuel i c h hc resp ho hs]
          simp only [attemptCount_iterLog]
          omega
    · rw [retryLoop_exit e env fuel i c h]
      exact Nat.le_add_right _ _

/-- The log of any run extends the starting log by events which, the
cancellation marker aside, are an initial part of the full schedule. -/
lemma retryLoop_log_prefix (e : OpenAIEmbedder) (env : Env) :
    ∀ (fuel i : Nat) (c : Captured), ∃ seg : List LoopEvent,
      (retryLoop e env fuel i c).2.log = c.log ++ seg ∧
      seg.filter notCtxDone <+: fullLog e fuel i := by
  intro fuel
  induction fuel with
  | zero => intro i c; exact ⟨[], by simp [retryLoop], by simp [fullLog]⟩
  | succ fuel ih =>
    intro i c
    by_cases h : (i : Int) ≤ e.maxRetries
    · by_cases hcan : 0 < i ∧ env.ctxDone i = true
      · rw [retryLoop_cancel e env fuel i c h hcan.1 hcan.2]
        refine ⟨[LoopEvent.backoff i (backoffTime i), LoopEvent.ctxDone i], by simp, ?_⟩
        simp only [fullLog, h, if_true, iterLog, hcan.1, List.nil_append]
        simp [List.filter, notCtxDone]
      · have hc : 0 < i → env.ctxDone i = false := by
          intro hi
          cases hd : env.ctxDone i with
          | false => rfl
          | true => exact absurd ⟨hi, hd⟩ hcan
        have hiter : ∀ log, iterLog i log = log ++ iterLog i [] := by
          intro log
          unfold iterLog
          split_ifs <;> simp
        have hfilt : (iterLog i []).filter notCtxDone = iterLog i [] := by
          unfold iterLog
          split_ifs <;> simp [List.filter, notCtxDone]
        cases hr : retried (env.outcome i) with
        | true =>
          obtain ⟨c', hstep, hlog⟩ := retryLoop_retry e env fuel i c h hc hr
          obtain ⟨seg, hseg, hpre⟩ := ih (i + 1) c'
          refine ⟨iterLog i [] ++ seg, ?_, ?_⟩
          · rw [hstep, hseg, hlog, hiter c.log, List.append_assoc]
          · simp only [fullLog, h, if_true, List.filter_append, hfilt]
            exact (List.prefix_append_right_inj _).2 hpre
        | false =>
          obtain ⟨resp, ho, hs⟩ := not_retried _ hr
          rw [retryLoop_stop e env fuel i c h hc resp ho hs]
          refine ⟨iterLog i [], hiter c.log, ?_⟩
          simp only [fullLog, h, if_true, hfilt]
          exact List.prefix_append _ _
    · rw [retryLoop_exit e env fuel i c h]
      exact ⟨[], by simp, by simp⟩

/-- What `doRequestWithRetry` returns once the breaker has admitted the call. -/
lemma doRequestWithRetry_admitted (e : OpenAIEmbedder) (cb cb1 : CircuitBreaker)
    (tAdmit tRecord : Int) (env : Env) (hadm : allowRequest cb tAdmit = (true, cb1)) :
    (doRequestWithRetry e cb tAdmit tRecord env).log =
      (retryClosure e env { resp := none, err := none, log := [] }).2.log ∧
    (doRequestWithRetry e cb tAdmit tRecord env).cb =
      recordResult cb1 tRecord (retryClosure e env { resp := none, err := none, log := [] }).1 ∧
    ((retryClosure e env { resp := none, err := none, log := [] }).1 = none →
      (doRequestWithRetry e cb tAdmit tRecord env).err = none ∧
      (doRequestWithRetry e cb tAdmit tRecord env).resp =
        (retryClosure e env { resp := none, err := none, log := [] }).2.resp ∧
      (doRequestWithRetry e cb tAdmit tRecord env).trace =
        [ExecEvent.invoked, ExecEvent.recordedSuccess]) := by
  refine ⟨?_, ?_, ?_⟩
  · simp only [doRequestWithRetry, Execute, hadm]
    split <;> [split_ifs; skip] <;> rfl
  · simp only [doRequestWithRetry, Execute, hadm]
    split <;> [split_ifs; skip] <;> rfl
  · intro hnone
    simp [doRequestWithRetry, Execute, hadm, hnone]

lemma doRequestWithRetry_rejected (e : OpenAIEmbedder) (cb cb1 : CircuitBreaker)
    (tAdmit tRecord : Int) (env : Env) (hadm : allowRequest cb tAdmit = (false, cb1)) :
    (doRequestWithRetry e cb tAdmit tRecord env).log = [] := by
  simp [doRequestWithRetry, Execute, hadm]

lemma retryClosure_fuel (e : OpenAIEmbedder) :
    e.maxRetries + 1 - ((0 : Nat) : Int) < (((e.maxRetries + 1).toNat + 1 : Nat) : Int) := by
  push_cast
  omega

/-- An attempt that was sent and answered with a status the loop does not
retry ends the run: the response is returned with a nil error, the breaker
records one success, and no later attempt is sent. -/
lemma response_ends_run (e : OpenAIEmbedder) (env : Env) (cb cb1 : CircuitBreaker)
    (tAdmit tRecord : Int) (hadm : allowRequest cb tAdmit = (true, cb1)) (j : Nat)
    (resp : Response) (hmade : attemptMade (doRequestWithRetry e cb tAdmit tRecord env) j)
    (ho : env.outcome j = AttemptOutcome.doResponse resp)
    (hs : ¬ (resp.StatusCode ≥ 500 ∨ resp.StatusCode = 429)) :
    (doRequestWithRetry e cb tAdmit tRecord env).resp = some resp ∧
    (doRequestWithRetry e cb tAdmit tRecord env).err = none ∧
    (doRequestWithRetry e cb tAdmit tRecord env).trace =
      [ExecEvent.invoked, ExecEvent.recordedSuccess] ∧
    (doRequestWithRetry e cb tAdmit tRecord env).cb = onSuccess cb1 ∧
    (∀ k, j < k → ¬ attemptMade (doRequestWithRetry e cb tAdmit tRecord env) k) := by
  obtain ⟨hlog, hcb, hnone⟩ := doRequestWithRetry_admitted e cb cb1 tAdmit tRecord env hadm
  have hmem := fun k => attempt_mem_retryLoop e env k _ 0
    { resp := none, err := none, log := [] } (retryClosure_fuel e)
  have hreach : reaches e env 0 j := by
    unfold attemptMade at hmade
    rw [hlog] at hmade
    have := (hmem j).1 hmade
    simpa using this
  obtain ⟨h1, h2, h3⟩ := retryLoop_result_of_response e env j resp ho hs _ 0
    { resp := none, err := none, log := [] } (retryClosure_fuel e) hreach
  obtain ⟨herr, hresp, htrace⟩ := hnone h1
  refine ⟨by rw [hresp]; exact h2, herr, htrace, ?_, ?_⟩
  · rw [hcb]
    unfold retryClosure
    rw [h1]
    simp [recordResult]
  · intro k hjk hk
    unfold attemptMade at hk
    rw [hlog] at hk
    have := (hmem k).1 hk
    simp only [List.not_mem_nil, false_or] at this
    obtain ⟨_, _, h3', _⟩ := this
    have hr := h3' j (Nat.zero_le _) hjk
    rw [ho] at hr
    simp [retried, hs] at hr

/-! ## C7 – C10: the retry loop under the breaker -/

/-- C7 (as amended): when an attempt is answered with a status in 400..499
other than 429, no further attempt is made, the response is returned with a nil
error, and the breaker records exactly one outcome for the operation, a
success (`onSuccess`), not a failure. -/
theorem permanent_status_stops_and_records_success (e : OpenAIEmbedder) (env : Env)
    (cb cb1 : CircuitBreaker) (tAdmit tRecord : Int)
    (hadm : allowRequest cb tAdmit = (true, cb1)) (j : Nat) (resp : Response)
    (hmade : attemptMade (doRequestWithRetry e cb tAdmit tRecord env) j)
    (ho : env.outcome j = AttemptOutcome.doResponse resp)
    (h4 : 400 ≤ resp.StatusCode ∧ resp.StatusCode ≤ 499) (hne : resp.StatusCode ≠ 429) :
    (∀ k, j < k → ¬ attemptMade (doRequestWithRetry e cb tAdmit tRecord env) k) ∧
    (doRequestWithRetry e cb tAdmit tRecord env).resp = some resp ∧
    (doRequestWithRetry e cb tAdmit tRecord env).err = none ∧
    (doRequestWithRetry e cb tAdmit tRecord env).trace =
      [ExecEvent.invoked, ExecEvent.recordedSuccess] ∧
    (doRequestWithRetry e cb tAdmit tRecord env).cb = onSuccess cb1 := by
  have hs : ¬ (resp.StatusCode ≥ 500 ∨ resp.StatusCode = 429) := by omega
  obtain ⟨h1, h2, h3, h4', h5⟩ :=
    response_ends_run e env cb cb1 tAdmit tRecord hadm j resp hmade ho hs
  exact ⟨h5, h1, h2, h3, h4'⟩

/-- C7 witness: a 404 on the first attempt against a fresh breaker. -/
theorem permanent_status_stops_and_records_success_witness :
    (doRequestWithRetry (NewOpenAIEmbedder "m").1 (NewCircuitBreaker (NewOpenAIEmbedder "m").2)
      0 0 (envOfList [AttemptOutcome.doResponse ⟨404⟩])).trace =
      [ExecEvent.invoked, ExecEvent.recordedSuccess] :=
  (permanent_status_stops_and_records_success (NewOpenAIEmbedder "m").1
    (envOfList [AttemptOutcome.doResponse ⟨404⟩]) (NewCircuitBreaker (NewOpenAIEmbedder "m").2)
    (NewCircuitBreaker (NewOpenAIEmbedder "m").2) 0 0 (by decide) 0 ⟨404⟩ (by decide) rfl
    (by decide) (by decide)).2.2.2.1

/-- C7 as stated fails: with four failures already counted (threshold 5), a 404
on the first attempt ends the operation with no retry, but the breaker records
a success: the failure count is reset and the breaker stays `Closed`, where a
failed `Execute` would have opened it. -/
theorem permanent_status_is_not_a_breaker_failure :
    attemptMade (doRequestWithRetry (NewOpenAIEmbedder "m").1 (sampleBreaker StateClosed 4)
      0 0 (envOfList [AttemptOutcome.doResponse ⟨404⟩])) 0 ∧
    (envOfList [AttemptOutcome.doResponse ⟨404⟩]).outcome 0 = AttemptOutcome.doResponse ⟨404⟩ ∧
    ¬ attemptMade (doRequestWithRetry (NewOpenAIEmbedder "m").1 (sampleBreaker StateClosed 4)
      0 0 (envOfList [AttemptOutcome.doResponse ⟨404⟩])) 1 ∧
    ExecEvent.recordedFailure ∉ (doRequestWithRetry (NewOpenAIEmbedder "m").1
      (sampleBreaker StateClosed 4) 0 0 (envOfList [AttemptOutcome.doResponse ⟨404⟩])).trace ∧
    (doRequestWithRetry (NewOpenAIEmbedder "m").1 (sampleBreaker StateClosed 4)
      0 0 (envOfList [AttemptOutcome.doResponse ⟨404⟩])).cb.failures = 0 ∧
    State (doRequestWithRetry (NewOpenAIEmbedder "m").1 (sampleBreaker StateClosed 4)
      0 0 (envOfList [AttemptOutcome.doResponse ⟨404⟩])).cb = StateClosed ∧
    State (onFailure (sampleBreaker StateClosed 4) 0) = StateOpen := by
  decide

/-- C8 (the code at the failing input): when `http.NewRequestWithContext`
fails on all four attempts, `err` is never assigned, so the run returns a nil
response with a nil error and the breaker records a success; and after one
transport error followed by three request-creation errors the error returned
is the stale transport error of attempt 0. -/
theorem all_request_errors_return_nil_nil :
    attemptCount (doRequestWithRetry (NewOpenAIEmbedder "m").1
      (NewCircuitBreaker (NewOpenAIEmbedder "m").2) 0 0 (envOfList [])).log = 4 ∧
    (doRequestWithRetry (NewOpenAIEmbedder "m").1
      (NewCircuitBreaker (NewOpenAIEmbedder "m").2) 0 0 (envOfList [])).resp = none ∧
    (doRequestWithRetry (NewOpenAIEmbedder "m").1
      (NewCircuitBreaker (NewOpenAIEmbedder "m").2) 0 0 (envOfList [])).err = none ∧
    (doRequestWithRetry (NewOpenAIEmbedder "m").1
      (NewCircuitBreaker (NewOpenAIEmbedder "m").2) 0 0 (envOfList [])).trace =
      [ExecEvent.invoked, ExecEvent.recordedSuccess] ∧
    (doRequestWithRetry (NewOpenAIEmbedder "m").1
      (NewCircuitBreaker (NewOpenAIEmbedder "m").2) 0 0
      (envOfList [AttemptOutcome.doError none (Error.transportErr 7)])).err =
      some (Error.transportErr 7) := by
  decide

/-- C9 (as amended): with the breaker admitting and the context never
cancelled, attempt 0 is made iff `0 ≤ maxRetries`; attempt `i + 1` is made iff
attempt `i` was made, ended in a request-creation error, a transport error or
a response with status `≥ 500` or `429`, and `i < maxRetries`; at most
`maxRetries + 1` attempts are made (4 for `maxRetries = 3`); and the first
attempt answered with any other status ends the loop, that response is returned
with a nil error and the breaker records exactly one success. -/
theorem retry_loop_attempts (e : OpenAIEmbedder) (env : Env) (cb cb1 : CircuitBreaker)
    (tAdmit tRecord : Int) (hadm : allowRequest cb tAdmit = (true, cb1))
    (hctx : ∀ k, env.ctxDone k = false) :
    (attemptMade (doRequestWithRetry e cb tAdmit tRecord env) 0 ↔ 0 ≤ e.maxRetries) ∧
    (∀ i : Nat, attemptMade (doRequestWithRetry e cb tAdmit tRecord env) (i + 1) ↔
      attemptMade (doRequestWithRetry e cb tAdmit tRecord env) i ∧
      (isRequestError (env.outcome i) = true ∨ isTransportError (env.outcome i) = true ∨
        isRetryStatus (env.outcome i) = true) ∧
      (i : Int) < e.maxRetries) ∧
    attemptCount (doRequestWithRetry e cb tAdmit tRecord env).log ≤ (e.maxRetries + 1).toNat ∧
    (e.maxRetries = 3 → attemptCount (doRequestWithRetry e cb tAdmit tRecord env).log ≤ 4) ∧
    (∀ (j : Nat) (resp : Response),
      attemptMade (doRequestWithRetry e cb tAdmit tRecord env) j →
      env.outcome j = AttemptOutcome.doResponse resp →
      ¬ (resp.StatusCode ≥ 500 ∨ resp.StatusCode = 429) →
      (doRequestWithRetry e cb tAdmit tRecord env).resp = some resp ∧
      (doRequestWithRetry e cb tAdmit tRecord env).err = none ∧
      (doRequestWithRetry e cb tAdmit tRecord env).trace =
        [ExecEvent.invoked, ExecEvent.recordedSuccess] ∧
      (doRequestWithRetry e cb tAdmit tRecord env).cb = onSuccess cb1 ∧
      (∀ k, j < k → ¬ attemptMade (doRequestWithRetry e cb tAdmit tRecord env) k)) := by
  obtain ⟨hlog, _, _⟩ := doRequestWithRetry_admitted e cb cb1 tAdmit tRecord env hadm
  have hmem : ∀ k, attemptMade (doRequestWithRetry e cb tAdmit tRecord env) k ↔
      reaches e env 0 k := by
    intro k
    unfold attemptMade
    rw [hlog]
    have := attempt_mem_retryLoop e env k _ 0
      { resp := none, err := none, log := [] } (retryClosure_fuel e)
    simpa [retryClosure] using this
  have hcount : attemptCount (doRequestWithRetry e cb tAdmit tRecord env).log ≤
      (e.maxRetries + 1).toNat := by
    rw [hlog]
    have := attemptCount_retryLoop e env ((e.maxRetries + 1).toNat + 1) 0
      { resp := none, err := none, log := [] }
    simpa [retryClosure, attemptCount] using this
  refine ⟨?_, ?_, hcount, ?_, ?_⟩
  · rw [hmem]
    constructor
    · rintro ⟨_, h2, _, _⟩
      simpa using h2
    · intro h
      exact ⟨le_refl _, by simpa using h, fun k _ hk => absurd hk (by omega),
        fun k _ _ _ => hctx k⟩
  · intro i
    rw [hmem, hmem]
    have hcls : (isRequestError (env.outcome i) = true ∨ isTransportError (env.outcome i) = true ∨
        isRetryStatus (env.outcome i) = true) ↔ retried (env.outcome i) = true := by
      rw [retried_eq]
      simp [Bool.or_eq_true, or_assoc]
    rw [hcls]
    constructor
    · rintro ⟨_, h2, h3, h4⟩
      refine ⟨⟨Nat.zero_le _, by push_cast at h2; omega, fun k hk1 hk2 => h3 k hk1 (by omega),
        fun k _ _ _ => hctx k⟩, h3 i (Nat.zero_le _) (by omega), by push_cast at h2; omega⟩
    · rintro ⟨⟨_, h2, h3, h4⟩, hr, hlt⟩
      refine ⟨Nat.zero_le _, by push_cast; omega, fun k hk1 hk2 => ?_, fun k _ _ _ => hctx k⟩
      by_cases hki : k = i
      · subst hki; exact hr
      · exact h3 k hk1 (by omega)
  · intro h3
    rw [h3] at hcount
    simpa using hcount
  · intro j resp hmade ho hs
    exact response_ends_run e env cb cb1 tAdmit tRecord hadm j resp hmade ho hs

/-- C9 witness: a 503 followed by a 200 against a fresh breaker. -/
theorem retry_loop_attempts_witness :
    (attemptMade (doRequestWithRetry (NewOpenAIEmbedder "m").1
        (NewCircuitBreaker (NewOpenAIEmbedder "m").2) 0 0
        (envOfList [AttemptOutcome.doResponse ⟨503⟩, AttemptOutcome.doResponse ⟨200⟩])) 0 ↔
      0 ≤ (NewOpenAIEmbedder "m").1.maxRetries) ∧
    attemptCount (doRequestWithRetry (NewOpenAIEmbedder "m").1
        (NewCircuitBreaker (NewOpenAIEmbedder "m").2) 0 0
        (envOfList [AttemptOutcome.doResponse ⟨503⟩, AttemptOutcome.doResponse ⟨200⟩])).log ≤
      ((NewOpenAIEmbedder "m").1.maxRetries + 1).toNat :=
  have h := retry_loop_attempts (NewOpenAIEmbedder "m").1
    (envOfList [AttemptOutcome.doResponse ⟨503⟩, AttemptOutcome.doResponse ⟨200⟩])
    (NewCircuitBreaker (NewOpenAIEmbedder "m").2) (NewCircuitBreaker (NewOpenAIEmbedder "m").2)
    0 0 (by decide) (fun _ => rfl)
  ⟨h.1, h.2.2.1⟩

/-- C9 as stated fails: when `http.NewRequestWithContext` fails (the URL being
fixed, it then fails in every iteration), attempt 0 ends in a request-creation
error, which is neither a transport error nor a response with status `≥ 500`
or `429`, and attempts 1, 2 and 3 are made all the same. -/
theorem retry_after_request_error :
    attemptCount (doRequestWithRetry (NewOpenAIEmbedder "m").1
        (NewCircuitBreaker (NewOpenAIEmbedder "m").2) 0 0
        (envOfList [AttemptOutcome.requestError, AttemptOutcome.requestError,
          AttemptOutcome.requestError, AttemptOutcome.requestError])).log = 4 ∧
    ¬ (attemptMade (doRequestWithRetry (NewOpenAIEmbedder "m").1
        (NewCircuitBreaker (NewOpenAIEmbedder "m").2) 0 0
        (envOfList [AttemptOutcome.requestError, AttemptOutcome.requestError,
          AttemptOutcome.requestError, AttemptOutcome.requestError])) 1 ↔
      attemptMade (doRequestWithRetry (NewOpenAIEmbedder "m").1
        (NewCircuitBreaker (NewOpenAIEmbedder "m").2) 0 0
        (envOfList [AttemptOutcome.requestError, AttemptOutcome.requestError,
          AttemptOutcome.requestError, AttemptOutcome.requestError])) 0 ∧
      (isTransportError ((envOfList [AttemptOutcome.requestError, AttemptOutcome.requestError,
          AttemptOutcome.requestError, AttemptOutcome.requestError]).outcome 0) = true ∨
        isRetryStatus ((envOfList [AttemptOutcome.requestError, AttemptOutcome.requestError,
          AttemptOutcome.requestError, AttemptOutcome.requestError]).outcome 0) = true) ∧
      ((0 : Nat) : Int) < (NewOpenAIEmbedder "m").1.maxRetries) := by
  decide

/-- The log of a run is the starting log followed by `runLog`. -/
lemma retryLoop_log_eq (e : OpenAIEmbedder) (env : Env) :
    ∀ (fuel i : Nat) (c : Captured),
      (retryLoop e env fuel i c).2.log = c.log ++ runLog e env fuel i := by
  intro fuel
  induction fuel with
  | zero => intro i c; simp [retryLoop, runLog]
  | succ fuel ih =>
    intro i c
    by_cases h : (i : Int) ≤ e.maxRetries
    · by_cases hcan : 0 < i ∧ env.ctxDone i = true
      · rw [retryLoop_cancel e env fuel i c h hcan.1 hcan.2]
        simp [runLog, h, hcan.1, hcan.2]
      · have hc : 0 < i → env.ctxDone i = false := by
          intro hi
          cases hd : env.ctxDone i with
          | false => rfl
          | true => exact absurd ⟨hi, hd⟩ hcan
        cases hr : retried (env.outcome i) with
        | true =>
          obtain ⟨c', hstep, hlog⟩ := retryLoop_retry e env fuel i c h hc hr
          rw [hstep, ih, hlog]
          by_cases hi : 0 < i
          · simp [runLog, h, hi, hc hi, hr, iterLog]
          · simp [runLog, h, hi, hr, iterLog]
        | false =>
          obtain ⟨resp, ho, hs⟩ := not_retried _ hr
          rw [retryLoop_stop e env fuel i c h hc resp ho hs]
          by_cases hi : 0 < i
          · simp [runLog, h, hi, hc hi, hr, iterLog]
          · simp [runLog, h, hi, hr, iterLog]
    · rw [retryLoop_exit e env fuel i c h]
      simp [runLog, h]

lemma fullLog_three (e : OpenAIEmbedder) (he : e.maxRetries = 3) :
    fullLog e ((e.maxRetries + 1).toNat + 1) 0 =
      [LoopEvent.attempt 0, LoopEvent.backoff 1 (1 * Second), LoopEvent.attempt 1,
       LoopEvent.backoff 2 (2 * Second), LoopEvent.attempt 2,
       LoopEvent.backoff 3 (4 * Second), LoopEvent.attempt 3] := by
  cases e with
  | mk m =>
    simp only at he
    subst he
    decide

/-- C10: with `maxRetries = 3` the waits computed for attempts 1, 2, 3 are
1 s, 2 s and 4 s, each equal to `min(2^(i-1) s, 10 s)`; the events of every
run (the cancellation marker aside) are an initial part of: attempt 0 with no
wait before it, wait 1 s, attempt 1, wait 2 s, attempt 2, wait 4 s, attempt 3;
and once the breaker admits the call, attempt 0 is the first event of the run,
every iteration `i` in `1..3` that is reached enters the wait of
`min(2^(i-1) s, 10 s)` and, unless that wait is cancelled, makes attempt `i`,
and a run in which every attempt is retried and no wait is cancelled has
exactly the seven events above. -/
theorem backoff_schedule (e : OpenAIEmbedder) (he : e.maxRetries = 3) (cb : CircuitBreaker)
    (tAdmit tRecord : Int) (env : Env) :
    backoffTime 1 = 1 * Second ∧ backoffTime 2 = 2 * Second ∧ backoffTime 3 = 4 * Second ∧
    (∀ i : Nat, 1 ≤ i → (i : Int) ≤ e.maxRetries →
      backoffTime i = min (2 ^ (i - 1) * Second) (10 * Second)) ∧
    ((doRequestWithRetry e cb tAdmit tRecord env).log.filter notCtxDone <+:
      [LoopEvent.attempt 0, LoopEvent.backoff 1 (1 * Second), LoopEvent.attempt 1,
       LoopEvent.backoff 2 (2 * Second), LoopEvent.attempt 2,
       LoopEvent.backoff 3 (4 * Second), LoopEvent.attempt 3]) ∧
    (∀ cb1, allowRequest cb tAdmit = (true, cb1) →
      (∃ rest, (doRequestWithRetry e cb tAdmit tRecord env).log = LoopEvent.attempt 0 :: rest) ∧
      (∀ i : Nat, 1 ≤ i → i ≤ 3 →
        (∀ k, k < i → retried (env.outcome k) = true) →
        (∀ k, 1 ≤ k → k < i → env.ctxDone k = false) →
        LoopEvent.backoff i (min (2 ^ (i - 1) * Second) (10 * Second)) ∈
          (doRequestWithRetry e cb tAdmit tRecord env).log ∧
        (env.ctxDone i = false →
          attemptMade (doRequestWithRetry e cb tAdmit tRecord env) i)) ∧
      ((∀ k, retried (env.outcome k) = true) → (∀ k, env.ctxDone k = false) →
        (doRequestWithRetry e cb tAdmit tRecord env).log =
          [LoopEvent.attempt 0, LoopEvent.backoff 1 (1 * Second), LoopEvent.attempt 1,
           LoopEvent.backoff 2 (2 * Second), LoopEvent.attempt 2,
           LoopEvent.backoff 3 (4 * Second), LoopEvent.attempt 3])) := by
  have b1 : backoffTime 1 = 1 * Second := by decide
  have b2 : backoffTime 2 = 2 * Second := by decide
  have b3 : backoffTime 3 = 4 * Second := by decide
  have hmin : ∀ i : Nat, 1 ≤ i → i ≤ 3 →
      backoffTime i = min (2 ^ (i - 1) * Second) (10 * Second) := by
    intro i h1 h3
    interval_cases i <;> decide
  refine ⟨b1, b2, b3, ?_, ?_, ?_⟩
  · intro i h1 h3
    rw [he] at h3
    exact hmin i h1 (by omega)
  · cases hadm : allowRequest cb tAdmit with
    | mk b cb1 =>
      cases b with
      | false =>
        rw [doRequestWithRetry_rejected e cb cb1 tAdmit tRecord env hadm]
        simp
      | true =>
        obtain ⟨hlog, _, _⟩ := doRequestWithRetry_admitted e cb cb1 tAdmit tRecord env hadm
        obtain ⟨seg, hseg, hpre⟩ := retryLoop_log_prefix e env ((e.maxRetries + 1).toNat + 1) 0
          { resp := none, err := none, log := [] }
        rw [hlog]
        unfold retryClosure
        rw [hseg, ← fullLog_three e he]
        simpa using hpre
  · intro cb1 hadm
    obtain ⟨hlog, _, _⟩ := doRequestWithRetry_admitted e cb cb1 tAdmit tRecord env hadm
    have hfuel : (e.maxRetries + 1).toNat + 1 = 5 := by
      rw [he]
      rfl
    have hrun : (doRequestWithRetry e cb tAdmit tRecord env).log = runLog e env 5 0 := by
      rw [hlog]
      unfold retryClosure
      rw [retryLoop_log_eq, hfuel]
      rfl
    refine ⟨?_, ?_, ?_⟩
    · refine ⟨if retried (env.outcome 0) = true then runLog e env 4 1 else [], ?_⟩
      rw [hrun]
      simp [runLog, he]
    · intro i hi1 hi3 hr hc
      rw [← hmin i hi1 hi3]
      unfold attemptMade
      rw [hrun]
      interval_cases i
      · have r0 := hr 0 (by decide)
        constructor
        · simp [runLog, he, r0]
        · intro c1
          simp [runLog, he, r0, c1]
      · have r0 := hr 0 (by decide)
        have r1 := hr 1 (by decide)
        have c1 := hc 1 (by decide) (by decide)
        constructor
        · simp [runLog, he, r0, r1, c1]
        · intro c2
          simp [runLog, he, r0, r1, c1, c2]
      · have r0 := hr 0 (by decide)
        have r1 := hr 1 (by decide)
        have r2 := hr 2 (by decide)
        have c1 := hc 1 (by decide) (by decide)
        have c2 := hc 2 (by decide) (by decide)
        constructor
        · simp [runLog, he, r0, r1, r2, c1, c2]
        · intro c3
          simp [runLog, he, r0, r1, r2, c1, c2, c3]
    · intro hr hc
      rw [hrun]
      simp [runLog, he, hr, hc, b1, b2, b3]

/-- C10 witness: the embedder built by `NewOpenAIEmbedder` against a fresh
breaker, every attempt answered 500: attempt 0 at once, then waits of 1 s, 2 s
and 4 s before attempts 1, 2 and 3. -/
theorem backoff_schedule_witness :
    (NewOpenAIEmbedder "m").1.maxRetries = 3 ∧
    (doRequestWithRetry (NewOpenAIEmbedder "m").1 (NewCircuitBreaker (NewOpenAIEmbedder "m").2)
      0 0 failingEnv).log =
      [LoopEvent.attempt 0, LoopEvent.backoff 1 (1 * Second), LoopEvent.attempt 1,
       LoopEvent.backoff 2 (2 * Second), LoopEvent.attempt 2,
       LoopEvent.backoff 3 (4 * Second), LoopEvent.attempt 3] :=
  have h := backoff_schedule (NewOpenAIEmbedder "m").1 rfl
    (NewCircuitBreaker (NewOpenAIEmbedder "m").2) 0 0 failingEnv
  ⟨rfl, (h.2.2.2.2.2 (NewCircuitBreaker (NewOpenAIEmbedder "m").2) (by decide)).2.2
    (fun _ => rfl) (fun _ => rfl)⟩

/-! ## C11: the backoff expression beyond the constructor's `maxRetries` -/

lemma backoffTime_le_cap (i : Int) : backoffTime i ≤ 10 * Second := by
  simp only [backoffTime, Second]
  split_ifs <;> omega

lemma backoffTime_step (i : Nat) (h1 : 1 ≤ i) (h2 : i < 34) :
    backoffTime (i : Int) ≤ backoffTime ((i + 1 : Nat) : Int) := by
  interval_cases i <;> decide

/-- C11 (as amended): for attempts `1 ≤ i ≤ j ≤ 34` the computed backoff is
non-decreasing, and for every attempt index whatsoever it is at most the
10-second cap; the 64-bit product overflows from attempt 35 on. -/
theorem backoff_nondecreasing_below_overflow (i j : Nat) (h1 : 1 ≤ i) (hij : i ≤ j)
    (hj : j ≤ 34) :
    backoffTime (i : Int) ≤ backoffTime (j : Int) ∧
    (∀ k : Int, backoffTime k ≤ 10 * Second) := by
  refine ⟨?_, backoffTime_le_cap⟩
  induction j, hij using Nat.le_induction with
  | base => exact le_refl _
  | succ n hn ih =>
    exact le_trans (ih (by omega)) (backoffTime_step n (by omega) (by omega))

/-- C11 witness: attempts 3 and 34. -/
theorem backoff_nondecreasing_below_overflow_witness :
    backoffTime ((3 : Nat) : Int) ≤ backoffTime ((34 : Nat) : Int) :=
  (backoff_nondecreasing_below_overflow 3 34 (by decide) (by decide) (by decide)).1

/-- C11 as stated fails for `k = 35`: the wait computed for attempt 35 is
negative (the product `2^34 * time.Second` wraps), below the 10 s of attempt 34. -/
theorem backoff_decreases_at_35 :
    ¬ (∀ i j : Nat, 1 ≤ i → i ≤ j → j ≤ 35 → backoffTime (i : Int) ≤ backoffTime (j : Int)) := by
  intro h
  have h35 := h 34 35 (by decide) (by decide) (by decide)
  revert h35
  decide

/-! ## C18 – C20: transitions of the breaker -/

/-- C18 (as amended): after every step that changes the state, `successes = 0`;
`failures = 0` after the transitions into `HalfOpen` and into `Closed`, while a
transition into `Open` keeps the failure count, which is the old count
incremented by the failing step. -/
theorem transition_resets_counters (cb : CircuitBreaker) (step : BreakerStep)
    (hchg : (applyStep cb step).state ≠ cb.state) :
    (applyStep cb step).successes = 0 ∧
    ((applyStep cb step).state ≠ StateOpen → (applyStep cb step).failures = 0) ∧
    ((applyStep cb step).state = StateOpen →
      (applyStep cb step).failures = wrapInt64 (cb.failures + 1)) := by
  cases step with
  | admission now =>
    revert hchg
    cases hs : cb.state <;> simp only [applyStep, allowRequest, hs] <;>
      (try split_ifs) <;> simp [toHalfOpen, hs]
  | record now err =>
    revert hchg
    cases err with
    | none =>
      cases hs : cb.state <;>
        simp only [applyStep, recordResult, onSuccess, hs, ne_eq, not_true_eq_false,
          if_false] <;>
        (try split_ifs) <;> simp [toClosed, hs]
    | some e =>
      cases hs : cb.state <;>
        simp only [applyStep, recordResult, onFailure, hs, ne_eq, reduceCtorEq,
          not_false_eq_true, if_true] <;>
        (try split_ifs) <;> simp [toOpen, hs]

/-- C18 witness: the admission check that moves an open breaker to `HalfOpen`. -/
theorem transition_resets_counters_witness :
    (applyStep (sampleBreaker StateOpen 5) (BreakerStep.admission (31 * Second))).successes = 0 ∧
    (applyStep (sampleBreaker StateOpen 5) (BreakerStep.admission (31 * Second))).failures = 0 :=
  have h := transition_resets_counters (sampleBreaker StateOpen 5)
    (BreakerStep.admission (31 * Second)) (by decide)
  ⟨h.1, h.2.1 (by decide)⟩

/-- C18 as stated fails: the fifth failure moves a default breaker from
`Closed` to `Open` and leaves `failures = 5`, not `0`. -/
theorem closed_to_open_keeps_failures :
    (sampleBreaker StateClosed 4).state = StateClosed ∧
    (applyStep (sampleBreaker StateClosed 4)
      (BreakerStep.record 0 (some (Error.other 0)))).state = StateOpen ∧
    (applyStep (sampleBreaker StateClosed 4)
      (BreakerStep.record 0 (some (Error.other 0)))).failures = 5 ∧
    ¬ ((applyStep (sampleBreaker StateClosed 4)
        (BreakerStep.record 0 (some (Error.other 0)))).failures = 0 ∧
      (applyStep (sampleBreaker StateClosed 4)
        (BreakerStep.record 0 (some (Error.other 0)))).successes = 0) := by
  decide

/-- C19: in `Open`, with the elapsed time representable as a `time.Duration`,
the admission check admits iff `now - lastFailureTime > Timeout`; otherwise
(in particular at equality) it rejects and changes nothing; when it admits the
state is `HalfOpen` with `failures`, `successes`, `halfOpenRequests` all `0`;
and a step leaves `Open` only if it is an admitting admission check. -/
theorem open_admission_iff_timeout_elapsed (cb : CircuitBreaker) (hopen : cb.state = StateOpen)
    (now : Int) (hfit : isInt64 (now - cb.lastFailureTime)) :
    ((allowRequest cb now).1 = true ↔ now - cb.lastFailureTime > cb.config.Timeout) ∧
    (now - cb.lastFailureTime ≤ cb.config.Timeout → allowRequest cb now = (false, cb)) ∧
    (now - cb.lastFailureTime > cb.config.Timeout →
      State (allowRequest cb now).2 = StateHalfOpen ∧ (allowRequest cb now).2.failures = 0 ∧
      (allowRequest cb now).2.successes = 0 ∧ (allowRequest cb now).2.halfOpenRequests = 0) ∧
    (∀ step : BreakerStep, State (applyStep cb step) ≠ StateOpen →
      ∃ t, step = BreakerStep.admission t ∧ (allowRequest cb t).1 = true) := by
  have hsat : timeSince now cb.lastFailureTime = now - cb.lastFailureTime := by
    unfold isInt64 at hfit
    unfold timeSince satInt64
    split_ifs <;> omega
  refine ⟨?_, ?_, ?_, ?_⟩
  · simp only [allowRequest, hopen, hsat]
    split_ifs with h <;> simp [h]
  · intro hle
    simp only [allowRequest, hopen, hsat]
    rw [if_neg (by omega)]
  · intro hgt
    simp only [allowRequest, hopen, hsat]
    rw [if_pos hgt]
    simp [toHalfOpen, hopen, State]
  · intro step hne
    cases step with
    | admission t =>
      refine ⟨t, rfl, ?_⟩
      revert hne
      simp only [applyStep, allowRequest, hopen, State]
      split_ifs <;> simp [hopen]
    | record t err =>
      exfalso
      apply hne
      cases err <;> simp [applyStep, recordResult, onSuccess, onFailure, hopen, State]

/-- C19 witness: a default breaker tripped at time 0, checked at exactly 30 s. -/
theorem open_admission_iff_timeout_elapsed_witness :
    allowRequest (sampleBreaker StateOpen 5) (30 * Second) = (false, sampleBreaker StateOpen 5) :=
  (open_admission_iff_timeout_elapsed (sampleBreaker StateOpen 5) rfl (30 * Second)
    (by decide)).2.1 (by decide)

/-- C20: every step either keeps the state or follows one of the four listed
transitions; a recorded success never opens the breaker, `Closed` never goes
straight to `HalfOpen`, `Open` never straight to `Closed`, and each `to<State>`
helper called in its own state returns the breaker unchanged. -/
theorem steps_follow_listed_transitions (cb : CircuitBreaker) (step : BreakerStep) :
    (State (applyStep cb step) = State cb ∨
      listedTransition (State cb) (State (applyStep cb step)) = true) ∧
    (∀ t, State (recordResult cb t none) = StateOpen → State cb = StateOpen) ∧
    (State cb = StateClosed → State (applyStep cb step) ≠ StateHalfOpen) ∧
    (State cb = StateOpen → State (applyStep cb step) ≠ StateClosed) ∧
    (State cb = StateOpen → toOpen cb = cb) ∧
    (State cb = StateHalfOpen → toHalfOpen cb = cb) ∧
    (State cb = StateClosed → toClosed cb = cb) := by
  have hstep : ∀ st : BreakerStep, State (applyStep cb st) = State cb ∨
      listedTransition (State cb) (State (applyStep cb st)) = true := by
    intro st
    cases st with
    | admission now =>
      cases hs : cb.state <;> simp only [applyStep, allowRequest, hs, State] <;>
        (try split_ifs) <;> simp [toHalfOpen, hs, listedTransition]
    | record now err =>
      cases err with
      | none =>
        cases hs : cb.state <;>
          simp only [applyStep, recordResult, onSuccess, hs, State, ne_eq, not_true_eq_false,
            if_false] <;>
          (try split_ifs) <;> simp [toClosed, hs, listedTransition]
      | some e =>
        cases hs : cb.state <;>
          simp only [applyStep, recordResult, onFailure, hs, State, ne_eq, reduceCtorEq,
            not_false_eq_true, if_true] <;>
          (try split_ifs) <;> simp [toOpen, hs, listedTransition]
  refine ⟨hstep step, ?_, ?_, ?_, ?_, ?_, ?_⟩
  · intro t
    cases hs : cb.state <;>
      simp only [recordResult, onSuccess, hs, State, ne_eq, not_true_eq_false, if_false] <;>
      (try split_ifs) <;> simp [toClosed, hs]
  · intro hs hh
    rcases hstep step with h | h
    · rw [hh, hs] at h; exact absurd h (by decide)
    · rw [hh, hs] at h; exact absurd h (by decide)
  · intro hs hh
    rcases hstep step with h | h
    · rw [hh, hs] at h; exact absurd h (by decide)
    · rw [hh, hs] at h; exact absurd h (by decide)
  · intro hs
    simp only [State] at hs
    simp [toOpen, hs]
  · intro hs
    simp only [State] at hs
    simp [toHalfOpen, hs]
  · intro hs
    simp only [State] at hs
    simp [toClosed, hs]

/-! ## Maps kept as lists of entries -/

lemma mapLookup_mapInsert_self {β : Type} (m : List (String × β)) (k : String) (v : β) :
    mapLookup (mapInsert m k v) k = some v := by
  induction m with
  | nil => simp [mapInsert, mapLookup]
  | cons p m ih =>
    obtain ⟨k', v'⟩ := p
    by_cases h : k' = k
    · simp [mapInsert, mapLookup, h]
    · simp [mapInsert, mapLookup, h, ih]

lemma mapLookup_mapInsert_ne {β : Type} (m : List (String × β)) (k k' : String) (v : β)
    (hne : k' ≠ k) : mapLookup (mapInsert m k v) k' = mapLookup m k' := by
  induction m with
  | nil => simp [mapInsert, mapLookup, Ne.symm hne]
  | cons p m ih =>
    obtain ⟨k0, v0⟩ := p
    by_cases h : k0 = k
    · subst h
      simp [mapInsert, mapLookup, Ne.symm hne]
    · by_cases h' : k0 = k'
      · subst h'
        simp [mapInsert, mapLookup, h]
      · simp [mapInsert, mapLookup, h, h', ih]

lemma mem_mapInsert {β : Type} (m : List (String × β)) (k : String) (v : β)
    (p : String × β) (hp : p ∈ mapInsert m k v) : p ∈ m ∨ p = (k, v) := by
  induction m with
  | nil => simpa [mapInsert] using hp
  | cons q m ih =>
    obtain ⟨k', v'⟩ := q
    by_cases h : k' = k
    · simp only [mapInsert, h, if_true, List.mem_cons] at hp
      rcases hp with hp | hp
      · exact Or.inr hp
      · exact Or.inl (List.mem_cons_of_mem _ hp)
    · simp only [mapInsert, h, if_false, List.mem_cons] at hp
      rcases hp with hp | hp
      · exact Or.inl (by rw [hp]; exact List.mem_cons_self _ _)
      · rcases ih hp with h1 | h1
        · exact Or.inl (List.mem_cons_of_mem _ h1)
        · exact Or.inr h1

lemma mapLookup_mem {β : Type} (m : List (String × β)) (k : String) (v : β)
    (h : mapLookup m k = some v) : (k, v) ∈ m := by
  induction m with
  | nil => simp [mapLookup] at h
  | cons p m ih =>
    obtain ⟨k', v'⟩ := p
    by_cases hk : k' = k
    · simp only [mapLookup, hk, if_true, Option.some.injEq] at h
      rw [hk, h]
      exact List.mem_cons_self _ _
    · simp only [mapLookup, hk, if_false] at h
      exact List.mem_cons_of_mem _ (ih h)

lemma mem_mapLookup_of_nodup {β : Type} (m : List (String × β)) (k : String) (v : β)
    (hnd : (m.map Prod.fst).Nodup) (h : (k, v) ∈ m) : mapLookup m k = some v := by
  induction m with
  | nil => simp at h
  | cons p m ih =>
    obtain ⟨k', v'⟩ := p
    simp only [List.map_cons, List.nodup_cons, List.mem_map, not_exists, not_and] at hnd
    simp only [List.mem_cons, Prod.mk.injEq] at h
    rcases h with ⟨h1, h2⟩ | h
    · simp [mapLookup, h1, h2]
    · have hne : k' ≠ k := by
        intro heq
        exact hnd.1 (k, v) h heq.symm
      simp only [mapLookup, hne, if_false]
      exact ih hnd.2 h

/-! ## The stream manager, one call at a time -/

lemma getStream_getOrCreateStream (m : MemoryStreamManager) (s msg : String) (now : Int) :
    getStream (getOrCreateStream m s msg now) s msg =
      some (match getStream m s msg with
        | some d => d
        | none => { events := [], lastUpdated := now, createdAt := now }) := by
  unfold getStream getOrCreateStream
  cases hs : mapLookup m.streams s with
  | none =>
    simp [mapLookup_mapInsert_self, mapLookup, mapInsert]
  | some sm =>
    cases hm : mapLookup sm msg with
    | none => simp [hs, hm, mapLookup_mapInsert_self]
    | some d => simp [hs, hm, mapLookup_mapInsert_self]

lemma getStream_AppendEvent (m : MemoryStreamManager) (s msg : String) (ev : StreamEvent)
    (c : AppendClock) :
    getStream (AppendEvent m s msg ev c).2 s msg =
      some { events := appendBounded (eventsOf m s msg) (stampEvent ev c),
             lastUpdated := c.updated,
             createdAt := (match getStream m s msg with
               | some d => d.createdAt
               | none => c.created) } := by
  have h1 := getStream_getOrCreateStream m s msg c.created
  have h2 : (AppendEvent m s msg ev c).2 =
      { streams :=
          mapInsert (getOrCreateStream m s msg c.created).streams s
            (mapInsert ((mapLookup (getOrCreateStream m s msg c.created).streams s).getD []) msg
              { events := appendBounded (eventsOf m s msg) (stampEvent ev c),
                lastUpdated := c.updated,
                createdAt := (match getStream m s msg with
                  | some d => d.createdAt
                  | none => c.created) }),
        cleanupInterval := (getOrCreateStream m s msg c.created).cleanupInterval,
        maxAge := (getOrCreateStream m s msg c.created).maxAge } := by
    unfold AppendEvent
    simp only [h1]
    unfold eventsOf
    cases getStream m s msg <;> rfl
  rw [h2]
  unfold getStream
  simp only [mapLookup_mapInsert_self]

lemma eventsOf_AppendEvent (m : MemoryStreamManager) (s msg : String) (ev : StreamEvent)
    (c : AppendClock) :
    eventsOf (AppendEvent m s msg ev c).2 s msg =
      appendBounded (eventsOf m s msg) (stampEvent ev c) := by
  have hd := getStream_AppendEvent m s msg ev c
  conv_lhs => unfold eventsOf
  rw [hd]

lemma appendBounded_of_lt (es : List StreamEvent) (e : StreamEvent)
    (h : (es.length : Int) < DefaultMaxEventsPerStream) : appendBounded es e = es ++ [e] := by
  unfold appendBounded
  rw [if_neg (by omega)]

lemma appendBounded_of_full (es : List StreamEvent) (e : StreamEvent)
    (h : (es.length : Int) ≥ DefaultMaxEventsPerStream) :
    appendBounded es e = es.drop 5000 ++ [e] := by
  unfold appendBounded
  rw [if_pos h]
  rfl

/-- While the buffer has room, appended events are stored in append order. -/
lemma eventsOf_appendAll (s msg : String) (xs : List (StreamEvent × AppendClock)) :
    ∀ m : MemoryStreamManager,
      ((eventsOf m s msg).length : Int) + (xs.length : Int) ≤ DefaultMaxEventsPerStream →
      eventsOf (appendAll m s msg xs) s msg =
        eventsOf m s msg ++ xs.map (fun x => stampEvent x.1 x.2) := by
  induction xs with
  | nil => intro m _; simp [appendAll]
  | cons x xs ih =>
    intro m h
    simp only [List.length_cons, Nat.cast_add, Nat.cast_one] at h
    have hstep := eventsOf_AppendEvent m s msg x.1 x.2
    rw [appendBounded_of_lt _ _ (by omega)] at hstep
    simp only [appendAll]
    rw [ih _ (by rw [hstep]; simp only [List.length_append, List.length_singleton,
      Nat.cast_add, Nat.cast_one]; omega), hstep]
    simp

lemma appendAll_append (s msg : String) (xs ys : List (StreamEvent × AppendClock)) :
    ∀ m : MemoryStreamManager,
      appendAll m s msg (xs ++ ys) = appendAll (appendAll m s msg xs) s msg ys := by
  induction xs with
  | nil => intro m; rfl
  | cons x xs ih =>
    intro m
    show appendAll (AppendEvent m s msg x.1 x.2).2 s msg (xs ++ ys) = _
    rw [ih]
    rfl

/-- For a non-negative offset `GetEvents` is determined by the stored events. -/
lemma GetEvents_of_eventsOf (m : MemoryStreamManager) (s msg : String) (off : Int)
    (h0 : 0 ≤ off) :
    GetEvents m s msg off =
      some (if off ≥ ((eventsOf m s msg).length : Int) then
              { events := [], nextOffset := off, err := none }
            else { events := (eventsOf m s msg).drop off.toNat,
                   nextOffset := ((eventsOf m s msg).length : Int), err := none }, m) := by
  unfold GetEvents eventsOf
  cases getStream m s msg with
  | none => simp [h0]
  | some d =>
    by_cases h : off ≥ (d.events.length : Int)
    · simp [h]
    · have h' : ¬ off < 0 := by omega
      simp [h, h']

/-! ## C12 – C14: appending and reading one stream -/

lemma eventsOf_of_getStream_none (m : MemoryStreamManager) (s msg : String)
    (h : getStream m s msg = none) : eventsOf m s msg = [] := by
  unfold eventsOf
  rw [h]

lemma map_stampEvent_of_stamped (xs : List (StreamEvent × AppendClock))
    (hts : ∀ x ∈ xs, x.1.Timestamp ≠ 0) :
    xs.map (fun x => stampEvent x.1 x.2) = xs.map Prod.fst := by
  apply List.map_congr_left
  intro x hx
  simp [stampEvent, hts x hx]

/-- C12: for `n ≤ DefaultMaxEventsPerStream` events with non-zero timestamps
appended to a stream that did not exist, `GetEvents` from offset `0` returns
exactly those events in append order with `nextOffset = n` and a nil error, and
`GetEvents` from offset `n` returns the empty list with offset `n`; neither
read changes the manager. -/
theorem append_then_read_roundtrip (m : MemoryStreamManager) (s msg : String)
    (xs : List (StreamEvent × AppendClock)) (hnew : getStream m s msg = none)
    (hn : (xs.length : Int) ≤ DefaultMaxEventsPerStream)
    (hts : ∀ x ∈ xs, x.1.Timestamp ≠ 0) :
    GetEvents (appendAll m s msg xs) s msg 0 =
      some ({ events := xs.map Prod.fst, nextOffset := (xs.length : Int), err := none },
            appendAll m s msg xs) ∧
    GetEvents (appendAll m s msg xs) s msg (xs.length : Int) =
      some ({ events := [], nextOffset := (xs.length : Int), err := none },
            appendAll m s msg xs) := by
  have h0 := eventsOf_of_getStream_none m s msg hnew
  have hev : eventsOf (appendAll m s msg xs) s msg = xs.map Prod.fst := by
    rw [eventsOf_appendAll s msg xs m (by rw [h0]; simpa using hn), h0,
      map_stampEvent_of_stamped xs hts]
    rfl
  constructor
  · rw [GetEvents_of_eventsOf _ _ _ _ (le_refl 0), hev]
    cases xs with
    | nil => simp
    | cons x xs =>
      have : ¬ (0 : Int) ≥ (((x :: xs).map Prod.fst).length : Int) := by
        simp only [List.length_map, List.length_cons, Nat.cast_add, Nat.cast_one]
        omega
      rw [if_neg this]
      simp
  · rw [GetEvents_of_eventsOf _ _ _ _ (by omega), hev]
    simp

/-- C12 witness: the spec's case `n = 3` on a fresh manager. -/
theorem append_then_read_roundtrip_witness :
    GetEvents (appendAll (NewMemoryStreamManager []) "s1" "m1" sampleAppends) "s1" "m1" 0 =
      some ({ events := sampleAppends.map Prod.fst, nextOffset := 3, err := none },
            appendAll (NewMemoryStreamManager []) "s1" "m1" sampleAppends) ∧
    GetEvents (appendAll (NewMemoryStreamManager []) "s1" "m1" sampleAppends) "s1" "m1" 3 =
      some ({ events := [], nextOffset := 3, err := none },
            appendAll (NewMemoryStreamManager []) "s1" "m1" sampleAppends) :=
  append_then_read_roundtrip (NewMemoryStreamManager []) "s1" "m1" sampleAppends rfl
    (by decide) (by decide)

/-- C13: for `fromOffset ≥ 0`, `GetEvents` returns with a nil error and leaves
the manager exactly as it was; the result is the empty list with `fromOffset`
when the stream does not exist or `fromOffset ≥ len(events)`, and otherwise
`events[fromOffset:]` with `len(events)`. -/
theorem GetEvents_returns_suffix (m : MemoryStreamManager) (s msg : String) (fromOffset : Int)
    (h0 : 0 ≤ fromOffset) :
    ∃ r : GetEventsResult, GetEvents m s msg fromOffset = some (r, m) ∧ r.err = none ∧
      (getStream m s msg = none → r.events = [] ∧ r.nextOffset = fromOffset) ∧
      (∀ d, getStream m s msg = some d → fromOffset ≥ (d.events.length : Int) →
        r.events = [] ∧ r.nextOffset = fromOffset) ∧
      (∀ d, getStream m s msg = some d → fromOffset < (d.events.length : Int) →
        r.events = d.events.drop fromOffset.toNat ∧
        r.nextOffset = (d.events.length : Int)) := by
  unfold GetEvents
  cases hg : getStream m s msg with
  | none => exact ⟨_, rfl, rfl, fun _ => ⟨rfl, rfl⟩, by simp, by simp⟩
  | some d =>
    by_cases h : fromOffset ≥ (d.events.length : Int)
    · refine ⟨{ events := [], nextOffset := fromOffset, err := none },
        by simp only [h, if_true], rfl, by simp, ?_, ?_⟩
      · intro d' hd _
        exact ⟨rfl, rfl⟩
      · intro d' hd hlt
        simp only [Option.some.injEq] at hd
        subst hd
        omega
    · have h' : ¬ fromOffset < 0 := by omega
      refine ⟨{ events := d.events.drop fromOffset.toNat,
                nextOffset := (d.events.length : Int), err := none },
        by simp only [h, h', if_false], rfl, by simp, ?_, ?_⟩
      · intro d' hd hge
        simp only [Option.some.injEq] at hd
        subst hd
        omega
      · intro d' hd _
        simp only [Option.some.injEq] at hd
        subst hd
        exact ⟨rfl, rfl⟩

/-- C13 witness: reading from offset 1 a stream holding three events. -/
theorem GetEvents_returns_suffix_witness :
    ∃ r : GetEventsResult,
      GetEvents (appendAll (NewMemoryStreamManager []) "s1" "m1" sampleAppends) "s1" "m1" 1 =
        some (r, appendAll (NewMemoryStreamManager []) "s1" "m1" sampleAppends) ∧
      r.err = none :=
  have h := GetEvents_returns_suffix
    (appendAll (NewMemoryStreamManager []) "s1" "m1" sampleAppends) "s1" "m1" 1 (by decide)
  h.elim (fun r hr => ⟨r, hr.1, hr.2.1⟩)

/-- C14: appending `DefaultMaxEventsPerStream + 1 = 10001` events one by one to
a stream that did not exist leaves it with the 5001 most recent ones in their
original order: the stored events are the appended ones without the first 5000. -/
theorem truncation_keeps_recent_events (m : MemoryStreamManager) (s msg : String)
    (xs : List (StreamEvent × AppendClock)) (hnew : getStream m s msg = none)
    (hlen : (xs.length : Int) = DefaultMaxEventsPerStream + 1) :
    eventsOf (appendAll m s msg xs) s msg = (xs.map (fun x => stampEvent x.1 x.2)).drop 5000 ∧
    (eventsOf (appendAll m s msg xs) s msg).length = 5001 ∧
    ((eventsOf (appendAll m s msg xs) s msg).length : Int) = DefaultMaxEventsPerStream / 2 + 1 := by
  have hlen' : xs.length = 10001 := by
    simp only [DefaultMaxEventsPerStream] at hlen
    omega
  have h0 := eventsOf_of_getStream_none m s msg hnew
  have hne : xs ≠ [] := by
    intro h
    rw [h] at hlen'
    simp at hlen'
  obtain ⟨ys, y, hxs⟩ : ∃ ys y, xs = ys ++ [y] :=
    ⟨xs.dropLast, xs.getLast hne, (List.dropLast_append_getLast hne).symm⟩
  have hys : ys.length = 10000 := by
    rw [hxs] at hlen'
    simpa using hlen'
  have hfirst : eventsOf (appendAll m s msg ys) s msg =
      ys.map (fun x => stampEvent x.1 x.2) := by
    rw [eventsOf_appendAll s msg ys m (by rw [h0, hys]; decide), h0]
    rfl
  have hall : eventsOf (appendAll m s msg xs) s msg =
      (xs.map (fun x => stampEvent x.1 x.2)).drop 5000 := by
    rw [hxs, appendAll_append]
    simp only [appendAll]
    rw [eventsOf_AppendEvent, appendBounded_of_full _ _ (by rw [hfirst]; simp [hys]; decide),
      hfirst]
    simp only [List.map_append, List.map_cons, List.map_nil]
    rw [List.drop_append_of_le_length (by simp [hys])]
  refine ⟨hall, ?_, ?_⟩
  · rw [hall]
    simp [hlen']
  · rw [hall]
    simp [hlen', DefaultMaxEventsPerStream]

/-- C14 witness: the events `e0 .. e10000` appended to a fresh manager. -/
theorem truncation_keeps_recent_events_witness :
    (eventsOf (appendAll (NewMemoryStreamManager []) "s1" "m1" manyAppends) "s1" "m1").length =
      5001 :=
  (truncation_keeps_recent_events (NewMemoryStreamManager []) "s1" "m1" manyAppends rfl
    (by simp [manyAppends, DefaultMaxEventsPerStream])).2.1

/-! ## C15: the size bound is an invariant -/

lemma NewMemoryStreamManager_streams (opts : List MemoryStreamManagerOption) :
    (NewMemoryStreamManager opts).streams = [] := by
  unfold NewMemoryStreamManager
  have : ∀ (os : List MemoryStreamManagerOption) (m : MemoryStreamManager),
      (os.foldl applyOption m).streams = m.streams := by
    intro os
    induction os with
    | nil => intro m; rfl
    | cons o os ih =>
      intro m
      rw [List.foldl_cons, ih]
      cases o <;> rfl
  rw [this]

lemma appendBounded_length_le (es : List StreamEvent) (e : StreamEvent)
    (h : (es.length : Int) ≤ DefaultMaxEventsPerStream) :
    ((appendBounded es e).length : Int) ≤ DefaultMaxEventsPerStream := by
  have h5 : (DefaultMaxEventsPerStream / 2).toNat = 5000 := by decide
  unfold appendBounded
  simp only [h5]
  unfold DefaultMaxEventsPerStream at h ⊢
  split_ifs with hc
  · simp only [List.length_append, List.length_drop, List.length_singleton, Nat.cast_add,
      Nat.cast_one]
    omega
  · simp only [List.length_append, List.length_singleton, Nat.cast_add, Nat.cast_one]
    omega

lemma bounded_mapInsert_streams (streams : List (String × List (String × memoryStreamData)))
    (s : String) (msgs : List (String × memoryStreamData))
    (h1 : ∀ entry ∈ streams, bufsBounded entry.2) (h2 : bufsBounded msgs) :
    ∀ entry ∈ mapInsert streams s msgs, bufsBounded entry.2 := by
  intro entry he
  rcases mem_mapInsert _ _ _ _ he with h | h
  · exact h1 entry h
  · rw [h]; exact h2

lemma bounded_mapInsert_messages (msgs : List (String × memoryStreamData)) (k : String)
    (d : memoryStreamData) (h1 : bufsBounded msgs)
    (h2 : (d.events.length : Int) ≤ DefaultMaxEventsPerStream) :
    bufsBounded (mapInsert msgs k d) := by
  intro buf hb
  rcases mem_mapInsert _ _ _ _ hb with h | h
  · exact h1 buf h
  · rw [h]; exact h2

lemma bounded_lookup_getD (streams : List (String × List (String × memoryStreamData)))
    (s : String) (h1 : ∀ entry ∈ streams, bufsBounded entry.2) :
    bufsBounded ((mapLookup streams s).getD []) := by
  cases h : mapLookup streams s with
  | none => intro buf hb; simp at hb
  | some msgs => exact h1 (s, msgs) (mapLookup_mem _ _ _ h)

lemma BoundedBuffers_getOrCreateStream (m : MemoryStreamManager) (s msg : String) (now : Int)
    (h : BoundedBuffers m) : BoundedBuffers (getOrCreateStream m s msg now) := by
  unfold BoundedBuffers getOrCreateStream
  have hs1 : ∀ entry ∈ (match mapLookup m.streams s with
      | some _ => m.streams
      | none => mapInsert m.streams s []), bufsBounded entry.2 := by
    cases mapLookup m.streams s with
    | none => exact bounded_mapInsert_streams _ _ _ h (by intro buf hb; simp at hb)
    | some _ => exact h
  apply bounded_mapInsert_streams _ _ _ hs1
  have hmsgs := bounded_lookup_getD _ s hs1
  split
  · exact hmsgs
  · exact bounded_mapInsert_messages _ _ _ hmsgs (by simp [DefaultMaxEventsPerStream])

lemma BoundedBuffers_AppendEvent (m : MemoryStreamManager) (s msg : String) (ev : StreamEvent)
    (c : AppendClock) (h : BoundedBuffers m) : BoundedBuffers (AppendEvent m s msg ev c).2 := by
  have h1 := BoundedBuffers_getOrCreateStream m s msg c.created h
  cases hg : getStream (getOrCreateStream m s msg c.created) s msg with
  | none =>
    have : (AppendEvent m s msg ev c).2 = getOrCreateStream m s msg c.created := by
      unfold AppendEvent
      simp only [hg]
    rw [this]
    exact h1
  | some stream =>
    have hstream : (stream.events.length : Int) ≤ DefaultMaxEventsPerStream := by
      unfold getStream at hg
      cases hl : mapLookup (getOrCreateStream m s msg c.created).streams s with
      | none => rw [hl] at hg; simp at hg
      | some sm =>
        rw [hl] at hg
        exact h1 (s, sm) (mapLookup_mem _ _ _ hl) (msg, stream) (mapLookup_mem _ _ _ hg)
    have : (AppendEvent m s msg ev c).2 =
        { streams :=
            mapInsert (getOrCreateStream m s msg c.created).streams s
              (mapInsert ((mapLookup (getOrCreateStream m s msg c.created).streams s).getD [])
                msg
                { events := appendBounded stream.events (stampEvent ev c),
                  lastUpdated := c.updated, createdAt := stream.createdAt }),
          cleanupInterval := (getOrCreateStream m s msg c.created).cleanupInterval,
          maxAge := (getOrCreateStream m s msg c.created).maxAge } := by
      unfold AppendEvent
      simp only [hg]
    rw [this]
    exact bounded_mapInsert_streams _ _ _ h1
      (bounded_mapInsert_messages _ _ _ (bounded_lookup_getD _ s h1)
        (appendBounded_length_le stream.events (stampEvent ev c) hstream))

lemma mem_cleanup_streams (m : MemoryStreamManager) (now : Int)
    (entry : String × List (String × memoryStreamData)) :
    entry ∈ (cleanup m now).streams ↔
      ∃ msgs, (entry.1, msgs) ∈ m.streams ∧
        entry.2 = msgs.filter (fun b => !isExpired m.maxAge now b.2) ∧ entry.2 ≠ [] := by
  unfold cleanup
  simp only [List.mem_filterMap]
  constructor
  · rintro ⟨e, he, hf⟩
    by_cases hz : (e.2.filter (fun b => !isExpired m.maxAge now b.2)).length = 0
    · simp [hz] at hf
    · simp only [hz, if_false, Option.some.injEq] at hf
      refine ⟨e.2, ?_, ?_, ?_⟩
      · rw [← hf]; exact he
      · rw [← hf]
      · rw [← hf]
        intro hnil
        exact hz (by simp only at hnil; rw [hnil]; rfl)
  · rintro ⟨msgs, hmem, hfil, hne⟩
    refine ⟨(entry.1, msgs), hmem, ?_⟩
    have hz : ¬ (msgs.filter (fun b => !isExpired m.maxAge now b.2)).length = 0 := by
      intro h0
      apply hne
      rw [hfil]
      exact List.length_eq_zero.1 h0
    simp only [hz, if_false]
    rw [← hfil]

lemma BoundedBuffers_cleanup (m : MemoryStreamManager) (now : Int) (h : BoundedBuffers m) :
    BoundedBuffers (cleanup m now) := by
  intro entry he buf hb
  obtain ⟨msgs, hmem, hfil, _⟩ := (mem_cleanup_streams m now entry).1 he
  rw [hfil] at hb
  exact h _ hmem buf (List.mem_of_mem_filter hb)

lemma BoundedBuffers_applyCall (m : MemoryStreamManager) (call : ManagerCall)
    (h : BoundedBuffers m) : BoundedBuffers (applyCall m call) := by
  cases call with
  | AppendEvent s msg ev c => exact BoundedBuffers_AppendEvent m s msg ev c h
  | GetEvents s msg off =>
    simp only [applyCall]
    obtain hg | ⟨r, hg⟩ : GetEvents m s msg off = none ∨ ∃ r, GetEvents m s msg off = some r := by
      cases GetEvents m s msg off with
      | none => exact Or.inl rfl
      | some r => exact Or.inr ⟨r, rfl⟩
    · rw [hg]; exact h
    · rw [hg]
      have : r.2 = m := by
        unfold GetEvents at hg
        split at hg
        · simp only [Option.some.injEq] at hg; rw [← hg]
        · split_ifs at hg <;> simp only [Option.some.injEq] at hg <;> rw [← hg]
      simp only [this]
      exact h
  | cleanup now => exact BoundedBuffers_cleanup m now h
  | Stats => exact h

/-- C15: in every manager state reached from `NewMemoryStreamManager` by any
sequence of `AppendEvent`, `GetEvents`, `cleanup` and `Stats` calls, every
buffer holds at most `DefaultMaxEventsPerStream` (10000) events. -/
theorem buffer_size_bounded (opts : List MemoryStreamManagerOption) (calls : List ManagerCall) :
    BoundedBuffers (calls.foldl applyCall (NewMemoryStreamManager opts)) ∧
    ∀ (s msg : String) (d : memoryStreamData),
      getStream (calls.foldl applyCall (NewMemoryStreamManager opts)) s msg = some d →
      d.events.length ≤ 10000 := by
  have hinv : ∀ (cs : List ManagerCall) (m : MemoryStreamManager), BoundedBuffers m →
      BoundedBuffers (cs.foldl applyCall m) := by
    intro cs
    induction cs with
    | nil => intro m h; exact h
    | cons c cs ih =>
      intro m h
      rw [List.foldl_cons]
      exact ih _ (BoundedBuffers_applyCall m c h)
  have h0 : BoundedBuffers (NewMemoryStreamManager opts) := by
    intro entry he
    rw [NewMemoryStreamManager_streams] at he
    simp at he
  have hfin := hinv calls _ h0
  refine ⟨hfin, ?_⟩
  intro s msg d hg
  unfold getStream at hg
  cases hl : mapLookup (calls.foldl applyCall (NewMemoryStreamManager opts)).streams s with
  | none => rw [hl] at hg; simp at hg
  | some sm =>
    rw [hl] at hg
    have := hfin (s, sm) (mapLookup_mem _ _ _ hl) (msg, d) (mapLookup_mem _ _ _ hg)
    simp only [DefaultMaxEventsPerStream] at this
    omega

/-- C15 witness: a short run of appends, a read, a cleanup and a `Stats` call. -/
theorem buffer_size_bounded_witness :
    getStream (sampleCalls.foldl applyCall (NewMemoryStreamManager [])) "s1" "m2" =
      some { events := [{ Timestamp := 9, payload := 8 }], lastUpdated := 6, createdAt := 4 } ∧
    ([{ Timestamp := 9, payload := 8 }] : List StreamEvent).length ≤ 10000 :=
  ⟨by decide,
   (buffer_size_bounded [] sampleCalls).2 "s1" "m2"
     { events := [{ Timestamp := 9, payload := 8 }], lastUpdated := 6, createdAt := 4 }
     (by decide)⟩

/-! ## C16: the cleanup pass -/

lemma cleanup_keys_sublist (m : MemoryStreamManager) (now : Int) :
    List.Sublist ((cleanup m now).streams.map Prod.fst) (m.streams.map Prod.fst) := by
  unfold cleanup
  simp only
  induction m.streams with
  | nil => simp
  | cons e es ih =>
    simp only [List.filterMap_cons, List.map_cons]
    split
    · exact List.Sublist.cons _ ih
    · rename_i b hb
      split_ifs at hb
      simp only [Option.some.injEq] at hb
      rw [← hb]
      exact List.Sublist.cons₂ _ ih

lemma ValidManager_cleanup (m : MemoryStreamManager) (now : Int) (hv : ValidManager m) :
    ValidManager (cleanup m now) := by
  refine ⟨hv.1.sublist (cleanup_keys_sublist m now), ?_⟩
  intro entry he
  obtain ⟨msgs, hmem, hfil, _⟩ := (mem_cleanup_streams m now entry).1 he
  rw [hfil]
  exact (hv.2 _ hmem).sublist ((List.filter_sublist _).map _)

lemma getStream_eq_some_iff (m : MemoryStreamManager) (hv : ValidManager m) (s msg : String)
    (d : memoryStreamData) :
    getStream m s msg = some d ↔ ∃ msgs, (s, msgs) ∈ m.streams ∧ (msg, d) ∈ msgs := by
  unfold getStream
  constructor
  · intro h
    cases hl : mapLookup m.streams s with
    | none => rw [hl] at h; simp at h
    | some sm =>
      rw [hl] at h
      exact ⟨sm, mapLookup_mem _ _ _ hl, mapLookup_mem _ _ _ h⟩
  · rintro ⟨msgs, h1, h2⟩
    rw [mem_mapLookup_of_nodup _ _ _ hv.1 h1]
    exact mem_mapLookup_of_nodup _ _ _ (hv.2 _ h1) h2

/-- C16: after a cleanup pass at time `now` (all ages representable as a
`time.Duration`) the manager holds exactly the buffers that had
`now - lastUpdated ≤ maxAge`, each unchanged; every buffer with
`now - lastUpdated > maxAge` is absent; and no session entry is left without
buffers. -/
theorem cleanup_keeps_exactly_fresh (m : MemoryStreamManager) (hv : ValidManager m) (now : Int)
    (hfit : ∀ entry ∈ m.streams, ∀ buf ∈ entry.2, isInt64 (now - buf.2.lastUpdated)) :
    (∀ (s msg : String) (d : memoryStreamData),
      getStream (cleanup m now) s msg = some d ↔
        getStream m s msg = some d ∧ now - d.lastUpdated ≤ m.maxAge) ∧
    (∀ (s msg : String) (d : memoryStreamData), getStream m s msg = some d →
      now - d.lastUpdated > m.maxAge → getStream (cleanup m now) s msg = none) ∧
    (∀ entry ∈ (cleanup m now).streams, entry.2 ≠ []) ∧
    ValidManager (cleanup m now) := by
  have hv' := ValidManager_cleanup m now hv
  have hexp : ∀ entry ∈ m.streams, ∀ buf ∈ entry.2,
      ((!isExpired m.maxAge now buf.2) = true ↔ now - buf.2.lastUpdated ≤ m.maxAge) := by
    intro entry he buf hb
    have hf := hfit entry he buf hb
    have hsat : timeSince now buf.2.lastUpdated = now - buf.2.lastUpdated := by
      unfold isInt64 at hf
      unfold timeSince satInt64
      split_ifs <;> omega
    simp only [isExpired, hsat, Bool.not_eq_true', decide_eq_false_iff_not]
    omega
  have hiff : ∀ (s msg : String) (d : memoryStreamData),
      getStream (cleanup m now) s msg = some d ↔
        getStream m s msg = some d ∧ now - d.lastUpdated ≤ m.maxAge := by
    intro s msg d
    rw [getStream_eq_some_iff _ hv', getStream_eq_some_iff _ hv]
    constructor
    · rintro ⟨msgs', hmem', hd⟩
      obtain ⟨msgs, hmem, hfil, _⟩ := (mem_cleanup_streams m now (s, msgs')).1 hmem'
      simp only at hfil hmem
      rw [hfil] at hd
      have hd' := List.mem_filter.1 hd
      exact ⟨⟨msgs, hmem, hd'.1⟩, (hexp _ hmem _ hd'.1).1 hd'.2⟩
    · rintro ⟨⟨msgs, hmem, hd⟩, hage⟩
      have hin : (msg, d) ∈ msgs.filter (fun b => !isExpired m.maxAge now b.2) :=
        List.mem_filter.2 ⟨hd, (hexp _ hmem _ hd).2 hage⟩
      refine ⟨msgs.filter (fun b => !isExpired m.maxAge now b.2), ?_, hin⟩
      exact (mem_cleanup_streams m now _).2 ⟨msgs, hmem, rfl, List.ne_nil_of_mem hin⟩
  refine ⟨hiff, ?_, ?_, hv'⟩
  · intro s msg d hg hold
    cases hc : getStream (cleanup m now) s msg with
    | none => rfl
    | some d' =>
      have := (hiff s msg d').1 hc
      rw [hg] at this
      simp only [Option.some.injEq] at this
      obtain ⟨h1, h2⟩ := this
      subst h1
      omega
  · intro entry he
    exact ((mem_cleanup_streams m now entry).1 he).choose_spec.2.2

/-- C16 witness: with the default 30 min `maxAge`, a pass at 31 min drops the
two buffers last updated at 0, keeps the one updated at 25 min, and removes the
session left empty. -/
theorem cleanup_keeps_exactly_fresh_witness :
    getStream (cleanup sampleManager (1860 * Second)) "s1" "m2" =
      getStream sampleManager "s1" "m2" ∧
    getStream (cleanup sampleManager (1860 * Second)) "s1" "m1" = none ∧
    ∀ entry ∈ (cleanup sampleManager (1860 * Second)).streams, entry.2 ≠ [] :=
  have h := cleanup_keeps_exactly_fresh sampleManager (by unfold ValidManager; decide)
    (1860 * Second) (by decide)
  ⟨((h.1 "s1" "m2" _).2 ⟨rfl, by decide⟩).trans rfl,
   h.2.1 "s1" "m1" _ rfl (by decide), h.2.2.1⟩

/-! ## C17: the registry -/

lemma mapLookup_eq_none_iff {β : Type} (m : List (String × β)) (k : String) :
    mapLookup m k = none ↔ k ∉ m.map Prod.fst := by
  induction m with
  | nil => simp [mapLookup]
  | cons p m ih =>
    obtain ⟨k', v'⟩ := p
    by_cases h : k' = k
    · simp [mapLookup, h]
    · simp only [mapLookup, h, if_false, ih, List.map_cons, List.mem_cons, not_or]
      exact ⟨fun hm => ⟨fun hk => h hk.symm, hm⟩, fun hm => hm.2⟩

lemma mapInsert_of_absent {β : Type} (m : List (String × β)) (k : String) (v : β)
    (h : mapLookup m k = none) : mapInsert m k v = m ++ [(k, v)] := by
  induction m with
  | nil => rfl
  | cons p m ih =>
    obtain ⟨k', v'⟩ := p
    by_cases hk : k' = k
    · simp [mapLookup, hk] at h
    · simp only [mapLookup, hk, if_false] at h
      simp [mapInsert, hk, ih h]

lemma callRegistry_present (r : CircuitBreakerRegistry) (c : RegistryCall) (p : Nat)
    (h : mapLookup r.breakers c.key = some p) : callRegistry r c = (p, r) := by
  cases c with
  | Get name =>
    simp only [RegistryCall.key] at h
    simp [callRegistry, CircuitBreakerRegistry.Get, h]
  | GetWithConfig config =>
    simp only [RegistryCall.key] at h
    simp [callRegistry, CircuitBreakerRegistry.GetWithConfig, h]

lemma callRegistry_absent (r : CircuitBreakerRegistry) (c : RegistryCall)
    (h : mapLookup r.breakers c.key = none) :
    callRegistry r c =
      (r.heap.length,
       { heap := r.heap ++ [NewCircuitBreaker c.config],
         breakers := r.breakers ++ [(c.key, r.heap.length)] }) := by
  cases c with
  | Get name =>
    simp only [RegistryCall.key] at h
    simp [callRegistry, CircuitBreakerRegistry.Get, h, RegistryCall.key, RegistryCall.config,
      mapInsert_of_absent]
  | GetWithConfig config =>
    simp only [RegistryCall.key] at h
    simp [callRegistry, CircuitBreakerRegistry.GetWithConfig, h, RegistryCall.key,
      RegistryCall.config, mapInsert_of_absent]

lemma mapLookup_append_single {β : Type} (m : List (String × β)) (k n : String) (v : β)
    (h : mapLookup m k = none) :
    mapLookup (m ++ [(k, v)]) n = if n = k then some v else mapLookup m n := by
  rw [← mapInsert_of_absent m k v h]
  by_cases hn : n = k
  · subst hn
    simp [mapLookup_mapInsert_self]
  · simp [hn, mapLookup_mapInsert_ne _ _ _ _ hn]

/-- One registry call keeps the registry well formed, only extends the heap,
keeps every pointer already handed out, and returns the pointer now stored
under the requested name. -/
lemma callRegistry_spec (r : CircuitBreakerRegistry) (c : RegistryCall) (hinv : RegistryInv r) :
    RegistryInv (callRegistry r c).2 ∧
    (∃ t, (callRegistry r c).2.heap = r.heap ++ t) ∧
    (∀ n p, mapLookup r.breakers n = some p →
      mapLookup (callRegistry r c).2.breakers n = some p) ∧
    mapLookup (callRegistry r c).2.breakers c.key = some (callRegistry r c).1 ∧
    (∀ n, n ≠ c.key → mapLookup (callRegistry r c).2.breakers n = mapLookup r.breakers n) ∧
    (mapLookup r.breakers c.key = none →
      (callRegistry r c).2.heap[(callRegistry r c).1]? = some (NewCircuitBreaker c.config)) ∧
    (∀ n, n ∈ (callRegistry r c).2.breakers.map Prod.fst ↔
      n ∈ r.breakers.map Prod.fst ∨ n = c.key) := by
  cases h : mapLookup r.breakers c.key with
  | some p =>
    rw [callRegistry_present r c p h]
    refine ⟨hinv, ⟨[], by simp⟩, fun n q hq => hq, h, fun n _ => rfl, by simp, ?_⟩
    intro n
    constructor
    · exact fun hn => Or.inl hn
    · rintro (hn | hn)
      · exact hn
      · rw [hn]
        have := mapLookup_mem _ _ _ h
        exact List.mem_map.2 ⟨_, this, rfl⟩
  | none =>
    rw [callRegistry_absent r c h]
    obtain ⟨h1, h2, h3⟩ := hinv
    have hlook := fun n => mapLookup_append_single r.breakers c.key n r.heap.length h
    refine ⟨⟨?_, ?_, ?_⟩, ⟨_, rfl⟩, ?_, ?_, ?_, ?_, ?_⟩
    · intro n p hp
      simp only [hlook] at hp
      simp only [List.length_append, List.length_singleton]
      split_ifs at hp with hn
      · simp only [Option.some.injEq] at hp
        omega
      · have := h1 n p hp
        omega
    · intro n1 n2 p hp1 hp2
      simp only [hlook] at hp1 hp2
      split_ifs at hp1 hp2 with hn1 hn2 hn2
      · rw [hn1, hn2]
      · simp only [Option.some.injEq] at hp1
        have := h1 n2 p hp2
        omega
      · simp only [Option.some.injEq] at hp2
        have := h1 n1 p hp1
        omega
      · exact h2 n1 n2 p hp1 hp2
    · simp only [List.map_append, List.map_cons, List.map_nil]
      rw [List.nodup_append]
      refine ⟨h3, by simp, ?_⟩
      intro a ha hb
      simp only [List.mem_singleton] at hb
      rw [hb] at ha
      exact (mapLookup_eq_none_iff _ _).1 h ha
    · intro n p hp
      simp only [hlook]
      have hne : n ≠ c.key := by
        intro heq
        rw [heq, h] at hp
        simp at hp
      simp [hne, hp]
    · simp [hlook]
    · intro n hn
      simp [hlook, hn]
    · intro _
      simp
    · intro n
      simp [or_comm]

/-- A run of registry calls from a well-formed registry. -/
lemma runRegistry_spec (cs : List RegistryCall) :
    ∀ r : CircuitBreakerRegistry, RegistryInv r →
      RegistryInv (runRegistry r cs).2 ∧
      (∃ t, (runRegistry r cs).2.heap = r.heap ++ t) ∧
      (∀ n p, mapLookup r.breakers n = some p →
        mapLookup (runRegistry r cs).2.breakers n = some p) ∧
      (∀ x ∈ (runRegistry r cs).1, mapLookup (runRegistry r cs).2.breakers x.1.key = some x.2) ∧
      (∀ pre c p post, (runRegistry r cs).1 = pre ++ (c, p) :: post →
        (∀ x ∈ pre, x.1.key ≠ c.key) → mapLookup r.breakers c.key = none →
        (runRegistry r cs).2.heap[p]? = some (NewCircuitBreaker c.config)) ∧
      (∀ n, n ∈ (runRegistry r cs).2.breakers.map Prod.fst ↔
        n ∈ r.breakers.map Prod.fst ∨ n ∈ cs.map RegistryCall.key) ∧
      (runRegistry r cs).1.map Prod.fst = cs := by
  induction cs with
  | nil =>
    intro r hinv
    refine ⟨hinv, ⟨[], by simp [runRegistry]⟩, fun n p hp => hp, by simp [runRegistry], ?_,
      by simp [runRegistry], rfl⟩
    intro pre c p post hpre
    simp [runRegistry] at hpre
  | cons c cs ih =>
    intro r hinv
    obtain ⟨s1, ⟨t1, s2⟩, s3, s4, s5, s6, s7⟩ := callRegistry_spec r c hinv
    obtain ⟨i1, ⟨t2, i2⟩, i3, i4, i5, i6, i7⟩ := ih (callRegistry r c).2 s1
    simp only [runRegistry]
    refine ⟨i1, ⟨t1 ++ t2, by rw [i2, s2, List.append_assoc]⟩, fun n p hp => i3 n p (s3 n p hp),
      ?_, ?_, ?_, by rw [List.map_cons, i7]⟩
    · intro x hx
      simp only [List.mem_cons] at hx
      rcases hx with hx | hx
      · rw [hx]
        exact i3 _ _ s4
      · exact i4 x hx
    · intro pre c0 p0 post hsplit hfirst hnone
      cases pre with
      | nil =>
        simp only [List.nil_append, List.cons.injEq, Prod.mk.injEq] at hsplit
        obtain ⟨⟨hc, hp⟩, _⟩ := hsplit
        subst hc
        subst hp
        have hheap := s6 hnone
        rw [i2]
        have hlt : (callRegistry r c).1 < (callRegistry r c).2.heap.length := by
          by_contra hge
          rw [List.getElem?_eq_none (by omega)] at hheap
          simp at hheap
        rw [List.getElem?_append_left hlt]
        exact hheap
      | cons x pre' =>
        simp only [List.cons_append, List.cons.injEq] at hsplit
        obtain ⟨hx, hrest⟩ := hsplit
        have hne : c0.key ≠ c.key := by
          have := hfirst x (List.mem_cons_self _ _)
          rw [← hx] at this
          exact fun h => this h.symm
        exact i5 pre' c0 p0 post hrest
          (fun y hy => hfirst y (List.mem_cons_of_mem _ hy))
          (by rw [s5 _ hne]; exact hnone)
    · intro n
      rw [i6, s7, List.map_cons, List.mem_cons]
      tauto

/-- C17: in any run of `Get` and `GetWithConfig` calls on a registry made by
`NewCircuitBreakerRegistry`, two calls return the same instance exactly when
they ask for the same name; that instance is the breaker built by
`NewCircuitBreaker` from the configuration of the first call for the name
(`DefaultCircuitBreakerConfig` for `Get`); the registry ends with one entry
per requested name; and a call for a name already present, whatever its
configuration, returns the stored instance and leaves the whole registry,
hence that breaker's configuration and state, unchanged. -/
theorem registry_one_instance_per_name (cs : List RegistryCall) :
    (runRegistry NewCircuitBreakerRegistry cs).1.map Prod.fst = cs ∧
    (∀ x ∈ (runRegistry NewCircuitBreakerRegistry cs).1,
      ∀ y ∈ (runRegistry NewCircuitBreakerRegistry cs).1, x.1.key = y.1.key ↔ x.2 = y.2) ∧
    (∀ pre c p post, (runRegistry NewCircuitBreakerRegistry cs).1 = pre ++ (c, p) :: post →
      (∀ x ∈ pre, x.1.key ≠ c.key) →
      (runRegistry NewCircuitBreakerRegistry cs).2.heap[p]? =
        some (NewCircuitBreaker c.config)) ∧
    ((runRegistry NewCircuitBreakerRegistry cs).2.breakers.map Prod.fst).Nodup ∧
    (∀ n, n ∈ (runRegistry NewCircuitBreakerRegistry cs).2.breakers.map Prod.fst ↔
      n ∈ cs.map RegistryCall.key) ∧
    (∀ (r : CircuitBreakerRegistry) (config : CircuitBreakerConfig) (p : Nat),
      mapLookup r.breakers config.Name = some p → r.GetWithConfig config = (p, r)) ∧
    (∀ (r : CircuitBreakerRegistry) (name : String) (p : Nat),
      mapLookup r.breakers name = some p → r.Get name = (p, r)) := by
  have h0 : RegistryInv NewCircuitBreakerRegistry := by
    refine ⟨?_, ?_, ?_⟩ <;> simp [NewCircuitBreakerRegistry, mapLookup]
  obtain ⟨⟨_, hinj, hnd⟩, _, _, hlook, hfirst, hkeys, htrace⟩ :=
    runRegistry_spec cs NewCircuitBreakerRegistry h0
  refine ⟨htrace, ?_, ?_, hnd, ?_, ?_, ?_⟩
  · intro x hx y hy
    constructor
    · intro hk
      have h1 := hlook x hx
      have h2 := hlook y hy
      rw [hk, h2] at h1
      simpa using h1.symm
    · intro hp
      have h1 := hlook x hx
      have h2 := hlook y hy
      rw [← hp] at h2
      exact hinj _ _ _ h1 h2
  · intro pre c p post hsplit hpre
    exact hfirst pre c p post hsplit hpre (by simp [NewCircuitBreakerRegistry, mapLookup])
  · intro n
    rw [hkeys]
    simp [NewCircuitBreakerRegistry]
  · intro r config p h
    exact callRegistry_present r (RegistryCall.GetWithConfig config) p h
  · intro r name p h
    exact callRegistry_present r (RegistryCall.Get name) p h

/-- C17 witness: `Get "a"`, then `GetWithConfig` for `"a"` with another
configuration, then `GetWithConfig` for `"b"`: pointers `0, 0, 1`, and the
breaker at `0` still has the default configuration. -/
theorem registry_one_instance_per_name_witness :
    (runRegistry NewCircuitBreakerRegistry sampleRegistryCalls).1.map Prod.snd = [0, 0, 1] ∧
    (runRegistry NewCircuitBreakerRegistry sampleRegistryCalls).2.heap[0]? =
      some (NewCircuitBreaker (DefaultCircuitBreakerConfig "a")) :=
  ⟨by decide,
   (registry_one_instance_per_name sampleRegistryCalls).2.2.1 [] (RegistryCall.Get "a") 0
     [(RegistryCall.GetWithConfig
         { Name := "a", MaxFailures := 9, Timeout := Second, MaxHalfOpenRequests := 1 }, 0),
      (RegistryCall.GetWithConfig
         { Name := "b", MaxFailures := 2, Timeout := Second, MaxHalfOpenRequests := 1 }, 1)]
     (by decide) (by simp)⟩

/-! ## C23: construction defaults -/

/-- C23: `NewCircuitBreaker` returns a breaker in state `Closed` with
`failures = successes = halfOpenRequests = 0`; each of `MaxFailures`,
`Timeout`, `MaxHalfOpenRequests` is replaced by 5, 30 s, 3 when the given value
is `≤ 0` and kept otherwise; `Name` and `OnStateChange` are kept; the effective
values are positive; and `DefaultCircuitBreakerConfig` yields 5, 30 s and 3. -/
theorem NewCircuitBreaker_defaults (config : CircuitBreakerConfig) (name : String) :
    State (NewCircuitBreaker config) = StateClosed ∧
    (NewCircuitBreaker config).failures = 0 ∧ (NewCircuitBreaker config).successes = 0 ∧
    (NewCircuitBreaker config).halfOpenRequests = 0 ∧
    (NewCircuitBreaker config).config.MaxFailures =
      (if config.MaxFailures ≤ 0 then 5 else config.MaxFailures) ∧
    (NewCircuitBreaker config).config.Timeout =
      (if config.Timeout ≤ 0 then 30 * Second else config.Timeout) ∧
    (NewCircuitBreaker config).config.MaxHalfOpenRequests =
      (if config.MaxHalfOpenRequests ≤ 0 then 3 else config.MaxHalfOpenRequests) ∧
    (NewCircuitBreaker config).config.Name = config.Name ∧
    (NewCircuitBreaker config).config.OnStateChange = config.OnStateChange ∧
    0 < (NewCircuitBreaker config).config.MaxFailures ∧
    0 < (NewCircuitBreaker config).config.Timeout ∧
    0 < (NewCircuitBreaker config).config.MaxHalfOpenRequests ∧
    (DefaultCircuitBreakerConfig name).MaxFailures = 5 ∧
    (DefaultCircuitBreakerConfig name).Timeout = 30 * Second ∧
    (DefaultCircuitBreakerConfig name).MaxHalfOpenRequests = 3 ∧
    (DefaultCircuitBreakerConfig name).Name = name := by
  have hpos := NewCircuitBreaker_config_pos config
  refine ⟨rfl, rfl, rfl, rfl, ?_, ?_, ?_, ?_, ?_, by omega, by omega, by omega,
    rfl, rfl, rfl, rfl⟩
  all_goals
    by_cases h1 : config.MaxFailures ≤ 0 <;> by_cases h2 : config.Timeout ≤ 0 <;>
      by_cases h3 : config.MaxHalfOpenRequests ≤ 0 <;>
      simp [NewCircuitBreaker, h1, h2, h3]

/-! ## C26: built-in agent IDs -/

/-- The lookup functions on every string (supports C26): each of the five
registered IDs (quick answer, smart reasoning, data analyst, knowledge graph
expert, knowledge refiner) is accepted by `IsBuiltinAgentID`, occurs exactly once in `GetBuiltinAgentIDs()`, and
`GetBuiltinAgent` returns for every tenant an agent with that ID, that tenant
and `IsBuiltin = true`; for every other string, the declared constants
`BuiltinDeepResearcherID` and `BuiltinDocumentAssistantID` included,
`IsBuiltinAgentID` is false and `GetBuiltinAgent` returns nil. -/
theorem builtin_agent_lookup (id : String) (tenantID : Nat) :
    (id ∈ GetBuiltinAgentIDs →
      IsBuiltinAgentID id = true ∧ GetBuiltinAgentIDs.count id = 1 ∧
      ∃ agent, GetBuiltinAgent id tenantID = some agent ∧ agent.ID = id ∧
        agent.TenantID = tenantID ∧ agent.IsBuiltin = true) ∧
    (id ∉ GetBuiltinAgentIDs →
      IsBuiltinAgentID id = false ∧ GetBuiltinAgent id tenantID = none) ∧
    GetBuiltinAgentIDs = [BuiltinQuickAnswerID, BuiltinSmartReasoningID, BuiltinDataAnalystID,
      BuiltinKnowledgeGraphExpertID, BuiltinKnowledgeRefinerID] ∧
    BuiltinDeepResearcherID ∉ GetBuiltinAgentIDs ∧
    BuiltinDocumentAssistantID ∉ GetBuiltinAgentIDs := by
  refine ⟨?_, ?_, rfl, by decide, by decide⟩
  · intro hmem
    simp only [GetBuiltinAgentIDs, builtinAgentIDsOrdered, List.mem_cons, List.mem_singleton,
      List.not_mem_nil, or_false] at hmem
    rcases hmem with h | h | h | h | h <;> subst h <;>
      exact ⟨by decide, by decide, _, rfl, rfl, rfl, rfl⟩
  · intro hmem
    simp only [GetBuiltinAgentIDs, builtinAgentIDsOrdered, List.mem_cons, List.mem_singleton,
      List.not_mem_nil, or_false, not_or] at hmem
    obtain ⟨h1, h2, h3, h4, h5⟩ := hmem
    have hl : mapLookup BuiltinAgentRegistry id = none := by
      simp only [BuiltinAgentRegistry, mapLookup]
      rw [if_neg (Ne.symm h1), if_neg (Ne.symm h2), if_neg (Ne.symm h3), if_neg (Ne.symm h5),
        if_neg (Ne.symm h4)]
    simp [IsBuiltinAgentID, GetBuiltinAgent, hl]

/-- The lookup of the data analyst for tenant 42, as an instance. -/
theorem builtin_agent_lookup_witness :
    IsBuiltinAgentID BuiltinDataAnalystID = true ∧
    GetBuiltinAgentIDs.count BuiltinDataAnalystID = 1 :=
  have h := (builtin_agent_lookup BuiltinDataAnalystID 42).1 (by decide)
  ⟨h.1, h.2.1⟩

/-- C26 (the code at the failing input): `BuiltinDeepResearcherID` and
`BuiltinDocumentAssistantID` are declared as IDs of built-in agents but are
missing from `BuiltinAgentRegistry` and `builtinAgentIDsOrdered`:
`IsBuiltinAgentID` is false, `GetBuiltinAgentIDs()` omits them and
`GetBuiltinAgent` returns nil for them. -/
theorem declared_ids_not_all_registered :
    BuiltinDeepResearcherID ∈ declaredBuiltinAgentIDs ∧
    IsBuiltinAgentID BuiltinDeepResearcherID = false ∧
    GetBuiltinAgentIDs.count BuiltinDeepResearcherID = 0 ∧
    GetBuiltinAgent BuiltinDeepResearcherID 1 = none ∧
    BuiltinDocumentAssistantID ∈ declaredBuiltinAgentIDs ∧
    IsBuiltinAgentID BuiltinDocumentAssistantID = false ∧
    GetBuiltinAgent BuiltinDocumentAssistantID 1 = none := by
  decide

/-! ## C29, C30: calls that do not return normally -/

/-- C29 (the code at the failing input): for an existing stream and
`fromOffset = -1` the test `fromOffset >= len(events)` is false and the slice
expression `events[-1:]` is evaluated: the call panics, for a buffer with one
event and for an empty buffer alike; only a missing stream returns normally. -/
theorem GetEvents_negative_offset_panics :
    getStream sampleManager "s1" "m1" ≠ none ∧
    GetEvents sampleManager "s1" "m1" (-1) = none ∧
    eventsOf sampleManager "s2" "m1" = [] ∧
    GetEvents sampleManager "s2" "m1" (-1) = none ∧
    GetEvents sampleManager "s9" "m1" (-1) =
      some ({ events := [], nextOffset := -1, err := none }, sampleManager) := by
  decide

/-- C30 (the code at the failing input): when building the request fails on
every attempt, `doRequestWithRetry` returns a nil error together with a nil
response, whether the breaker was closed or half-open: the implication "nil
error, hence non-nil response" does not hold. -/
theorem nil_error_with_nil_response :
    ¬ ((doRequestWithRetry (NewOpenAIEmbedder "m").1 (sampleBreaker StateClosed 0) 0 0
          (envOfList [AttemptOutcome.requestError, AttemptOutcome.requestError,
            AttemptOutcome.requestError, AttemptOutcome.requestError])).err = none →
        (doRequestWithRetry (NewOpenAIEmbedder "m").1 (sampleBreaker StateClosed 0) 0 0
          (envOfList [AttemptOutcome.requestError, AttemptOutcome.requestError,
            AttemptOutcome.requestError, AttemptOutcome.requestError])).resp ≠ none) ∧
    ¬ ((doRequestWithRetry (NewOpenAIEmbedder "m").1 probingBreaker 0 0
          (envOfList [AttemptOutcome.requestError, AttemptOutcome.requestError,
            AttemptOutcome.requestError, AttemptOutcome.requestError])).err = none →
        (doRequestWithRetry (NewOpenAIEmbedder "m").1 probingBreaker 0 0
          (envOfList [AttemptOutcome.requestError, AttemptOutcome.requestError,
            AttemptOutcome.requestError, AttemptOutcome.requestError])).resp ≠ none) := by
  decide

/-! ## C27: cancellation during a backoff wait -/

/-- The loop returns `ctx.Err()` when the wait before attempt `j + 1` is the
first one cancelled and every attempt up to `j` was retried. -/
lemma retryLoop_result_of_cancel (e : OpenAIEmbedder) (env : Env) (j : Nat)
    (hj : ((j + 1 : Nat) : Int) ≤ e.maxRetries) (hcan : env.ctxDone (j + 1) = true) :
    ∀ (fuel i : Nat) (c : Captured), e.maxRetries + 1 - (i : Int) < (fuel : Int) →
      i ≤ j + 1 →
      (∀ k, i ≤ k → k ≤ j → retried (env.outcome k) = true) →
      (∀ k, i ≤ k → k ≤ j → 0 < k → env.ctxDone k = false) →
      (retryLoop e env fuel i c).1 = some Error.ctxErr := by
  intro fuel
  induction fuel with
  | zero =>
    intro i c hfuel hi _ _
    simp only [Nat.cast_zero] at hfuel
    push_cast at hj
    omega
  | succ fuel ih =>
    intro i c hfuel hi hr hc
    have h : (i : Int) ≤ e.maxRetries := by push_cast at hj; omega
    by_cases hij : i = j + 1
    · subst hij
      rw [retryLoop_cancel e env fuel (j + 1) c h (by omega) hcan]
    · have hle : i ≤ j := by omega
      obtain ⟨c', hstep, _⟩ := retryLoop_retry e env fuel i c h
        (fun hi0 => hc i (le_refl i) hle hi0) (hr i (le_refl i) hle)
      rw [hstep]
      exact ih (i + 1) c' (by push_cast at hfuel ⊢; omega) (by omega)
        (fun k hk1 hk2 => hr k (by omega) hk2) (fun k hk1 hk2 hk3 => hc k (by omega) hk2 hk3)

/-- What `doRequestWithRetry` returns when the admitted closure fails with an
error other than the breaker's sentinel. -/
lemma doRequestWithRetry_admitted_error (e : OpenAIEmbedder) (cb cb1 : CircuitBreaker)
    (tAdmit tRecord : Int) (env : Env) (hadm : allowRequest cb tAdmit = (true, cb1))
    (err : Error)
    (herr : (retryClosure e env { resp := none, err := none, log := [] }).1 = some err)
    (hne : err ≠ Error.ErrCircuitBreakerOpen) :
    (doRequestWithRetry e cb tAdmit tRecord env).resp = none ∧
    (doRequestWithRetry e cb tAdmit tRecord env).err = some err ∧
    (doRequestWithRetry e cb tAdmit tRecord env).trace =
      [ExecEvent.invoked, ExecEvent.recordedFailure] ∧
    (doRequestWithRetry e cb tAdmit tRecord env).cb = onFailure cb1 tRecord := by
  simp [doRequestWithRetry, Execute, hadm, herr, hne, recordResult]

/-- C27: when attempt `j` was made and is to be retried, `j < maxRetries`, and
the wait before attempt `j + 1` ends through `ctx.Done()`, no attempt from
`j + 1` on is made, the operation returns a nil response with the context's
error, and the breaker records exactly one outcome, a failure. -/
theorem cancelled_wait_aborts_operation (e : OpenAIEmbedder) (env : Env)
    (cb cb1 : CircuitBreaker) (tAdmit tRecord : Int)
    (hadm : allowRequest cb tAdmit = (true, cb1)) (j : Nat)
    (hmade : attemptMade (doRequestWithRetry e cb tAdmit tRecord env) j)
    (hretry : retried (env.outcome j) = true) (hj : (j : Int) < e.maxRetries)
    (hcan : env.ctxDone (j + 1) = true) :
    (∀ k, j < k → ¬ attemptMade (doRequestWithRetry e cb tAdmit tRecord env) k) ∧
    (doRequestWithRetry e cb tAdmit tRecord env).resp = none ∧
    (doRequestWithRetry e cb tAdmit tRecord env).err = some Error.ctxErr ∧
    (doRequestWithRetry e cb tAdmit tRecord env).trace =
      [ExecEvent.invoked, ExecEvent.recordedFailure] ∧
    (doRequestWithRetry e cb tAdmit tRecord env).cb = onFailure cb1 tRecord := by
  obtain ⟨hlog, _, _⟩ := doRequestWithRetry_admitted e cb cb1 tAdmit tRecord env hadm
  have hmem := fun k => attempt_mem_retryLoop e env k _ 0
    { resp := none, err := none, log := [] } (retryClosure_fuel e)
  have hreach : reaches e env 0 j := by
    unfold attemptMade at hmade
    rw [hlog] at hmade
    have := (hmem j).1 hmade
    simpa using this
  obtain ⟨_, _, h3, h4⟩ := hreach
  have hres : (retryClosure e env { resp := none, err := none, log := [] }).1 =
      some Error.ctxErr := by
    unfold retryClosure
    refine retryLoop_result_of_cancel e env j (by push_cast; omega) hcan _ 0 _
      (retryClosure_fuel e) (by omega) (fun k hk1 hk2 => ?_) (fun k hk1 hk2 hk3 => ?_)
    · by_cases hkj : k = j
      · subst hkj; exact hretry
      · exact h3 k hk1 (by omega)
    · exact h4 k hk1 hk2 hk3
  obtain ⟨r1, r2, r3, r4⟩ := doRequestWithRetry_admitted_error e cb cb1 tAdmit tRecord env hadm
    Error.ctxErr hres (by decide)
  refine ⟨?_, r1, r2, r3, r4⟩
  intro k hjk hk
  unfold attemptMade at hk
  rw [hlog] at hk
  have := (hmem k).1 hk
  simp only [List.not_mem_nil, false_or] at this
  obtain ⟨_, _, _, h4'⟩ := this
  have := h4' (j + 1) (Nat.zero_le _) (by omega) (by omega)
  rw [hcan] at this
  exact absurd this (by simp)

/-- C27 witness: a 503 on attempt 0, then the context is cancelled during the
1 s wait before attempt 1. -/
theorem cancelled_wait_aborts_operation_witness :
    (doRequestWithRetry (NewOpenAIEmbedder "m").1 (sampleBreaker StateClosed 0) 0 0
      cancelledEnv).err = some Error.ctxErr ∧
    (doRequestWithRetry (NewOpenAIEmbedder "m").1 (sampleBreaker StateClosed 0) 0 0
      cancelledEnv).trace = [ExecEvent.invoked, ExecEvent.recordedFailure] :=
  have h := cancelled_wait_aborts_operation (NewOpenAIEmbedder "m").1 cancelledEnv
    (sampleBreaker StateClosed 0) (sampleBreaker StateClosed 0) 0 0 (by decide) 0 (by decide)
    (by decide) (by decide) (by decide)
  ⟨h.2.2.1, h.2.2.2.1⟩

/-! ## C21: the probe counter -/

lemma applyStep_config (cb : CircuitBreaker) (st : BreakerStep) :
    (applyStep cb st).config = cb.config := by
  cases st with
  | admission now =>
    cases hs : cb.state
    · simp [applyStep, allowRequest, hs]
    · simp only [applyStep, allowRequest, hs]
      split_ifs <;> simp [toHalfOpen, hs]
    · simp only [applyStep, allowRequest, hs]
      split_ifs <;> simp
  | record now err =>
    cases err with
    | none =>
      cases hs : cb.state
      · simp [applyStep, recordResult, onSuccess, hs]
      · simp [applyStep, recordResult, onSuccess, hs]
      · simp only [applyStep, recordResult, onSuccess, hs, ne_eq, not_true_eq_false, if_false]
        split_ifs <;> simp [toClosed, hs]
    | some e =>
      cases hs : cb.state
      · simp only [applyStep, recordResult, onFailure, hs, ne_eq, reduceCtorEq,
          not_false_eq_true, if_true]
        split_ifs <;> simp [toOpen, hs]
      · simp [applyStep, recordResult, onFailure, hs]
      · simp [applyStep, recordResult, onFailure, hs, toOpen]

lemma ProbesBounded_applyStep (cb : CircuitBreaker) (st : BreakerStep)
    (hmax : cb.config.MaxHalfOpenRequests ≤ 9223372036854775807)
    (h0 : 0 ≤ cb.config.MaxHalfOpenRequests) (hb : ProbesBounded cb) :
    ProbesBounded (applyStep cb st) := by
  obtain ⟨hb1, hb2⟩ := hb
  unfold ProbesBounded
  rw [applyStep_config]
  cases st with
  | admission now =>
    cases hs : cb.state
    · simp only [applyStep, allowRequest, hs]
      exact ⟨hb1, hb2⟩
    · simp only [applyStep, allowRequest, hs]
      split_ifs
      · simp only [toHalfOpen, hs, reduceCtorEq, if_false]
        exact ⟨le_refl _, h0⟩
      · exact ⟨hb1, hb2⟩
    · simp only [applyStep, allowRequest, hs]
      split_ifs with hlt
      · have hw : wrapInt64 (cb.halfOpenRequests + 1) = cb.halfOpenRequests + 1 :=
          wrapInt64_of_isInt64 _ ⟨by omega, by omega⟩
        simp only [hw]
        omega
      · exact ⟨hb1, hb2⟩
  | record now err =>
    cases err with
    | none =>
      cases hs : cb.state <;>
        simp only [applyStep, recordResult, onSuccess, hs, ne_eq, not_true_eq_false,
          if_false] <;>
        (try split_ifs) <;> simp [toClosed, hs, hb1, hb2, h0]
    | some e =>
      cases hs : cb.state <;>
        simp only [applyStep, recordResult, onFailure, hs, ne_eq, reduceCtorEq,
          not_false_eq_true, if_true] <;>
        (try split_ifs) <;> simp [toOpen, hs, hb1, hb2, h0]

lemma admittedInHalfOpen_of_not_halfOpen (cb : CircuitBreaker) (steps : List BreakerStep)
    (h : cb.state ≠ StateHalfOpen) : admittedInHalfOpen cb steps = 0 := by
  cases steps with
  | nil => rfl
  | cons st rest => simp [admittedInHalfOpen, h]

lemma record_halfOpenRequests_of_stay (cb : CircuitBreaker) (now : Int) (err : Option Error)
    (hs : cb.state = StateHalfOpen)
    (hstay : (applyStep cb (BreakerStep.record now err)).state = StateHalfOpen) :
    (applyStep cb (BreakerStep.record now err)).halfOpenRequests = cb.halfOpenRequests := by
  revert hstay
  cases err with
  | none =>
    simp only [applyStep, recordResult, onSuccess, hs, ne_eq, not_true_eq_false, if_false]
    split_ifs <;> simp [toClosed, hs]
  | some e =>
    simp [applyStep, recordResult, onFailure, hs, toOpen]

/-- Within one stay in `HalfOpen` the admitted checks fit in what is left of
the probe budget. -/
lemma admittedInHalfOpen_le (steps : List BreakerStep) :
    ∀ cb : CircuitBreaker, cb.config.MaxHalfOpenRequests ≤ 9223372036854775807 →
      0 ≤ cb.config.MaxHalfOpenRequests → ProbesBounded cb →
      cb.halfOpenRequests + (admittedInHalfOpen cb steps : Int) ≤
        cb.config.MaxHalfOpenRequests := by
  induction steps with
  | nil =>
    intro cb _ _ hb
    simp only [admittedInHalfOpen, Nat.cast_zero, add_zero]
    exact hb.2
  | cons st rest ih =>
    intro cb hmax h0 hb
    have hb' := ProbesBounded_applyStep cb st hmax h0 hb
    have hcfg := applyStep_config cb st
    have hrec := ih (applyStep cb st) (by rw [hcfg]; exact hmax) (by rw [hcfg]; exact h0) hb'
    rw [hcfg] at hrec
    by_cases hs : cb.state = StateHalfOpen
    · cases st with
      | admission now =>
        by_cases hlt : cb.halfOpenRequests < cb.config.MaxHalfOpenRequests
        · have hw : wrapInt64 (cb.halfOpenRequests + 1) = cb.halfOpenRequests + 1 :=
            wrapInt64_of_isInt64 _ ⟨by have := hb.1; omega, by omega⟩
          have hadm : allowRequest cb now =
              (true, { cb with halfOpenRequests := cb.halfOpenRequests + 1 }) := by
            simp only [allowRequest, hs, hw]
            rw [if_pos hlt]
          have hnext : (applyStep cb (BreakerStep.admission now)).halfOpenRequests =
              cb.halfOpenRequests + 1 := by
            simp only [applyStep, hadm]
          rw [hnext] at hrec
          simp only [admittedInHalfOpen, hs, if_true, hadm, Nat.cast_add, Nat.cast_one]
          simp only [applyStep, hadm] at hrec ⊢
          omega
        · have hadm : allowRequest cb now = (false, cb) := by
            simp only [allowRequest, hs]
            rw [if_neg hlt]
          simp only [admittedInHalfOpen, hs, if_true, hadm, Nat.cast_add, Nat.cast_zero,
            Bool.false_eq_true, if_false, zero_add]
          simp only [applyStep, hadm] at hrec ⊢
          exact hrec
      | record now err =>
        simp only [admittedInHalfOpen, hs, if_true, zero_add]
        by_cases hstay : (applyStep cb (BreakerStep.record now err)).state = StateHalfOpen
        · rw [record_halfOpenRequests_of_stay cb now err hs hstay] at hrec
          exact hrec
        · rw [admittedInHalfOpen_of_not_halfOpen _ _ hstay]
          simp only [Nat.cast_zero, add_zero]
          exact hb.2
    · rw [admittedInHalfOpen_of_not_halfOpen _ _ hs]
      simp only [Nat.cast_zero, add_zero]
      exact hb.2

lemma ProbesBounded_foldl (steps : List BreakerStep) :
    ∀ cb : CircuitBreaker, cb.config.MaxHalfOpenRequests ≤ 9223372036854775807 →
      0 ≤ cb.config.MaxHalfOpenRequests → ProbesBounded cb →
      ProbesBounded (steps.foldl applyStep cb) ∧
      (steps.foldl applyStep cb).config = cb.config := by
  induction steps with
  | nil => intro cb _ _ hb; exact ⟨hb, rfl⟩
  | cons st rest ih =>
    intro cb hmax h0 hb
    have hcfg := applyStep_config cb st
    have := ih (applyStep cb st) (by rw [hcfg]; exact hmax) (by rw [hcfg]; exact h0)
      (ProbesBounded_applyStep cb st hmax h0 hb)
    rw [List.foldl_cons]
    exact ⟨this.1, by rw [this.2, hcfg]⟩

/-- C21: in every state reached from `NewCircuitBreaker` by admission checks
and recorded results, `0 ≤ halfOpenRequests ≤ MaxHalfOpenRequests`; and within a
single stay in `HalfOpen`, whether counted from the current state or from the
step that enters `HalfOpen`, at most `MaxHalfOpenRequests` admission checks
evaluated in `HalfOpen` return true. -/
theorem halfOpen_probes_bounded (config : CircuitBreakerConfig)
    (hM : isInt64 config.MaxHalfOpenRequests) (steps more : List BreakerStep) :
    0 ≤ (steps.foldl applyStep (NewCircuitBreaker config)).halfOpenRequests ∧
    (steps.foldl applyStep (NewCircuitBreaker config)).halfOpenRequests ≤
      (NewCircuitBreaker config).config.MaxHalfOpenRequests ∧
    ((admittedInHalfOpen (steps.foldl applyStep (NewCircuitBreaker config)) more : Int) ≤
      (NewCircuitBreaker config).config.MaxHalfOpenRequests) ∧
    (∀ st : BreakerStep,
      State (steps.foldl applyStep (NewCircuitBreaker config)) ≠ StateHalfOpen →
      State (applyStep (steps.foldl applyStep (NewCircuitBreaker config)) st) = StateHalfOpen →
      (admittedInHalfOpen (applyStep (steps.foldl applyStep (NewCircuitBreaker config)) st)
        more : Int) ≤ (NewCircuitBreaker config).config.MaxHalfOpenRequests) := by
  have hpos := (NewCircuitBreaker_config_pos config).2.2
  have hmax : (NewCircuitBreaker config).config.MaxHalfOpenRequests ≤ 9223372036854775807 := by
    unfold isInt64 at hM
    by_cases h1 : config.MaxFailures ≤ 0 <;> by_cases h2 : config.Timeout ≤ 0 <;>
      by_cases h3 : config.MaxHalfOpenRequests ≤ 0 <;>
      simp [NewCircuitBreaker, Second, h1, h2, h3] <;> omega
  have hb0 : ProbesBounded (NewCircuitBreaker config) := by
    refine ⟨le_refl _, ?_⟩
    show (0 : Int) ≤ _
    omega
  obtain ⟨hb, hcfg⟩ := ProbesBounded_foldl steps (NewCircuitBreaker config) hmax (by omega) hb0
  have hstay := admittedInHalfOpen_le more (steps.foldl applyStep (NewCircuitBreaker config))
    (by rw [hcfg]; exact hmax) (by rw [hcfg]; omega) hb
  rw [hcfg] at hstay
  have hb2 := hb.2
  rw [hcfg] at hb2
  refine ⟨hb.1, hb2, by have := hb.1; omega, ?_⟩
  intro st _ _
  have hcfg' := applyStep_config (steps.foldl applyStep (NewCircuitBreaker config)) st
  have hb' := ProbesBounded_applyStep _ st (by rw [hcfg]; exact hmax) (by rw [hcfg]; omega) hb
  have := admittedInHalfOpen_le more
    (applyStep (steps.foldl applyStep (NewCircuitBreaker config)) st)
    (by rw [hcfg', hcfg]; exact hmax) (by rw [hcfg', hcfg]; omega) hb'
  rw [hcfg', hcfg] at this
  have := hb'.1
  omega

/-- C21 witness: a default breaker trips, becomes half-open at 31 s, and is
then probed five times: three probes are admitted. -/
theorem halfOpen_probes_bounded_witness :
    admittedInHalfOpen
      (sampleSteps.foldl applyStep (NewCircuitBreaker (DefaultCircuitBreakerConfig "dep")))
      sampleProbes = 3 ∧
    (admittedInHalfOpen
      (sampleSteps.foldl applyStep (NewCircuitBreaker (DefaultCircuitBreakerConfig "dep")))
      sampleProbes : Int) ≤
      (NewCircuitBreaker (DefaultCircuitBreakerConfig "dep")).config.MaxHalfOpenRequests :=
  ⟨by decide,
   (halfOpen_probes_bounded (DefaultCircuitBreakerConfig "dep") (by decide) sampleSteps
     sampleProbes).2.2.1⟩

/-! ## C22: appends to different streams -/

lemma mapLookup_getD {β : Type} (streams : List (String × List (String × β))) (s k : String) :
    mapLookup ((mapLookup streams s).getD []) k =
      (match mapLookup streams s with
        | some sm => mapLookup sm k
        | none => none) := by
  cases mapLookup streams s <;> rfl

lemma getStream_getOrCreateStream_other (m : MemoryStreamManager) (s msg s' msg' : String)
    (now : Int) (hne : s' ≠ s ∨ msg' ≠ msg) :
    getStream (getOrCreateStream m s msg now) s' msg' = getStream m s' msg' := by
  unfold getStream getOrCreateStream
  by_cases hs : s' = s
  · subst hs
    have hmsg : msg' ≠ msg := by
      rcases hne with h | h
      · exact absurd rfl h
      · exact h
    simp only [mapLookup_mapInsert_self]
    cases hl : mapLookup m.streams s' with
    | none =>
      simp only [mapLookup_mapInsert_self, Option.getD_some, mapLookup]
      rw [if_neg (Ne.symm hmsg)]
    | some sm =>
      simp only [hl, Option.getD_some]
      cases hm : mapLookup sm msg with
      | none => simp only [mapLookup_mapInsert_ne _ _ _ _ hmsg]
      | some d => rfl
  · rw [mapLookup_mapInsert_ne _ _ _ _ hs]
    cases hl : mapLookup m.streams s with
    | none => simp only [mapLookup_mapInsert_ne _ _ _ _ hs]
    | some sm => rfl

lemma AppendEvent_snd_eq (m : MemoryStreamManager) (s msg : String) (ev : StreamEvent)
    (c : AppendClock) :
    ∃ stream : memoryStreamData, (AppendEvent m s msg ev c).2 =
      { streams :=
          mapInsert (getOrCreateStream m s msg c.created).streams s
            (mapInsert ((mapLookup (getOrCreateStream m s msg c.created).streams s).getD [])
              msg stream),
        cleanupInterval := (getOrCreateStream m s msg c.created).cleanupInterval,
        maxAge := (getOrCreateStream m s msg c.created).maxAge } := by
  have h1 := getStream_getOrCreateStream m s msg c.created
  refine ⟨{ events := appendBounded (eventsOf m s msg) (stampEvent ev c),
            lastUpdated := c.updated,
            createdAt := (match getStream m s msg with
              | some d => d.createdAt
              | none => c.created) }, ?_⟩
  unfold AppendEvent
  simp only [h1]
  unfold eventsOf
  cases getStream m s msg <;> rfl

/-- An append to one stream leaves every other buffer as it was. -/
lemma getStream_AppendEvent_other (m : MemoryStreamManager) (s msg s' msg' : String)
    (ev : StreamEvent) (c : AppendClock) (hne : s' ≠ s ∨ msg' ≠ msg) :
    getStream (AppendEvent m s msg ev c).2 s' msg' = getStream m s' msg' := by
  obtain ⟨stream, heq⟩ := AppendEvent_snd_eq m s msg ev c
  rw [heq, ← getStream_getOrCreateStream_other m s msg s' msg' c.created hne]
  unfold getStream
  by_cases hs : s' = s
  · subst hs
    have hmsg : msg' ≠ msg := by
      rcases hne with h | h
      · exact absurd rfl h
      · exact h
    simp only [mapLookup_mapInsert_self, mapLookup_mapInsert_ne _ _ _ _ hmsg, mapLookup_getD]
    cases mapLookup (getOrCreateStream m s' msg c.created).streams s' <;> rfl
  · simp only [mapLookup_mapInsert_ne _ _ _ _ hs]

lemma eventsOf_AppendEvent_other (m : MemoryStreamManager) (s msg s' msg' : String)
    (ev : StreamEvent) (c : AppendClock) (hne : s' ≠ s ∨ msg' ≠ msg) :
    eventsOf (AppendEvent m s msg ev c).2 s' msg' = eventsOf m s' msg' := by
  unfold eventsOf
  rw [getStream_AppendEvent_other m s msg s' msg' ev c hne]

/-- While a stream has room, it holds what it held before followed by the
events the call sequence addressed to it, whatever went to other streams. -/
lemma eventsOf_appendCalls (s msg : String) (calls : List AppendCall) :
    ∀ m : MemoryStreamManager,
      ((eventsOf m s msg).length : Int) + ((eventsFor s msg calls).length : Int) ≤
        DefaultMaxEventsPerStream →
      eventsOf (appendCalls m calls) s msg = eventsOf m s msg ++ eventsFor s msg calls := by
  induction calls with
  | nil => intro m _; simp [appendCalls, eventsFor]
  | cons c cs ih =>
    intro m h
    by_cases hc : c.sessionID = s ∧ c.messageID = msg
    · obtain ⟨h1, h2⟩ := hc
      have hfor : eventsFor s msg (c :: cs) = stampEvent c.event c.clock :: eventsFor s msg cs := by
        simp [eventsFor, h1, h2]
      rw [hfor] at h ⊢
      simp only [List.length_cons, Nat.cast_add, Nat.cast_one] at h
      have hstep := eventsOf_AppendEvent m s msg c.event c.clock
      rw [appendBounded_of_lt _ _ (by omega)] at hstep
      simp only [appendCalls, h1, h2]
      have hroom : ((eventsOf (AppendEvent m s msg c.event c.clock).2 s msg).length : Int) +
          ((eventsFor s msg cs).length : Int) ≤ DefaultMaxEventsPerStream := by
        rw [hstep]
        simp only [List.length_append, List.length_singleton, Nat.cast_add, Nat.cast_one]
        omega
      rw [ih _ hroom, hstep]
      simp
    · have hfor : eventsFor s msg (c :: cs) = eventsFor s msg cs := by
        simp [eventsFor, hc]
      rw [hfor] at h ⊢
      have hne : s ≠ c.sessionID ∨ msg ≠ c.messageID := by
        by_contra hcon
        simp only [not_or, not_not] at hcon
        exact hc ⟨hcon.1.symm, hcon.2.symm⟩
      have hstep := eventsOf_AppendEvent_other m c.sessionID c.messageID s msg c.event c.clock hne
      simp only [appendCalls]
      rw [ih _ (by rw [hstep]; exact h), hstep]

lemma eventsFor_length_split (s m1 m2 : String) (hne : m1 ≠ m2) (calls : List AppendCall)
    (ht : ∀ c ∈ calls, c.sessionID = s ∧ (c.messageID = m1 ∨ c.messageID = m2)) :
    (eventsFor s m1 calls).length + (eventsFor s m2 calls).length = calls.length := by
  induction calls with
  | nil => rfl
  | cons c cs ih =>
    have hc := ht c (List.mem_cons_self _ _)
    have ih' := ih (fun c' hc' => ht c' (List.mem_cons_of_mem _ hc'))
    simp only [eventsFor, List.length_map] at ih' ⊢
    rcases hc.2 with h | h
    · have h2 : c.messageID ≠ m2 := by rw [h]; exact hne
      simp only [List.filter_cons, hc.1, h, hne, and_self, decide_True, and_false, decide_False,
        if_true, List.length_cons, true_and, Bool.false_eq_true, if_false]
      omega
    · have h1 : c.messageID ≠ m1 := by rw [h]; exact Ne.symm hne
      simp only [List.filter_cons, hc.1, h, Ne.symm hne, and_self, decide_True, and_false,
        decide_False, if_true, List.length_cons, true_and, Bool.false_eq_true, if_false]
      omega

/-- C22: for any interleaving of `AppendEvent` calls to two distinct new
streams `(s, m1)` and `(s, m2)` of one session, fewer than 10000 per stream,
`GetEvents` from offset 0 on each stream returns exactly the events addressed to
it, in call order (every call's event is in one of the two results); and an
`AppendEvent` to one stream leaves every other buffer, events and `lastUpdated`
included, unchanged. -/
theorem interleaved_appends_do_not_interfere (m : MemoryStreamManager) (s m1 m2 : String)
    (hne : m1 ≠ m2) (calls : List AppendCall)
    (hnew1 : getStream m s m1 = none) (hnew2 : getStream m s m2 = none)
    (ht : ∀ c ∈ calls, c.sessionID = s ∧ (c.messageID = m1 ∨ c.messageID = m2))
    (hn1 : ((eventsFor s m1 calls).length : Int) < DefaultMaxEventsPerStream)
    (hn2 : ((eventsFor s m2 calls).length : Int) < DefaultMaxEventsPerStream) :
    GetEvents (appendCalls m calls) s m1 0 =
      some ({ events := eventsFor s m1 calls,
              nextOffset := ((eventsFor s m1 calls).length : Int), err := none },
            appendCalls m calls) ∧
    GetEvents (appendCalls m calls) s m2 0 =
      some ({ events := eventsFor s m2 calls,
              nextOffset := ((eventsFor s m2 calls).length : Int), err := none },
            appendCalls m calls) ∧
    (eventsFor s m1 calls).length + (eventsFor s m2 calls).length = calls.length ∧
    (∀ (m' : MemoryStreamManager) (sess msgid s' msg' : String) (ev : StreamEvent)
      (c : AppendClock), s' ≠ sess ∨ msg' ≠ msgid →
      getStream (AppendEvent m' sess msgid ev c).2 s' msg' = getStream m' s' msg') := by
  have hread : ∀ msg, getStream m s msg = none →
      ((eventsFor s msg calls).length : Int) < DefaultMaxEventsPerStream →
      GetEvents (appendCalls m calls) s msg 0 =
        some ({ events := eventsFor s msg calls,
                nextOffset := ((eventsFor s msg calls).length : Int), err := none },
              appendCalls m calls) := by
    intro msg hnew hn
    have h0 := eventsOf_of_getStream_none m s msg hnew
    have hroom : ((eventsOf m s msg).length : Int) + ((eventsFor s msg calls).length : Int) ≤
        DefaultMaxEventsPerStream := by
      rw [h0]
      simp only [List.length_nil, Nat.cast_zero, zero_add]
      omega
    have hev : eventsOf (appendCalls m calls) s msg = eventsFor s msg calls := by
      rw [eventsOf_appendCalls s msg calls m hroom, h0]
      rfl
    rw [GetEvents_of_eventsOf _ _ _ _ (le_refl 0), hev]
    cases hl : eventsFor s msg calls with
    | nil => simp
    | cons x xs =>
      have : ¬ (0 : Int) ≥ ((x :: xs).length : Int) := by
        simp only [List.length_cons, Nat.cast_add, Nat.cast_one]
        omega
      rw [if_neg this]
      simp
  exact ⟨hread m1 hnew1 hn1, hread m2 hnew2 hn2, eventsFor_length_split s m1 m2 hne calls ht,
    fun m' sess msgid s' msg' ev c h => getStream_AppendEvent_other m' sess msgid s' msg' ev c h⟩

/-- C22 witness: two appends to `(s1, m1)` interleaved with two to `(s1, m2)`. -/
theorem interleaved_appends_do_not_interfere_witness :
    GetEvents (appendCalls (NewMemoryStreamManager []) sampleInterleaving) "s1" "m2" 0 =
      some ({ events := eventsFor "s1" "m2" sampleInterleaving,
              nextOffset := ((eventsFor "s1" "m2" sampleInterleaving).length : Int),
              err := none },
            appendCalls (NewMemoryStreamManager []) sampleInterleaving) ∧
    eventsFor "s1" "m2" sampleInterleaving =
      [{ Timestamp := 2, payload := 20 }, { Timestamp := 3, payload := 21 }] :=
  ⟨(interleaved_appends_do_not_interfere (NewMemoryStreamManager []) "s1" "m1" "m2" (by decide)
      sampleInterleaving rfl rfl (by decide) (by decide) (by decide)).2.1,
   by decide⟩

/-! ## C24, C28: offsets after truncation and at the size bound -/

/-- The buffer after 10001 appends to a new stream: the appended events
without the first 5000. -/
lemma eventsOf_after_overflow (m : MemoryStreamManager) (s msg : String)
    (xs : List (StreamEvent × AppendClock)) (hnew : getStream m s msg = none)
    (hlen : xs.length = 10001) :
    eventsOf (appendAll m s msg xs) s msg = (xs.map (fun x => stampEvent x.1 x.2)).drop 5000 := by
  have h0 := eventsOf_of_getStream_none m s msg hnew
  have hne : xs ≠ [] := by
    intro h
    rw [h] at hlen
    simp at hlen
  obtain ⟨ys, y, hxs⟩ : ∃ ys y, xs = ys ++ [y] :=
    ⟨xs.dropLast, xs.getLast hne, (List.dropLast_append_getLast hne).symm⟩
  have hys : ys.length = 10000 := by
    rw [hxs] at hlen
    simpa using hlen
  have hfirst : eventsOf (appendAll m s msg ys) s msg =
      ys.map (fun x => stampEvent x.1 x.2) := by
    rw [eventsOf_appendAll s msg ys m (by rw [h0, hys]; decide), h0]
    rfl
  rw [hxs, appendAll_append]
  simp only [appendAll]
  rw [eventsOf_AppendEvent, appendBounded_of_full _ _ (by rw [hfirst]; simp [hys]; decide),
    hfirst]
  simp only [List.map_append, List.map_cons, List.map_nil]
  rw [List.drop_append_of_le_length (by simp [hys])]

/-- C24 (as amended): after a buffer that held `e0 .. e9999` was truncated by
the append of `e10000`, `GetEvents` with a previously issued offset `k`,
`1 ≤ k ≤ 10000`, returns the empty list and `k` only for `k ≥ 5001`; for
`k ≤ 5000` it returns the retained events from position `k` on, which are
`e(5000+k) .. e10000`, with `nextOffset = 5001`. -/
theorem offsets_after_truncation (m : MemoryStreamManager) (s msg : String)
    (xs : List (StreamEvent × AppendClock)) (hnew : getStream m s msg = none)
    (hlen : (xs.length : Int) = DefaultMaxEventsPerStream + 1) (k : Int) (hk1 : 1 ≤ k)
    (hk2 : k ≤ 10000) :
    (5001 ≤ k → GetEvents (appendAll m s msg xs) s msg k =
      some ({ events := [], nextOffset := k, err := none }, appendAll m s msg xs)) ∧
    (k ≤ 5000 → GetEvents (appendAll m s msg xs) s msg k =
      some ({ events := (xs.map (fun x => stampEvent x.1 x.2)).drop (5000 + k.toNat),
              nextOffset := 5001, err := none }, appendAll m s msg xs)) := by
  have hlen' : xs.length = 10001 := by
    simp only [DefaultMaxEventsPerStream] at hlen
    omega
  have hev := eventsOf_after_overflow m s msg xs hnew hlen'
  have hl : (eventsOf (appendAll m s msg xs) s msg).length = 5001 := by
    rw [hev]
    simp [hlen']
  constructor
  · intro hk
    rw [GetEvents_of_eventsOf _ _ _ _ (by omega), hl]
    rw [if_pos (by push_cast; omega)]
  · intro hk
    rw [GetEvents_of_eventsOf _ _ _ _ (by omega), hl]
    rw [if_neg (by push_cast; omega), hev, List.drop_drop]
    have : k.toNat + 5000 = 5000 + k.toNat := by omega
    simp [this]

/-- C24 witness: offsets 1 and 5001 after `e0 .. e10000` were appended. -/
theorem offsets_after_truncation_witness :
    GetEvents (appendAll (NewMemoryStreamManager []) "s1" "m1" manyAppends) "s1" "m1" 5001 =
      some ({ events := [], nextOffset := 5001, err := none },
            appendAll (NewMemoryStreamManager []) "s1" "m1" manyAppends) :=
  (offsets_after_truncation (NewMemoryStreamManager []) "s1" "m1" manyAppends rfl
    (by simp [manyAppends, DefaultMaxEventsPerStream]) 5001 (by decide) (by decide)).1
    (by decide)

/-- C24 as stated fails at `k = 1`: after the truncation `GetEvents` from
offset 1 returns 5000 events, the first of which is `e5001`, not an empty list. -/
theorem stale_offset_returns_shifted_events :
    ∃ r, GetEvents (appendAll (NewMemoryStreamManager []) "s1" "m1" manyAppends) "s1" "m1" 1 =
        some (r, appendAll (NewMemoryStreamManager []) "s1" "m1" manyAppends) ∧
      r.events.length = 5000 ∧ r.nextOffset = 5001 ∧
      r.events.head? = some { Timestamp := 1, payload := 5001 } := by
  have hlen : manyAppends.length = 10001 := by simp [manyAppends]
  have hev := eventsOf_after_overflow (NewMemoryStreamManager []) "s1" "m1" manyAppends rfl hlen
  have hl : (eventsOf (appendAll (NewMemoryStreamManager []) "s1" "m1" manyAppends)
      "s1" "m1").length = 5001 := by
    rw [hev]
    simp [hlen]
  refine ⟨{ events := (eventsOf (appendAll (NewMemoryStreamManager []) "s1" "m1" manyAppends)
              "s1" "m1").drop 1,
            nextOffset := 5001, err := none }, ?_, ?_, rfl, ?_⟩
  · rw [GetEvents_of_eventsOf _ _ _ _ (by decide), hl]
    rw [if_neg (by decide)]
    rfl
  · simp [hl]
  · rw [hev]
    simp [manyAppends, List.head?_drop, stampEvent]

lemma BoundedBuffers_foldl (calls : List ManagerCall) :
    ∀ m : MemoryStreamManager, BoundedBuffers m → BoundedBuffers (calls.foldl applyCall m) := by
  induction calls with
  | nil => intro m h; exact h
  | cons c cs ih =>
    intro m h
    rw [List.foldl_cons]
    exact ih _ (BoundedBuffers_applyCall m c h)

lemma BoundedBuffers_appendAll (s msg : String) (xs : List (StreamEvent × AppendClock)) :
    ∀ m : MemoryStreamManager, BoundedBuffers m → BoundedBuffers (appendAll m s msg xs) := by
  induction xs with
  | nil => intro m h; exact h
  | cons x xs ih =>
    intro m h
    exact ih _ (BoundedBuffers_AppendEvent m s msg x.1 x.2 h)

lemma eventsOf_length_le (m : MemoryStreamManager) (hb : BoundedBuffers m) (s msg : String) :
    ((eventsOf m s msg).length : Int) ≤ DefaultMaxEventsPerStream := by
  unfold eventsOf
  cases hg : getStream m s msg with
  | none => simp [DefaultMaxEventsPerStream]
  | some d =>
    unfold getStream at hg
    cases hl : mapLookup m.streams s with
    | none => rw [hl] at hg; simp at hg
    | some sm =>
      rw [hl] at hg
      exact hb (s, sm) (mapLookup_mem _ _ _ hl) (msg, d) (mapLookup_mem _ _ _ hg)

lemma GetEvents_at_bound (m : MemoryStreamManager) (hb : BoundedBuffers m) (s msg : String)
    (off : Int) (hoff : DefaultMaxEventsPerStream ≤ off) :
    GetEvents m s msg off = some ({ events := [], nextOffset := off, err := none }, m) := by
  have hle := eventsOf_length_le m hb s msg
  have h0 : (0 : Int) ≤ off := by
    unfold DefaultMaxEventsPerStream at hoff
    omega
  rw [GetEvents_of_eventsOf _ _ _ _ h0, if_pos (by omega)]

/-- C28: in every manager state reached from `NewMemoryStreamManager`, for
every stream and every `fromOffset ≥ DefaultMaxEventsPerStream`, `GetEvents`
returns the empty list and the same offset; and this stays so however many
further events are appended to the stream. -/
theorem GetEvents_empty_at_size_bound (opts : List MemoryStreamManagerOption)
    (calls : List ManagerCall) (s msg : String) (fromOffset : Int)
    (hoff : DefaultMaxEventsPerStream ≤ fromOffset) :
    GetEvents (calls.foldl applyCall (NewMemoryStreamManager opts)) s msg fromOffset =
      some ({ events := [], nextOffset := fromOffset, err := none },
            calls.foldl applyCall (NewMemoryStreamManager opts)) ∧
    (∀ more : List (StreamEvent × AppendClock),
      GetEvents (appendAll (calls.foldl applyCall (NewMemoryStreamManager opts)) s msg more)
          s msg fromOffset =
        some ({ events := [], nextOffset := fromOffset, err := none },
              appendAll (calls.foldl applyCall (NewMemoryStreamManager opts)) s msg more)) := by
  have h0 : BoundedBuffers (NewMemoryStreamManager opts) := by
    intro entry he
    rw [NewMemoryStreamManager_streams] at he
    simp at he
  have hb := BoundedBuffers_foldl calls _ h0
  exact ⟨GetEvents_at_bound _ hb s msg fromOffset hoff,
    fun more => GetEvents_at_bound _ (BoundedBuffers_appendAll s msg more _ hb) s msg
      fromOffset hoff⟩

/-- C28 witness: a poll at offset 10000 after a short run of calls. -/
theorem GetEvents_empty_at_size_bound_witness :
    GetEvents (sampleCalls.foldl applyCall (NewMemoryStreamManager [])) "s1" "m2" 10000 =
      some ({ events := [], nextOffset := 10000, err := none },
            sampleCalls.foldl applyCall (NewMemoryStreamManager [])) :=
  (GetEvents_empty_at_size_bound [] sampleCalls "s1" "m2" 10000 (by decide)).1

/-! ## C25: masking credentials -/

lemma mapLookup_map_value {β : Type} (g : String → β → β) (l : List (String × β))
    (k : String) :
    mapLookup (l.map (fun kv => (kv.1, g kv.1 kv.2))) k = (mapLookup l k).map (g k) := by
  induction l with
  | nil => rfl
  | cons p l ih =>
    obtain ⟨k', v'⟩ := p
    by_cases h : k' = k
    · subst h
      simp [mapLookup]
    · simp [mapLookup, h, ih]

lemma foldl_mapInsert_of_nodup {β : Type} (g : String → β → β) (l : List (String × β)) :
    ∀ acc : List (String × β), ((acc ++ l).map Prod.fst).Nodup →
      l.foldl (fun acc kv => mapInsert acc kv.1 (g kv.1 kv.2)) acc =
        acc ++ l.map (fun kv => (kv.1, g kv.1 kv.2)) := by
  induction l with
  | nil => intro acc _; simp
  | cons p l ih =>
    intro acc hnd
    have habs : mapLookup acc p.1 = none := by
      rw [mapLookup_eq_none_iff]
      intro hmem
      simp only [List.map_append, List.map_cons] at hnd
      have := (List.nodup_append.1 hnd).2.2
      exact this hmem (List.mem_cons_self _ _)
    rw [List.foldl_cons, mapInsert_of_absent _ _ _ habs]
    rw [ih _ (by
      simp only [List.map_append, List.map_cons, List.map_nil, List.append_assoc,
        List.singleton_append] at hnd ⊢
      exact hnd)]
    simp

lemma HideSensitiveInfo_credentials (c : ProviderCredential)
    (hnd : (c.Credentials.map Prod.fst).Nodup) :
    (HideSensitiveInfo c).2.Credentials =
      c.Credentials.map (fun kv => (kv.1, maskedValue kv.1 kv.2)) := by
  have hfun : (fun (acc : List (String × List Nat)) (kv : String × List Nat) =>
      if kv.1 = "api_key" ∨ kv.1 = "secret_key" then
        if kv.2.length > 8 then
          mapInsert acc kv.1 (kv.2.take 4 ++ fourStars ++ kv.2.drop (kv.2.length - 4))
        else mapInsert acc kv.1 fourStars
      else mapInsert acc kv.1 kv.2) =
      (fun acc kv => mapInsert acc kv.1 (maskedValue kv.1 kv.2)) := by
    funext acc kv
    unfold maskedValue
    split_ifs <;> rfl
  simp only [HideSensitiveInfo, hfun]
  rw [foldl_mapInsert_of_nodup maskedValue c.Credentials [] (by simpa using hnd)]
  simp

/-- C25: `HideSensitiveInfo` leaves the receiver as it was and returns a copy
whose `Credentials` map has the same keys; the value under `api_key` or
`secret_key` is the first 4 bytes, four asterisks and the last 4 bytes of the
original when that is longer than 8 bytes, and four asterisks otherwise; every
other key keeps its value; and every other field equals the receiver's. -/
theorem HideSensitiveInfo_masks_secrets (c : ProviderCredential)
    (hnd : (c.Credentials.map Prod.fst).Nodup) :
    (HideSensitiveInfo c).1 = c ∧
    (HideSensitiveInfo c).2.Credentials.map Prod.fst = c.Credentials.map Prod.fst ∧
    (∀ k, mapLookup c.Credentials k = none →
      mapLookup (HideSensitiveInfo c).2.Credentials k = none) ∧
    (∀ k v, mapLookup c.Credentials k = some v → (k = "api_key" ∨ k = "secret_key") →
      v.length > 8 →
      mapLookup (HideSensitiveInfo c).2.Credentials k =
        some (v.take 4 ++ fourStars ++ v.drop (v.length - 4))) ∧
    (∀ k v, mapLookup c.Credentials k = some v → (k = "api_key" ∨ k = "secret_key") →
      v.length ≤ 8 → mapLookup (HideSensitiveInfo c).2.Credentials k = some fourStars) ∧
    (∀ k v, mapLookup c.Credentials k = some v → ¬ (k = "api_key" ∨ k = "secret_key") →
      mapLookup (HideSensitiveInfo c).2.Credentials k = some v) ∧
    (HideSensitiveInfo c).2.ID = c.ID ∧ (HideSensitiveInfo c).2.TenantID = c.TenantID ∧
    (HideSensitiveInfo c).2.Provider = c.Provider ∧ (HideSensitiveInfo c).2.Name = c.Name ∧
    (HideSensitiveInfo c).2.BaseURL = c.BaseURL ∧
    (HideSensitiveInfo c).2.IsDefault = c.IsDefault ∧
    (HideSensitiveInfo c).2.Status = c.Status ∧
    (HideSensitiveInfo c).2.QuotaConfig = c.QuotaConfig ∧
    (HideSensitiveInfo c).2.CreatedAt = c.CreatedAt ∧
    (HideSensitiveInfo c).2.UpdatedAt = c.UpdatedAt ∧
    (HideSensitiveInfo c).2.DeletedAt = c.DeletedAt := by
  have hcred := HideSensitiveInfo_credentials c hnd
  have hlook : ∀ k, mapLookup (HideSensitiveInfo c).2.Credentials k =
      (mapLookup c.Credentials k).map (maskedValue k) := by
    intro k
    rw [hcred]
    exact mapLookup_map_value maskedValue c.Credentials k
  refine ⟨rfl, ?_, ?_, ?_, ?_, ?_, rfl, rfl, rfl, rfl, rfl, rfl, rfl, rfl, rfl, rfl, rfl⟩
  · rw [hcred]
    simp [List.map_map, Function.comp]
  · intro k hk
    rw [hlook, hk]
    rfl
  · intro k v hk hkey hlen
    rw [hlook, hk]
    simp [maskedValue, hkey, hlen]
  · intro k v hk hkey hlen
    rw [hlook, hk]
    have : ¬ v.length > 8 := by omega
    simp [maskedValue, hkey, this]
  · intro k v hk hkey
    rw [hlook, hk]
    simp [maskedValue, hkey]

/-- C25 witness: a 12-byte `api_key`, a 3-byte `secret_key` and a plain entry. -/
theorem HideSensitiveInfo_masks_secrets_witness :
    mapLookup (HideSensitiveInfo sampleCredential).2.Credentials "api_key" =
      some [115, 107, 45, 49, 42, 42, 42, 42, 54, 55, 56, 57] ∧
    mapLookup (HideSensitiveInfo sampleCredential).2.Credentials "secret_key" =
      some fourStars :=
  have h := HideSensitiveInfo_masks_secrets sampleCredential (by decide)
  ⟨h.2.2.2.1 "api_key" [115, 107, 45, 49, 50, 51, 52, 53, 54, 55, 56, 57] rfl
     (Or.inl rfl) (by decide),
   h.2.2.2.2.1 "secret_key" [97, 98, 99] (by decide) (Or.inr rfl) (by decide)⟩

end WeKnow
